import Mathlib

/-!
# K8sMed: pod rule engine and remediation synthesizer

A shallow embedding of `pkg/analyzer/analyzer.go`, `pkg/remediation/remediation.go` and
`pkg/ai/anonymizer/anonymizer.go`.

* Go strings are byte sequences, so `Str` is `List UInt8`; `lit` gives the UTF-8 bytes of a
  source literal.  `len`, `strings.Index` and slicing count bytes, as in Go.
* The functions of the Go standard library that the code calls (`strings`, `unicode`,
  `unicode/utf8`, `fmt.Sprintf` with `%d`) are written out after their Go sources.  The one part
  that is a large data table, the Unicode lower-case mapping of non-ASCII runes, is a parameter
  `tbl : Nat → Nat` of everything that lower-cases text.
* A Go `map[string]string` is a list of key/value pairs: a lookup returns the first pair with the
  key, `range` visits the pairs in list order.  Go fixes no iteration order, so a statement about
  every list is a statement about every order.  Every `range` loop draws its order afresh, so a
  statement that compares two calls takes the snapshot in two enumerations (`sameSnapshot`).
* A run-time panic and an exhausted loop budget are the two faults of `Except Fault`.
* Go appends to the context in place.  `PodAnalyzer.Analyze` gives a call by what it returns;
  `PodAnalyzer.AnalyzeState` gives it by the context that it leaves, also when it panics.
-/

namespace K8sMed

/-- Go string: an immutable sequence of bytes. -/
abbrev Str := List UInt8

/-- UTF-8 bytes of a string literal of the source. -/
def lit (s : String) : Str := s.toList.flatMap String.utf8EncodeChar

/-- Ways in which a modelled call can fail to return. -/
inductive Fault where
  | panic
  | outOfFuel
  deriving DecidableEq, Repr

/-! ## Package `unicode/utf8` -/

namespace utf8

/-- Replacement rune U+FFFD, produced when decoding invalid UTF-8. -/
def RuneError : Nat := 0xFFFD

/-- Continuation byte test: `locb <= b <= hicb` in `utf8.go`. -/
def isCont (b : UInt8) : Bool := decide (0x80 ≤ b.toNat ∧ b.toNat ≤ 0xBF)

/-- Model of `utf8.DecodeRuneInString`: the first rune of `s` and its width in bytes; an invalid or
short encoding gives `(RuneError, 1)`, the empty string `(RuneError, 0)`. -/
def DecodeRune : Str → Nat × Nat
  | [] => (RuneError, 0)
  | s0 :: t =>
    let b0 := s0.toNat
    if b0 < 0x80 then (b0, 1)
    else if b0 < 0xC2 then (RuneError, 1)
    else if b0 < 0xE0 then
      match t with
      | s1 :: _ =>
        if isCont s1 then ((b0 % 32) * 64 + s1.toNat % 64, 2) else (RuneError, 1)
      | _ => (RuneError, 1)
    else if b0 < 0xF0 then
      match t with
      | s1 :: s2 :: _ =>
        let lo := if b0 = 0xE0 then 0xA0 else 0x80
        let hi := if b0 = 0xED then 0x9F else 0xBF
        if s1.toNat < lo ∨ hi < s1.toNat then (RuneError, 1)
        else if !isCont s2 then (RuneError, 1)
        else ((b0 % 16) * 4096 + (s1.toNat % 64) * 64 + s2.toNat % 64, 3)
      | _ => (RuneError, 1)
    else if b0 < 0xF5 then
      match t with
      | s1 :: s2 :: s3 :: _ =>
        let lo := if b0 = 0xF0 then 0x90 else 0x80
        let hi := if b0 = 0xF4 then 0x8F else 0xBF
        if s1.toNat < lo ∨ hi < s1.toNat then (RuneError, 1)
        else if !isCont s2 then (RuneError, 1)
        else if !isCont s3 then (RuneError, 1)
        else ((b0 % 8) * 262144 + (s1.toNat % 64) * 4096 + (s2.toNat % 64) * 64 + s3.toNat % 64, 4)
      | _ => (RuneError, 1)
    else (RuneError, 1)

/-- Model of `utf8.AppendRune`: the UTF-8 bytes of rune `r`; surrogates and values above U+10FFFF
are written as U+FFFD. -/
def EncodeRune (r : Nat) : Str :=
  if r ≤ 0x7F then [UInt8.ofNat r]
  else if r ≤ 0x7FF then [UInt8.ofNat (0xC0 + r / 64), UInt8.ofNat (0x80 + r % 64)]
  else if 0x10FFFF < r ∨ (0xD800 ≤ r ∧ r ≤ 0xDFFF) then [0xEF, 0xBF, 0xBD]
  else if r ≤ 0xFFFF then
    [UInt8.ofNat (0xE0 + r / 4096), UInt8.ofNat (0x80 + r / 64 % 64), UInt8.ofNat (0x80 + r % 64)]
  else
    [UInt8.ofNat (0xF0 + r / 262144), UInt8.ofNat (0x80 + r / 4096 % 64),
      UInt8.ofNat (0x80 + r / 64 % 64), UInt8.ofNat (0x80 + r % 64)]

/-- Model of `utf8.DecodeLastRuneInString`: the last rune of `s` and its width. -/
def DecodeLastRune (s : Str) : Nat × Nat :=
  match s.reverse with
  | [] => (RuneError, 0)
  | l0 :: before =>
    if l0.toNat < 0x80 then (l0.toNat, 1)
    else
      -- walk back over at most three more bytes to the nearest byte that starts a rune
      let back := (before.take 3).takeWhile isCont
      let k := if back.length < (before.take 3).length then back.length + 2 else back.length + 1
      let (r, size) := DecodeRune (s.drop (s.length - k))
      if size ≠ k then (RuneError, 1) else (r, size)

end utf8

/-! ## Package `unicode` -/

namespace unicode

/-- Model of `unicode.ToLower`: ASCII letters are lowered by the code itself, every other rune goes
through the Unicode case table `tbl`. -/
def ToLower (tbl : Nat → Nat) (r : Nat) : Nat :=
  if r ≤ 0x7F then (if 0x41 ≤ r ∧ r ≤ 0x5A then r + 32 else r) else tbl r

/-- Model of `unicode.IsSpace`: the Latin-1 spaces of the source and the `White_Space` table. -/
def IsSpace (r : Nat) : Bool :=
  if r ≤ 0xFF then
    decide (r = 0x09 ∨ r = 0x0A ∨ r = 0x0B ∨ r = 0x0C ∨ r = 0x0D ∨ r = 0x20 ∨ r = 0x85 ∨ r = 0xA0)
  else
    decide (r = 0x1680 ∨ (0x2000 ≤ r ∧ r ≤ 0x200A) ∨ r = 0x2028 ∨ r = 0x2029 ∨ r = 0x202F
      ∨ r = 0x205F ∨ r = 0x3000)

/-- Excerpt of the Unicode lower-case table for non-ASCII runes, used to evaluate the model on
concrete text: the Latin-1 capitals and U+023A (whose lower-case form U+2C65 is one byte longer
in UTF-8); the identity elsewhere. -/
def lowerExcerpt (r : Nat) : Nat :=
  if r = 0x23A then 0x2C65
  else if 0xC0 ≤ r ∧ r ≤ 0xDE ∧ r ≠ 0xD7 then r + 32
  else r

end unicode

/-! ## Package `strings` -/

namespace strings

/-- Model of `strings.HasPrefix`. -/
def HasPrefix (s pre : Str) : Bool := pre.isPrefixOf s

/-- Model of `strings.HasSuffix`. -/
def HasSuffix (s suf : Str) : Bool := suf.isSuffixOf s

/-- Model of `strings.TrimPrefix`. -/
def TrimPrefix (s pre : Str) : Str := if HasPrefix s pre then s.drop pre.length else s

/-- Search loop of `strings.Index`: byte offset of the first occurrence of `substr` at or after
offset `i`, the rest of the text being `s`; `-1` when there is none. -/
def indexFrom (substr : Str) : Str → Nat → Int
  | [], i => if substr.isPrefixOf [] then (i : Int) else -1
  | a :: t, i => if substr.isPrefixOf (a :: t) then (i : Int) else indexFrom substr t (i + 1)

/-- Model of `strings.Index`. -/
def Index (s substr : Str) : Int := indexFrom substr s 0

/-- Model of `strings.Contains`. -/
def Contains (s substr : Str) : Bool := decide (Index s substr ≥ 0)

/-- Loop of `strings.Split` for a non-empty separator: `cur` holds the bytes of the current piece
in reverse, `skip` the bytes of a separator still to be passed over. -/
def splitAux (sep : Str) : Str → Str → Nat → List Str
  | [], cur, _ => [cur.reverse]
  | _ :: t, cur, skip + 1 => splitAux sep t cur skip
  | a :: t, cur, 0 =>
    if sep.isPrefixOf (a :: t) then cur.reverse :: splitAux sep t [] (sep.length - 1)
    else splitAux sep t (a :: cur) 0

/-- Model of `strings.Split` for a non-empty separator (the code splits on "." and on "\n"). -/
def Split (s sep : Str) : List Str := splitAux sep s [] 0

/-- Model of `strings.Join`. -/
def Join (elems : List Str) (sep : Str) : Str := sep.intercalate elems

/-- Loop of `strings.Map`: decode a rune, map it, append its encoding. -/
def mapAux (mapping : Nat → Nat) : Nat → Str → Str
  | 0, _ => []
  | fuel + 1, s =>
    match s with
    | [] => []
    | _ :: _ =>
      let (c, width) := utf8.DecodeRune s
      utf8.EncodeRune (mapping c) ++ mapAux mapping fuel (s.drop width)

/-- Model of `strings.Map` for a mapping that never returns a negative rune: every rune of `s` is
replaced by its image, every invalid byte by the image of U+FFFD.  (Go copies the unchanged valid
runes before the first change; their re-encoding is the same bytes.) -/
def Map (mapping : Nat → Nat) (s : Str) : Str := mapAux mapping s.length s

/-- Model of `strings.ToLower`: pure-ASCII text is lowered byte by byte, any other text goes through
`Map(unicode.ToLower, s)`. -/
def ToLower (tbl : Nat → Nat) (s : Str) : Str :=
  if s.all (fun b => decide (b.toNat < 0x80)) then
    s.map (fun b => if 0x41 ≤ b.toNat ∧ b.toNat ≤ 0x5A then b + 32 else b)
  else Map (unicode.ToLower tbl) s

/-- Loop of `strings.TrimLeftFunc(s, unicode.IsSpace)`. -/
def trimLeftAux : Nat → Str → Str
  | 0, s => s
  | fuel + 1, s =>
    match s with
    | [] => []
    | _ :: _ =>
      let (r, width) := utf8.DecodeRune s
      if unicode.IsSpace r then trimLeftAux fuel (s.drop width) else s

/-- Loop of `strings.TrimRightFunc(s, unicode.IsSpace)`. -/
def trimRightAux : Nat → Str → Str
  | 0, s => s
  | fuel + 1, s =>
    match s with
    | [] => []
    | _ :: _ =>
      let (r, width) := utf8.DecodeLastRune s
      if unicode.IsSpace r then trimRightAux fuel (s.take (s.length - width)) else s

/-- Model of `strings.TrimSpace`: leading and trailing Unicode white space removed. -/
def TrimSpace (s : Str) : Str :=
  let t := trimLeftAux s.length s
  trimRightAux t.length t

end strings

/-- Model of a Go slice expression `s[lo:hi]` on a string: panics unless `0 <= lo <= hi <= len(s)`. -/
def sliceStr (s : Str) (lo hi : Int) : Except Fault Str :=
  if 0 ≤ lo ∧ lo ≤ hi ∧ hi ≤ (s.length : Int) then .ok ((s.take hi.toNat).drop lo.toNat)
  else .error Fault.panic

/-- Digit loop of the `%d` verb: decimal digits of `n`, most significant first, in front of `acc`. -/
def digitsAux : Nat → Nat → Str → Str
  | 0, _, acc => acc
  | fuel + 1, n, acc =>
    let acc1 := UInt8.ofNat (48 + n % 10) :: acc
    if n / 10 = 0 then acc1 else digitsAux fuel (n / 10) acc1

/-- Model of `fmt.Sprintf("%d", n)` for a non-negative `n`. -/
def Itoa (n : Nat) : Str := digitsAux (n + 1) n []

/-! ## Package `collector`: the data the analyzers read -/

/-- Go `ResourceInfo`: basic information about a Kubernetes resource. -/
structure ResourceInfo where
  Kind : Str
  Name : Str
  Namespace : Str
  Labels : List (Str × Str)
  deriving DecidableEq, Repr

/-- Go `ResourceData`: the collected data of one resource. -/
structure ResourceData where
  Resource : ResourceInfo
  Manifest : Str
  Events : List Str
  Logs : List Str
  Status : List (Str × Str)
  Related : List ResourceInfo
  deriving DecidableEq, Repr

/-- Map read `v, ok := m[k]`: `none` when the key is absent. -/
def mapGet? (m : List (Str × Str)) (k : Str) : Option Str := m.lookup k

/-- Map read `m[k]`: the empty string when the key is absent. -/
def mapGet (m : List (Str × Str)) (k : Str) : Str := (mapGet? m k).getD []

/-! ## Package `analyzer` -/

/-- Go `AnalysisDetail`: one finding (`Type` is spelled `Type_`, the word being reserved). -/
structure AnalysisDetail where
  Type_ : Str
  Title : Str
  Description : Str
  Resource : ResourceInfo
  Remediation : List Str
  RemediationCommands : List Str
  deriving DecidableEq, Repr

/-- Go `AnalysisContext`: the query, the snapshots and the findings appended so far. -/
structure AnalysisContext where
  Query : Str
  Resources : List ResourceData
  Details : List AnalysisDetail
  deriving DecidableEq, Repr

/-- Statement `analysisCtx.Details = append(analysisCtx.Details, detail)`. -/
def AnalysisContext.appendDetail (analysisCtx : AnalysisContext) (detail : AnalysisDetail) :
    AnalysisContext :=
  { analysisCtx with Details := analysisCtx.Details ++ [detail] }

namespace PodAnalyzer

/-- Finding built in the `CrashLoopBackOff` case of `checkContainerStates`. -/
def crashLoopDetail (resource : ResourceData) (containerName waitMessage : Str) : AnalysisDetail :=
  { Type_ := lit "error"
    Title := lit "Container in CrashLoopBackOff"
    Description := lit "Container " ++ containerName ++ lit " is crash looping: " ++ waitMessage
    Resource := resource.Resource
    Remediation := [
      lit "Check container logs for errors",
      lit "Verify the container command is correct",
      lit "Check if container has appropriate resources",
      lit "Ensure configuration files exist and are correct"]
    RemediationCommands := [
      lit "kubectl logs " ++ resource.Resource.Name ++ lit " -c " ++ containerName ++ lit " -n "
        ++ resource.Resource.Namespace,
      lit "kubectl describe pod " ++ resource.Resource.Name ++ lit " -n "
        ++ resource.Resource.Namespace] }

/-- Finding built in the `ImagePullBackOff`, `ErrImagePull` case of `checkContainerStates`. -/
def imagePullDetail (resource : ResourceData) (containerName waitMessage : Str) : AnalysisDetail :=
  { Type_ := lit "error"
    Title := lit "Image pull failure"
    Description := lit "Container " ++ containerName ++ lit " cannot pull its image: " ++ waitMessage
    Resource := resource.Resource
    Remediation := [
      lit "Verify the image name and tag are correct",
      lit "Check if private registry requires authentication",
      lit "Ensure image pull secrets are configured",
      lit "Verify network connectivity to the registry"]
    RemediationCommands := [
      lit "kubectl describe pod " ++ resource.Resource.Name ++ lit " -n "
        ++ resource.Resource.Namespace] }

/-- Finding built in the `CreateContainerConfigError` case of `checkContainerStates`. -/
def configErrorDetail (resource : ResourceData) (containerName waitMessage : Str) :
    AnalysisDetail :=
  { Type_ := lit "error"
    Title := lit "Container configuration error"
    Description :=
      lit "Container " ++ containerName ++ lit " has configuration errors: " ++ waitMessage
    Resource := resource.Resource
    Remediation := [
      lit "Check if referenced ConfigMaps exist",
      lit "Check if referenced Secrets exist",
      lit "Verify volume mounts are correctly configured",
      lit "Check container environment variables"]
    RemediationCommands := [
      lit "kubectl describe pod " ++ resource.Resource.Name ++ lit " -n "
        ++ resource.Resource.Namespace,
      lit "kubectl get configmaps -n " ++ resource.Resource.Namespace,
      lit "kubectl get secrets -n " ++ resource.Resource.Namespace] }

/-- Body of the `range resource.Status` loop of `checkContainerStates`, for one key and value. -/
def containerStateBody (resource : ResourceData) (analysisCtx : AnalysisContext)
    (key value : Str) : AnalysisContext :=
  if strings.HasSuffix key (lit ".state") && value == lit "waiting" then
    match strings.Split key (lit ".") with
    | p0 :: p1 :: _ =>
      let containerPrefix := p0 ++ lit "." ++ p1 ++ lit "."
      let containerName := mapGet resource.Status (containerPrefix ++ lit "name")
      let waitReason := mapGet resource.Status (containerPrefix ++ lit "reason")
      let waitMessage := mapGet resource.Status (containerPrefix ++ lit "message")
      if containerName = [] ∨ waitReason = [] then analysisCtx
      else if waitReason = lit "CrashLoopBackOff" then
        analysisCtx.appendDetail (crashLoopDetail resource containerName waitMessage)
      else if waitReason = lit "ImagePullBackOff" ∨ waitReason = lit "ErrImagePull" then
        analysisCtx.appendDetail (imagePullDetail resource containerName waitMessage)
      else if waitReason = lit "CreateContainerConfigError" then
        analysisCtx.appendDetail (configErrorDetail resource containerName waitMessage)
      else analysisCtx
    | _ => analysisCtx
  else analysisCtx

/-- Go `checkContainerStates`: one pass over the entries of the status map. -/
def checkContainerStates (resource : ResourceData) (analysisCtx : AnalysisContext) :
    AnalysisContext :=
  resource.Status.foldl (fun ctx kv => containerStateBody resource ctx kv.1 kv.2) analysisCtx

/-- Finding built by `checkEvents` for an event that mentions OOMKilled. -/
def oomDetail (resource : ResourceData) (event : Str) : AnalysisDetail :=
  { Type_ := lit "error"
    Title := lit "Container terminated due to OOMKilled"
    Description :=
      lit "A container was terminated because it exceeded its memory limits: " ++ event
    Resource := resource.Resource
    Remediation := [
      lit "Increase memory limits for the container",
      lit "Optimize the application to use less memory",
      lit "Check for memory leaks in the application"]
    RemediationCommands := [
      lit "kubectl describe pod " ++ resource.Resource.Name ++ lit " -n "
        ++ resource.Resource.Namespace,
      lit "kubectl get pod " ++ resource.Resource.Name ++ lit " -n "
        ++ resource.Resource.Namespace ++ lit " -o yaml"] }

/-- Finding built by `checkEvents` for an event that mentions an eviction. -/
def evictDetail (resource : ResourceData) (event : Str) : AnalysisDetail :=
  { Type_ := lit "warning"
    Title := lit "Pod was evicted"
    Description := lit "The pod was evicted from its node: " ++ event
    Resource := resource.Resource
    Remediation := [
      lit "Check node resource pressure (CPU, memory, disk)",
      lit "Use node affinity to schedule on larger nodes",
      lit "Add resource quotas to prevent resource exhaustion"]
    RemediationCommands := [
      lit "kubectl describe node <node-name>",
      lit "kubectl top nodes"] }

/-- Body of the `range resource.Events` loop of `checkEvents`, for one event. -/
def eventBody (tbl : Nat → Nat) (resource : ResourceData) (analysisCtx : AnalysisContext)
    (event : Str) : AnalysisContext :=
  let lowerEvent := strings.ToLower tbl event
  let ctx1 :=
    if strings.Contains lowerEvent (lit "oomkilled") then
      analysisCtx.appendDetail (oomDetail resource event)
    else analysisCtx
  if strings.Contains lowerEvent (lit "evict") then
    ctx1.appendDetail (evictDetail resource event)
  else ctx1

/-- Go `checkEvents`. -/
def checkEvents (tbl : Nat → Nat) (resource : ResourceData) (analysisCtx : AnalysisContext) :
    AnalysisContext :=
  if resource.Events.length = 0 then analysisCtx
  else resource.Events.foldl (eventBody tbl resource) analysisCtx

/-- Choice of `index` at the head of `extractErrorSnippet`; `none` is the `return ""` branch. -/
def snippetIndex (errorIndex exceptionIndex : Int) : Option Int :=
  if errorIndex ≥ 0 ∧ exceptionIndex ≥ 0 then
    (if errorIndex < exceptionIndex then some errorIndex else some exceptionIndex)
  else if errorIndex ≥ 0 then some errorIndex
  else if exceptionIndex ≥ 0 then some exceptionIndex
  else none

/-- Line cap at the end of `extractErrorSnippet`. -/
def capLines (lines : List Str) : List Str :=
  if lines.length > 3 then
    if lines.length > 4 then lines.take 2 ++ [lit "...", lines.getD (lines.length - 1) []]
    else lines.take 3
  else lines

/-- Go `extractErrorSnippet`; the slice `logs[start:end]` can panic. -/
def extractErrorSnippet (tbl : Nat → Nat) (logs : Str) : Except Fault Str :=
  let errorIndex := strings.Index (strings.ToLower tbl logs) (lit "error")
  let exceptionIndex := strings.Index (strings.ToLower tbl logs) (lit "exception")
  match snippetIndex errorIndex exceptionIndex with
  | none => .ok []
  | some index =>
    let start := if index - 50 < 0 then 0 else index - 50
    let end_ := if index + 100 > (logs.length : Int) then (logs.length : Int) else index + 100
    match sliceStr logs start end_ with
    | .error f => .error f
    | .ok snippet => .ok (strings.Join (capLines (strings.Split snippet (lit "\n"))) (lit "\n"))

/-- Finding built by `checkLogs` when the logs mention an error or exception. -/
def logErrorDetail (resource : ResourceData) (errorSnippet : Str) : AnalysisDetail :=
  { Type_ := lit "warning"
    Title := lit "Errors detected in logs"
    Description := lit "The pod logs contain errors or exceptions: " ++ errorSnippet
    Resource := resource.Resource
    Remediation := [
      lit "Review application logs for detailed error information",
      lit "Check application configuration",
      lit "Verify external dependencies are available"]
    RemediationCommands := [
      lit "kubectl logs " ++ resource.Resource.Name ++ lit " -n " ++ resource.Resource.Namespace] }

/-- Finding built by `checkLogs` when the logs mention a connection problem. -/
def connectionDetail (resource : ResourceData) : AnalysisDetail :=
  { Type_ := lit "warning"
    Title := lit "Connection issues detected"
    Description := lit "The logs show connection problems to other services"
    Resource := resource.Resource
    Remediation := [
      lit "Verify the service endpoints are correct",
      lit "Check network policies allow the connection",
      lit "Ensure the target service is running"]
    RemediationCommands := [
      lit "kubectl get svc -n " ++ resource.Resource.Namespace,
      lit "kubectl get endpoints -n " ++ resource.Resource.Namespace,
      lit "kubectl get networkpolicies -n " ++ resource.Resource.Namespace] }

/-- Second half of `checkLogs`: the connection check. -/
def checkConnection (lowerLogs : Str) (resource : ResourceData) (analysisCtx : AnalysisContext) :
    AnalysisContext :=
  if strings.Contains lowerLogs (lit "connection refused")
      || strings.Contains lowerLogs (lit "cannot connect")
      || strings.Contains lowerLogs (lit "dial tcp") then
    analysisCtx.appendDetail (connectionDetail resource)
  else analysisCtx

/-- Go `checkLogs`. -/
def checkLogs (tbl : Nat → Nat) (resource : ResourceData) (analysisCtx : AnalysisContext) :
    Except Fault AnalysisContext :=
  let combinedLogs := strings.Join resource.Logs (lit "\n")
  let lowerLogs := strings.ToLower tbl combinedLogs
  if strings.Contains lowerLogs (lit "exception") || strings.Contains lowerLogs (lit "error") then
    match extractErrorSnippet tbl combinedLogs with
    | .error f => .error f
    | .ok errorSnippet =>
      .ok (checkConnection lowerLogs resource
        (analysisCtx.appendDetail (logErrorDetail resource errorSnippet)))
  else .ok (checkConnection lowerLogs resource analysisCtx)

/-- Finding built in the `Pending` case of `checkPodStatus` for an unscheduled pod; the commands
are set only when the reason contains "Insufficient". -/
def schedulingDetail (resource : ResourceData) (reason message : Str) : AnalysisDetail :=
  { Type_ := lit "error"
    Title := lit "Pod scheduling issues"
    Description := lit "The pod is in a Pending state and cannot be scheduled: " ++ message
    Resource := resource.Resource
    Remediation := [
      lit "Check cluster resource capacity",
      lit "Check node taints and affinities",
      lit "Check resource requests and limits"]
    RemediationCommands :=
      if strings.Contains reason (lit "Insufficient") then
        [lit "kubectl get nodes", lit "kubectl describe nodes <node-name>", lit "kubectl top nodes"]
      else [] }

/-- Finding built in the `Failed` case of `checkPodStatus`. -/
def failedDetail (resource : ResourceData) : AnalysisDetail :=
  { Type_ := lit "error"
    Title := lit "Pod failed"
    Description := lit "The pod is in a Failed state"
    Resource := resource.Resource
    Remediation := [
      lit "Check pod logs for errors",
      lit "Check pod events for issues",
      lit "Check if containers are configured correctly"]
    RemediationCommands := [
      lit "kubectl logs " ++ resource.Resource.Name ++ lit " -n " ++ resource.Resource.Namespace,
      lit "kubectl describe pod " ++ resource.Resource.Name ++ lit " -n "
        ++ resource.Resource.Namespace] }

/-- Key `fmt.Sprintf("condition.%d.<field>", i)`. -/
def condKey (i : Nat) (field : String) : Str := lit "condition." ++ Itoa i ++ lit "." ++ lit field

/-- Loop `for i := 0; ; i++` of `checkPodStatus`, from index `i`, with a budget of `fuel`
iterations. -/
def condLoop (resource : ResourceData) : Nat → Nat → AnalysisContext → Except Fault AnalysisContext
  | 0, _, _ => .error Fault.outOfFuel
  | fuel + 1, i, analysisCtx =>
    match mapGet? resource.Status (condKey i "type") with
    | none => .ok analysisCtx
    | some condType =>
      match mapGet? resource.Status (condKey i "status") with
      | none => condLoop resource fuel (i + 1) analysisCtx
      | some condStatus =>
        if condType = lit "PodScheduled" ∧ condStatus = lit "False" then
          let reason := mapGet resource.Status (condKey i "reason")
          let message := mapGet resource.Status (condKey i "message")
          condLoop resource fuel (i + 1)
            (analysisCtx.appendDetail (schedulingDetail resource reason message))
        else condLoop resource fuel (i + 1) analysisCtx

/-- Go `checkPodStatus`; the condition loop gets one iteration per entry of the map and one more. -/
def checkPodStatus (resource : ResourceData) (analysisCtx : AnalysisContext) :
    Except Fault AnalysisContext :=
  match mapGet? resource.Status (lit "phase") with
  | none => .ok analysisCtx
  | some phase =>
    if phase = lit "Pending" then
      condLoop resource (resource.Status.length + 1) 0 analysisCtx
    else if phase = lit "Failed" then .ok (analysisCtx.appendDetail (failedDetail resource))
    else .ok analysisCtx

/-- Body of the `range analysisCtx.Resources` loop of `Analyze`, for one snapshot. -/
def analyzeBody (tbl : Nat → Nat) (analysisCtx : AnalysisContext) (resource : ResourceData) :
    Except Fault AnalysisContext :=
  if resource.Resource.Kind = lit "Pod" then
    let ctx1 := checkContainerStates resource analysisCtx
    let ctx2 := checkEvents tbl resource ctx1
    match (if resource.Logs.length > 0 then checkLogs tbl resource ctx2 else .ok ctx2) with
    | .error f => .error f
    | .ok ctx3 => checkPodStatus resource ctx3
  else .ok analysisCtx

/-- Loop of `Analyze` over the snapshots still to visit. -/
def analyzeLoop (tbl : Nat → Nat) : List ResourceData → AnalysisContext →
    Except Fault AnalysisContext
  | [], analysisCtx => .ok analysisCtx
  | resource :: rest, analysisCtx =>
    match analyzeBody tbl analysisCtx resource with
    | .error f => .error f
    | .ok ctx1 => analyzeLoop tbl rest ctx1

/-- Go `PodAnalyzer.Analyze`: the context after the call together with the returned `error`
(`none` is `nil`). -/
def Analyze (tbl : Nat → Nat) (analysisCtx : AnalysisContext) :
    Except Fault (AnalysisContext × Option Str) :=
  match analyzeLoop tbl analysisCtx.Resources analysisCtx with
  | .error f => .error f
  | .ok ctx1 => .ok (ctx1, none)

end PodAnalyzer

/-- Go `PodAnalyzer.Name`. -/
def PodAnalyzer.Name : Str := lit "PodAnalyzer"

/-- Go `PodAnalyzer.Description`. -/
def PodAnalyzer.Description : Str :=
  lit "Analyzes pod issues like CrashLoopBackOff, ImagePullBackOff, etc."

namespace DeploymentAnalyzer

/-- Go `DeploymentAnalyzer.Name`. -/
def Name : Str := lit "DeploymentAnalyzer"

/-- Go `DeploymentAnalyzer.Description`. -/
def Description : Str :=
  lit "Analyzes deployment issues like unavailable replicas, rollout failures, etc."

/-- Finding that `DeploymentAnalyzer.Analyze` appends. -/
def placeholderDetail : AnalysisDetail :=
  { Type_ := lit "info"
    Title := lit "Deployment analyzer executed"
    Description := lit "This is a placeholder for the deployment analyzer. In a real implementation, "
      ++ lit "it would analyze replica status, rollout status, pod template issues, etc."
    Resource := { Kind := lit "Deployment", Name := [], Namespace := [], Labels := [] }
    Remediation := [
      lit "Check deployment status using 'kubectl rollout status deployment <name>'",
      lit "Check deployment events using 'kubectl describe deployment <name>'"]
    RemediationCommands := [
      lit "kubectl rollout status deployment $\x7bDEPLOYMENT_NAME\x7d",
      lit "kubectl describe deployment $\x7bDEPLOYMENT_NAME\x7d"] }

/-- Go `DeploymentAnalyzer.Analyze`: the context after the call and the returned `error`. -/
def Analyze (analysisCtx : AnalysisContext) : Except Fault (AnalysisContext × Option Str) :=
  .ok (analysisCtx.appendDetail placeholderDetail, none)

end DeploymentAnalyzer

/-- Go interface `Analyzer`: a value with the three methods. -/
structure Analyzer where
  Name : Str
  Description : Str
  Analyze : AnalysisContext → Except Fault (AnalysisContext × Option Str)

/-- The value `&PodAnalyzer{}` as an `Analyzer`. -/
def PodAnalyzer.asAnalyzer (tbl : Nat → Nat) : Analyzer :=
  { Name := PodAnalyzer.Name, Description := PodAnalyzer.Description
    Analyze := PodAnalyzer.Analyze tbl }

/-- The value `&DeploymentAnalyzer{}` as an `Analyzer`. -/
def DeploymentAnalyzer.asAnalyzer : Analyzer :=
  { Name := DeploymentAnalyzer.Name, Description := DeploymentAnalyzer.Description
    Analyze := DeploymentAnalyzer.Analyze }

/-- Go `Registry`: the map from analyzer names to analyzers. -/
structure Registry where
  analyzers : List (Str × Analyzer)

/-- Go `Registry.Register`: the map write `r.analyzers[analyzer.Name()] = analyzer`. -/
def Registry.Register (r : Registry) (analyzer : Analyzer) : Registry :=
  { analyzers := (analyzer.Name, analyzer) :: r.analyzers.filter (fun kv => kv.1 ≠ analyzer.Name) }

/-- Go `Registry.Get`: `none` is the `nil` of an absent name. -/
def Registry.Get (r : Registry) (name : Str) : Option Analyzer := r.analyzers.lookup name

/-- Go `Registry.GetAll`: the values of the map, in the order of the `range`. -/
def Registry.GetAll (r : Registry) : List Analyzer := r.analyzers.map (fun kv => kv.2)

/-- Go `NewRegistry`. -/
def NewRegistry (tbl : Nat → Nat) : Registry :=
  (({ analyzers := [] } : Registry).Register (PodAnalyzer.asAnalyzer tbl)).Register
    DeploymentAnalyzer.asAnalyzer

/-! ## Package `text/template`, as far as the registered templates need it -/

namespace template

/-- Parsed template: literal text and field actions such as `.Namespace`. -/
inductive Node where
  | text (s : Str)
  | field (name : Str)
  deriving DecidableEq, Repr

/-- Byte-wise order of Go strings, used by `fmt` to sort map keys. -/
def strLt : Str → Str → Bool
  | [], [] => false
  | [], _ :: _ => true
  | _ :: _, [] => false
  | a :: s, b :: t => if a.toNat < b.toNat then true else if a = b then strLt s t else false

/-- Insertion of one pair into a list of pairs sorted by key. -/
def insertSorted (kv : Str × Str) : List (Str × Str) → List (Str × Str)
  | [] => [kv]
  | x :: rest => if strLt kv.1 x.1 then kv :: x :: rest else x :: insertSorted kv rest

/-- Text that `fmt` prints for a `map[string]string`: `map[k1:v1 k2:v2]`, keys sorted. -/
def printMap (m : List (Str × Str)) : Str :=
  lit "map[" ++ strings.Join ((m.foldr insertSorted []).map (fun kv => kv.1 ++ lit ":" ++ kv.2))
    (lit " ") ++ lit "]"

/-- Evaluation of the field action `.name` on a `ResourceInfo`: a field the struct does not
have is an execution error (`none`). -/
def evalField (data : ResourceInfo) (name : Str) : Option Str :=
  if name = lit "Kind" then some data.Kind
  else if name = lit "Name" then some data.Name
  else if name = lit "Namespace" then some data.Namespace
  else if name = lit "Labels" then some (printMap data.Labels)
  else none

/-- Model of `Template.Execute` into a fresh buffer: the rendered text, or `none` when a node
fails. -/
def Execute : List Node → ResourceInfo → Option Str
  | [], _ => some []
  | Node.text s :: rest, data => (Execute rest data).map (fun out => s ++ out)
  | Node.field name :: rest, data =>
    match evalField data name with
    | none => none
    | some v => (Execute rest data).map (fun out => v ++ out)

end template

/-! ## Package `remediation` -/

/-- Go `CommandType`, a string type. -/
abbrev CommandType := Str

/-- Constant `CommandTypeKubectl`. -/
def CommandTypeKubectl : CommandType := lit "kubectl"

/-- Constant `CommandTypeHelm`. -/
def CommandTypeHelm : CommandType := lit "helm"

/-- Constant `CommandTypeYAML`. -/
def CommandTypeYAML : CommandType := lit "yaml"

/-- Constant `CommandTypeBash`. -/
def CommandTypeBash : CommandType := lit "bash"

set_option linter.dupNamespace false in
/-- Go `Command`: a command that can be executed to fix an issue. -/
structure Command where
  Type_ : CommandType
  Description : Str
  Command : Str
  Variables : List (Str × Str)
  deriving DecidableEq, Repr

/-- Go `Plan`: the remediation plan. -/
structure Plan where
  Title : Str
  Description : Str
  Steps : List Str
  Commands : List Command
  YAMLSnippets : List Str
  AnalysisDetails : List AnalysisDetail
  deriving DecidableEq, Repr

/-- Go `Generator`: the table of named templates. -/
structure Generator where
  templates : List (Str × List template.Node)
  deriving DecidableEq, Repr

/-- Map write `m[k] = v` on the template table. -/
def Generator.setTemplate (g : Generator) (k : Str) (v : List template.Node) : Generator :=
  { templates := (k, v) :: g.templates.filter (fun kv => kv.1 ≠ k) }

/-- Go `registerTemplates`: the three templates, parsed. -/
def Generator.registerTemplates (g : Generator) : Generator :=
  let g1 := g.setTemplate (lit "fix-pod-resources") [
    .text (lit "kubectl patch "), .field (lit "ResourceType"), .text (lit " "),
    .field (lit "ResourceName"), .text (lit " -n "), .field (lit "Namespace"),
    .text (lit " --type=json -p='[\x7b\"op\": \"replace\", \"path\": \"/spec/template/spec/containers/0/resources/"),
    .field (lit "ResourcePath"), .text (lit "\", \"value\": \x7b\""), .field (lit "ResourceType"),
    .text (lit "\": \""), .field (lit "ResourceValue"), .text (lit "\"\x7d\x7d]'")]
  let g2 := g1.setTemplate (lit "restart-deployment") [
    .text (lit "kubectl rollout restart deployment "), .field (lit "DeploymentName"),
    .text (lit " -n "), .field (lit "Namespace")]
  g2.setTemplate (lit "scale-deployment") [
    .text (lit "kubectl scale deployment "), .field (lit "DeploymentName"), .text (lit " -n "),
    .field (lit "Namespace"), .text (lit " --replicas="), .field (lit "Replicas")]

/-- Go `NewGenerator`. -/
def NewGenerator : Generator := Generator.registerTemplates { templates := [] }

/-- Go `determineCommandType`. -/
def determineCommandType (cmd : Str) : CommandType :=
  let cmd := strings.TrimSpace cmd
  if strings.HasPrefix cmd (lit "kubectl ") then CommandTypeKubectl
  else if strings.HasPrefix cmd (lit "helm ") then CommandTypeHelm
  else if strings.HasPrefix cmd (lit "apiVersion:") || strings.HasPrefix cmd (lit "kind:") then
    CommandTypeYAML
  else CommandTypeBash

/-- Go `filterDetailsByType`. -/
def filterDetailsByType (details : List AnalysisDetail) (detailType : Str) : List AnalysisDetail :=
  details.foldl (fun filtered detail =>
    if detail.Type_ = detailType then filtered ++ [detail] else filtered) []

/-- Test of the `range resources` loop of `addRemediationForDetail`. -/
def sameResource (detail : AnalysisDetail) (res : ResourceData) : Bool :=
  decide (res.Resource.Kind = detail.Resource.Kind ∧ res.Resource.Name = detail.Resource.Name ∧
    res.Resource.Namespace = detail.Resource.Namespace)

/-- Loop `range resources` of `addRemediationForDetail`: the first snapshot of the finding's
resource gets the template executed, then the loop breaks. -/
def renderLoop (tmpl : List template.Node) (templateName : Str) (detail : AnalysisDetail)
    (plan : Plan) : List ResourceData → Plan
  | [] => plan
  | res :: rest =>
    if sameResource detail res then
      match template.Execute tmpl res.Resource with
      | some out =>
        { plan with Commands := plan.Commands ++ [{
            Type_ := CommandTypeKubectl
            Description := lit "Apply " ++ templateName ++ lit " template for "
              ++ detail.Resource.Kind ++ lit "/" ++ detail.Resource.Name
            Command := out
            Variables := [] }] }
      | none => plan
    else renderLoop tmpl templateName detail plan rest

/-- Body of the `range detail.RemediationCommands` loop of `addRemediationForDetail`. -/
def commandBody (g : Generator) (detail : AnalysisDetail) (resources : List ResourceData)
    (plan : Plan) (cmdStr : Str) : Plan :=
  if strings.HasPrefix cmdStr (lit "template:") then
    let templateName := strings.TrimPrefix cmdStr (lit "template:")
    match g.templates.lookup templateName with
    | some tmpl => renderLoop tmpl templateName detail plan resources
    | none => plan
  else
    { plan with Commands := plan.Commands ++ [{
        Type_ := determineCommandType cmdStr
        Description := lit "Remediation step for " ++ detail.Resource.Kind ++ lit "/"
          ++ detail.Resource.Name
        Command := cmdStr
        Variables := [] }] }

/-- Go `addRemediationForDetail`. -/
def Generator.addRemediationForDetail (g : Generator) (plan : Plan) (detail : AnalysisDetail)
    (resources : List ResourceData) : Plan :=
  let plan1 := detail.Remediation.foldl
    (fun p step => { p with Steps := p.Steps ++ [lit "  - " ++ step] }) plan
  detail.RemediationCommands.foldl (commandBody g detail resources) plan1

/-- One severity block of `GeneratePlan`: when the bucket is not empty, its header and then the
remediation of each of its findings. -/
def Generator.addBucket (g : Generator) (plan : Plan) (header : Str)
    (bucket : List AnalysisDetail) (resources : List ResourceData) : Plan :=
  if bucket.length > 0 then
    bucket.foldl (fun p detail => g.addRemediationForDetail p detail resources)
      { plan with Steps := plan.Steps ++ [header] }
  else plan

/-- Go `GeneratePlan`; `none` is the `nil` plan. -/
def Generator.GeneratePlan (g : Generator) (details : List AnalysisDetail)
    (resources : List ResourceData) : Option Plan :=
  if details.length = 0 then none
  else
    let plan : Plan := {
      Title := lit "Remediation Plan"
      Description := lit "Steps to address the identified issues"
      Steps := []
      Commands := []
      YAMLSnippets := []
      AnalysisDetails := details }
    let errorDetails := filterDetailsByType details (lit "error")
    let warningDetails := filterDetailsByType details (lit "warning")
    let infoDetails := filterDetailsByType details (lit "info")
    let plan1 := g.addBucket plan (lit "Fix critical issues:") errorDetails resources
    let plan2 := g.addBucket plan1 (lit "Address warnings:") warningDetails resources
    some (g.addBucket plan2 (lit "Consider improvements:") infoDetails resources)

/-! ## Package `strings`: replacement -/

namespace strings

/-- Loop of `strings.Count` for a non-empty `substr`: occurrences that do not overlap, from the
left; each one passes over at least one byte, which bounds the loop. -/
def countAux (substr : Str) : Nat → Str → Nat
  | 0, _ => 0
  | fuel + 1, s =>
    if Index s substr < 0 then 0
    else 1 + countAux substr fuel (s.drop ((Index s substr).toNat + substr.length))

/-- Loop of `utf8.RuneCountInString`. -/
def runeCountAux : Nat → Str → Nat
  | 0, _ => 0
  | fuel + 1, s =>
    match s with
    | [] => 0
    | _ :: _ => 1 + runeCountAux fuel (s.drop (utf8.DecodeRune s).2)

/-- Model of `strings.Count`: for the empty `substr`, one more than the number of runes. -/
def Count (s substr : Str) : Nat :=
  if substr = [] then runeCountAux s.length s + 1 else countAux substr (s.length + 1) s

/-- Loop `for i := 0; i < n; i++` of `strings.Replace` on the text from `start` on: `first` holds
in the iteration `i = 0`; for an empty `old` the replacement goes in front of the text and then
after each rune. -/
def replaceLoop (old new : Str) : Nat → Bool → Str → Str
  | 0, _, s => s
  | n + 1, first, s =>
    let j := if old = [] then (if first then 0 else (utf8.DecodeRune s).2)
      else (Index s old).toNat
    s.take j ++ new ++ replaceLoop old new n false (s.drop (j + old.length))

/-- Model of `strings.Replace`: the first `n` occurrences of `old` replaced by `new`, all of them
when `n < 0`. -/
def Replace (s old new : Str) (n : Int) : Str :=
  if old = new ∨ n = 0 then s
  else if Count s old = 0 then s
  else replaceLoop old new (if n < 0 ∨ (Count s old : Int) < n then Count s old else n.toNat) true s

/-- Model of `strings.ReplaceAll`. -/
def ReplaceAll (s old new : Str) : Str := Replace s old new (-1)

end strings

/-! ## Package `regexp`, as far as the patterns of the anonymizer need it

A compiled pattern is a tree of literals, classes of bytes, sequences, alternatives, greedy
repetitions and capture groups.  The classes of the anonymizer hold ASCII characters only, so a
match on bytes is a match on runes.  A match is the one that Go documents for `regexp`: the
leftmost one, and among those the one that a backtracking search meets first. -/

namespace regexp

/-- Go `*regexp.Regexp`: a compiled pattern. -/
inductive Regexp where
  | empty : Regexp
  | cls : List (UInt8 × UInt8) → Regexp
  | seq : Regexp → Regexp → Regexp
  | alt : Regexp → Regexp → Regexp
  | star : Regexp → Regexp
  | group : Nat → Regexp → Regexp

/-- Ranges of a class written as a list of spans: a string of one character is that character, a
string of two characters the range from the first to the second. -/
def spans (items : List String) : List (UInt8 × UInt8) :=
  items.flatMap (fun item =>
    match lit item with
    | [x] => [(x, x)]
    | [lo, hi] => [(lo, hi)]
    | _ => [])

/-- Class `[...]` of the spans `items`. -/
def chars (items : List String) : Regexp := .cls (spans items)

/-- Literal text. -/
def text (s : String) : Regexp := (lit s).foldr (fun b re => .seq (.cls [(b, b)]) re) .empty

/-- Sequence of the patterns of a list. -/
def cat (res : List Regexp) : Regexp := res.foldr .seq .empty

/-- Pattern `a|b|...`, the first alternative preferred. -/
def alts : List Regexp → Regexp
  | [] => .empty
  | [re] => re
  | re :: rest => .alt re (alts rest)

/-- Pattern `x?` (greedy). -/
def opt (re : Regexp) : Regexp := .alt re .empty

/-- Pattern `x+` (greedy). -/
def plus (re : Regexp) : Regexp := .seq re (.star re)

/-- Pattern `x{n}`. -/
def rep : Nat → Regexp → Regexp
  | 0, _ => .empty
  | n + 1, re => .seq re (rep n re)

/-- Pattern `x{0,n}` (greedy). -/
def upTo : Nat → Regexp → Regexp
  | 0, _ => .empty
  | n + 1, re => opt (.seq re (upTo n re))

/-- Pattern `x{m,n}` (greedy), for `m <= n`. -/
def between (m n : Nat) (re : Regexp) : Regexp := .seq (rep m re) (upTo (n - m) re)

/-- Pattern `x{n,}` (greedy). -/
def atLeast (n : Nat) (re : Regexp) : Regexp := .seq (rep n re) (.star re)

/-- Class `\s`: tab, line feed, form feed, carriage return, space. -/
def space : Regexp := chars ["\t", "\n", "\x0c", "\r", " "]

/-- Submatches recorded so far, the latest first: group number and text. -/
abbrev Caps := List (Nat × Str)

/-- Greedy repetition: one more round of `step`, which has to pass over at least one byte, is
preferred to going on with `k`.  The budget is never used up when it starts above `len(s)`. -/
def starLoop (step : Str → Caps → (Str → Caps → Option (Str × Caps)) → Option (Str × Caps)) :
    Nat → Str → Caps → (Str → Caps → Option (Str × Caps)) → Option (Str × Caps)
  | 0, s, caps, k => k s caps
  | fuel + 1, s, caps, k =>
    match step s caps (fun s1 caps1 =>
        if s1.length < s.length then starLoop step fuel s1 caps1 k else none) with
    | some r => some r
    | none => k s caps

/-- Backtracking match of a pattern at the head of `s`: `k` receives the text that is left and the
submatches, and answers `none` to ask for the next way to match. -/
def matchK : Regexp → Str → Caps → (Str → Caps → Option (Str × Caps)) → Option (Str × Caps)
  | .empty, s, caps, k => k s caps
  | .cls ranges, s, caps, k =>
    match s with
    | [] => none
    | b :: t => if ranges.any (fun r => decide (r.1 ≤ b ∧ b ≤ r.2)) then k t caps else none
  | .seq a b, s, caps, k => matchK a s caps (fun s1 caps1 => matchK b s1 caps1 k)
  | .alt a b, s, caps, k =>
    match matchK a s caps k with
    | some r => some r
    | none => matchK b s caps k
  | .star a, s, caps, k => starLoop (matchK a) (s.length + 1) s caps k
  | .group i a, s, caps, k =>
    matchK a s caps (fun s1 caps1 => k s1 ((i, s.take (s.length - s1.length)) :: caps1))

/-- Match that starts at the head of `s`: its length and its submatches. -/
def matchHere (re : Regexp) (s : Str) : Option (Nat × Caps) :=
  (matchK re s [] (fun rest caps => some (rest, caps))).map
    (fun r => (s.length - r.1.length, r.2))

/-- Leftmost match in the text `s`, which starts at offset `pos` of the whole text: start, end and
submatches. -/
def findFrom (re : Regexp) : Str → Nat → Option (Nat × Nat × Caps)
  | [], pos => (matchHere re []).map (fun m => (pos, pos + m.1, m.2))
  | b :: t, pos =>
    match matchHere re (b :: t) with
    | some m => some (pos, pos + m.1, m.2)
    | none => findFrom re t (pos + 1)

/-- Number of capture groups of a pattern (`NumSubexp`): the groups are numbered from 1 in the
order of their opening parentheses, so it is the largest number of a group. -/
def NumSubexp : Regexp → Nat
  | .empty => 0
  | .cls _ => 0
  | .seq a b => max (NumSubexp a) (NumSubexp b)
  | .alt a b => max (NumSubexp a) (NumSubexp b)
  | .star a => NumSubexp a
  | .group i a => max i (NumSubexp a)

/-- Model of `(*Regexp).MatchString`: the text contains a match. -/
def MatchString (re : Regexp) (s : Str) : Bool := (findFrom re s 0).isSome

/-- Model of `(*Regexp).FindStringSubmatch`: nothing (`nil`) without a match, else the leftmost
match followed by the text of every group, empty for a group that took no part. -/
def FindStringSubmatch (re : Regexp) (s : Str) : List Str :=
  match findFrom re s 0 with
  | none => []
  | some (a0, a1, caps) =>
    (s.take a1).drop a0
      :: (List.range (NumSubexp re)).map (fun i => (caps.lookup (i + 1)).getD [])

/-- Loop of `(*Regexp).replaceAll`: `lastMatchEnd` is the end of the latest match, `searchPos` the
offset at which the next search starts, `buf` the output so far.  `searchPos` grows in every
round, which bounds the loop by `len(src) + 1` rounds. -/
def replaceAllLoop (re : Regexp) (src : Str) (repl : Str → Str) : Nat → Nat → Nat → Str → Str
  | 0, lastMatchEnd, _, buf => buf ++ src.drop lastMatchEnd
  | fuel + 1, lastMatchEnd, searchPos, buf =>
    if searchPos ≤ src.length then
      match findFrom re (src.drop searchPos) searchPos with
      | none => buf ++ src.drop lastMatchEnd
      | some (a0, a1, _) =>
        let buf1 := buf ++ (src.take a0).drop lastMatchEnd
        let buf2 := if a1 > lastMatchEnd ∨ a0 = 0 then buf1 ++ repl ((src.take a1).drop a0)
          else buf1
        let width := (utf8.DecodeRune (src.drop searchPos)).2
        let searchPos1 := if searchPos + width > a1 then searchPos + width
          else if searchPos + 1 > a1 then searchPos + 1
          else a1
        replaceAllLoop re src repl fuel a1 searchPos1 buf2
    else buf ++ src.drop lastMatchEnd

/-- Model of `(*Regexp).ReplaceAllStringFunc`: every match of the pattern in `src`, from the left
and without overlap, replaced by the image of its text under `repl`. -/
def ReplaceAllStringFunc (re : Regexp) (src : Str) (repl : Str → Str) : Str :=
  replaceAllLoop re src repl (src.length + 2) 0 0 []

end regexp

/-! ## Package `anonymizer` -/

namespace anonymizer

open regexp

/-- Pattern `[a-zA-Z0-9._%+-]+@[a-zA-Z0-9.-]+\.[a-zA-Z]{2,}`. -/
def emailRegex : Regexp :=
  cat [plus (chars ["az", "AZ", "09", ".", "_", "%", "+", "-"]), text "@",
    plus (chars ["az", "AZ", "09", ".", "-"]), text ".", atLeast 2 (chars ["az", "AZ"])]

/-- Pattern `25[0-5]|2[0-4][0-9]|[01]?[0-9][0-9]?`, one part of a dotted address. -/
def octet : Regexp :=
  alts [cat [text "25", chars ["05"]], cat [text "2", chars ["04"], chars ["09"]],
    cat [opt (chars ["01"]), chars ["09"], opt (chars ["09"])]]

/-- Pattern `(octet)(\.(octet)){3}|([0-9a-fA-F]{1,4}:){7}[0-9a-fA-F]{1,4}`. -/
def ipRegex : Regexp :=
  alts [cat [.group 1 octet, rep 3 (.group 2 (cat [text ".", .group 3 octet]))],
    cat [rep 7 (.group 4 (cat [between 1 4 (chars ["09", "af", "AF"]), text ":"])),
      between 1 4 (chars ["09", "af", "AF"])]]

/-- Pattern
`(api[-_]?key|token|secret|password|apikey)[\s]*[=:][\s]*["']?[a-zA-Z0-9_\-\.]{16,}["']?`. -/
def apiKeyRegex : Regexp :=
  cat [.group 1 (alts [cat [text "api", opt (chars ["-", "_"]), text "key"], text "token",
      text "secret", text "password", text "apikey"]),
    .star space, chars ["=", ":"], .star space, opt (chars ["\x22", "\x27"]),
    atLeast 16 (chars ["az", "AZ", "09", "_", "-", "."]), opt (chars ["\x22", "\x27"])]

/-- Pattern `[0-9a-fA-F]{8}-([0-9a-fA-F]{4}-){3}[0-9a-fA-F]{12}`. -/
def uuidRegex : Regexp :=
  cat [rep 8 (chars ["09", "af", "AF"]), text "-",
    rep 3 (.group 1 (cat [rep 4 (chars ["09", "af", "AF"]), text "-"])),
    rep 12 (chars ["09", "af", "AF"])]

/-- Pattern `namespace\s+['"]?([a-z0-9]([-a-z0-9]*[a-z0-9])?)['"]?`. -/
def namespaceRegex : Regexp :=
  cat [text "namespace", plus space, opt (chars ["\x27", "\x22"]),
    .group 1 (cat [chars ["az", "09"],
      opt (.group 2 (cat [.star (chars ["-", "az", "09"]), chars ["az", "09"]]))]),
    opt (chars ["\x27", "\x22"])]

/-- Pattern
`(?:[A-Za-z0-9+/]{4})*(?:[A-Za-z0-9+/]{2}==|[A-Za-z0-9+/]{3}=|[A-Za-z0-9+/]{4})`. -/
def base64Regex : Regexp :=
  cat [.star (rep 4 (chars ["AZ", "az", "09", "+", "/"])),
    alts [cat [rep 2 (chars ["AZ", "az", "09", "+", "/"]), text "=="],
      cat [rep 3 (chars ["AZ", "az", "09", "+", "/"]), text "="],
      rep 4 (chars ["AZ", "az", "09", "+", "/"])]]

/-- Go `Anonymizer`: the patterns that `AddPattern` has compiled, in call order, and the map that
`AddReplacement` has filled. -/
structure Anonymizer where
  additionalPatterns : List regexp.Regexp
  customReplacements : List (Str × Str)

/-- Model of `NewAnonymizer`. -/
def NewAnonymizer : Anonymizer := { additionalPatterns := [], customReplacements := [] }

/-- Model of `replaceWithType`; a namespace match without submatches leaves the `switch` and gets
the last `return`. -/
def replaceWithType (tbl : Nat → Nat) (match_ : Str) : Str :=
  let lower := strings.ToLower tbl match_
  if regexp.MatchString emailRegex match_ then lit "[EMAIL]"
  else if regexp.MatchString ipRegex match_ then lit "[IP_ADDRESS]"
  else if strings.Contains lower (lit "api") || strings.Contains lower (lit "key")
      || strings.Contains lower (lit "token") || strings.Contains lower (lit "secret") then
    lit "[API_KEY]"
  else if regexp.MatchString uuidRegex match_ then lit "[UUID]"
  else if strings.Contains lower (lit "namespace") then
    let parts := regexp.FindStringSubmatch namespaceRegex match_
    if parts.length > 1 then
      strings.Replace match_ (parts.getD 1 []) (lit "[NAMESPACE_NAME]") 1
    else lit "[REDACTED]"
  else lit "[REDACTED]"

/-- Model of `(*Anonymizer).Anonymize`. -/
def Anonymizer.Anonymize (a : Anonymizer) (tbl : Nat → Nat) (input : Str) : Str :=
  let output := a.customReplacements.foldl
    (fun out kv => strings.ReplaceAll out kv.1 kv.2) input
  let patterns := [emailRegex, ipRegex, apiKeyRegex, uuidRegex, namespaceRegex]
    ++ a.additionalPatterns
  let output := patterns.foldl
    (fun out pattern => regexp.ReplaceAllStringFunc pattern out (replaceWithType tbl)) output
  regexp.ReplaceAllStringFunc base64Regex output
    (fun match_ => if match_.length ≥ 20 then lit "[BASE64_DATA]" else match_)

end anonymizer

/-! ## The context as a call of the pod analyzer leaves it

Go passes the context by pointer and appends to it in place, so the findings appended before a
panic are in the caller's context.  The functions below give a call as the pair of the context
that it leaves and the fault that stopped it, `none` for a call that returns. -/

namespace PodAnalyzer

/-- Go `checkLogs`, in place: the snippet is extracted before the first `append`, so a panic
there leaves the context as it was. -/
def checkLogsState (tbl : Nat → Nat) (resource : ResourceData) (analysisCtx : AnalysisContext) :
    AnalysisContext × Option Fault :=
  let combinedLogs := strings.Join resource.Logs (lit "\n")
  let lowerLogs := strings.ToLower tbl combinedLogs
  if strings.Contains lowerLogs (lit "exception") || strings.Contains lowerLogs (lit "error") then
    match extractErrorSnippet tbl combinedLogs with
    | .error f => (analysisCtx, some f)
    | .ok errorSnippet =>
      (checkConnection lowerLogs resource
        (analysisCtx.appendDetail (logErrorDetail resource errorSnippet)), none)
  else (checkConnection lowerLogs resource analysisCtx, none)

/-- Loop `for i := 0; ; i++` of `checkPodStatus`, in place. -/
def condLoopState (resource : ResourceData) :
    Nat → Nat → AnalysisContext → AnalysisContext × Option Fault
  | 0, _, analysisCtx => (analysisCtx, some Fault.outOfFuel)
  | fuel + 1, i, analysisCtx =>
    match mapGet? resource.Status (condKey i "type") with
    | none => (analysisCtx, none)
    | some condType =>
      match mapGet? resource.Status (condKey i "status") with
      | none => condLoopState resource fuel (i + 1) analysisCtx
      | some condStatus =>
        if condType = lit "PodScheduled" ∧ condStatus = lit "False" then
          let reason := mapGet resource.Status (condKey i "reason")
          let message := mapGet resource.Status (condKey i "message")
          condLoopState resource fuel (i + 1)
            (analysisCtx.appendDetail (schedulingDetail resource reason message))
        else condLoopState resource fuel (i + 1) analysisCtx

/-- Go `checkPodStatus`, in place. -/
def checkPodStatusState (resource : ResourceData) (analysisCtx : AnalysisContext) :
    AnalysisContext × Option Fault :=
  match mapGet? resource.Status (lit "phase") with
  | none => (analysisCtx, none)
  | some phase =>
    if phase = lit "Pending" then
      condLoopState resource (resource.Status.length + 1) 0 analysisCtx
    else if phase = lit "Failed" then (analysisCtx.appendDetail (failedDetail resource), none)
    else (analysisCtx, none)

/-- Body of the `range analysisCtx.Resources` loop of `Analyze`, in place: a panic in the log pass
leaves the findings of the container-state pass and of the event pass in the context. -/
def analyzeBodyState (tbl : Nat → Nat) (analysisCtx : AnalysisContext) (resource : ResourceData) :
    AnalysisContext × Option Fault :=
  if resource.Resource.Kind = lit "Pod" then
    let ctx1 := checkContainerStates resource analysisCtx
    let ctx2 := checkEvents tbl resource ctx1
    match (if resource.Logs.length > 0 then checkLogsState tbl resource ctx2 else (ctx2, none)) with
    | (ctx3, some f) => (ctx3, some f)
    | (ctx3, none) => checkPodStatusState resource ctx3
  else (analysisCtx, none)

/-- Loop of `Analyze` over the snapshots still to visit, in place: a panic stops the loop and
leaves the findings of the snapshots already visited. -/
def analyzeLoopState (tbl : Nat → Nat) : List ResourceData → AnalysisContext →
    AnalysisContext × Option Fault
  | [], analysisCtx => (analysisCtx, none)
  | resource :: rest, analysisCtx =>
    match analyzeBodyState tbl analysisCtx resource with
    | (ctx1, some f) => (ctx1, some f)
    | (ctx1, none) => analyzeLoopState tbl rest ctx1

/-- Go `PodAnalyzer.Analyze`, in place: the context after the call, and the fault when the call
panics; a call without fault returns `nil`. -/
def AnalyzeState (tbl : Nat → Nat) (analysisCtx : AnalysisContext) :
    AnalysisContext × Option Fault :=
  analyzeLoopState tbl analysisCtx.Resources analysisCtx

end PodAnalyzer

/-! ## Definitions used to state the properties -/

/-- Value of a string of decimal digits read from the left, starting from `v`. -/
def digitsVal (v : Nat) (s : Str) : Nat := s.foldl (fun acc b => acc * 10 + (b.toNat - 48)) v

/-- Key `container.<i>.<field>` of the status map. -/
def containerKey (i : Nat) (field : String) : Str :=
  lit "container." ++ Itoa i ++ lit "." ++ lit field

/-- Context without findings, used to read off what a pass appends. -/
def emptyCtx : AnalysisContext := { Query := [], Resources := [], Details := [] }

/-- Context `c` with the findings `new` appended. -/
def AnalysisContext.extend (c : AnalysisContext) (new : List AnalysisDetail) : AnalysisContext :=
  { c with Details := c.Details ++ new }

/-- Findings of one iteration of the container-state loop. -/
def containerFindings (resource : ResourceData) (kv : Str × Str) : List AnalysisDetail :=
  (PodAnalyzer.containerStateBody resource emptyCtx kv.1 kv.2).Details

/-- Findings of one iteration of the event loop. -/
def eventFindings (tbl : Nat → Nat) (resource : ResourceData) (event : Str) :
    List AnalysisDetail :=
  (if strings.Contains (strings.ToLower tbl event) (lit "oomkilled") then
      [PodAnalyzer.oomDetail resource event] else [])
  ++ (if strings.Contains (strings.ToLower tbl event) (lit "evict") then
      [PodAnalyzer.evictDetail resource event] else [])

/-- Findings of the connection check of the log pass. -/
def connectionFindings (lowerLogs : Str) (resource : ResourceData) : List AnalysisDetail :=
  if strings.Contains lowerLogs (lit "connection refused")
      || strings.Contains lowerLogs (lit "cannot connect")
      || strings.Contains lowerLogs (lit "dial tcp") then
    [PodAnalyzer.connectionDetail resource]
  else []

/-- Findings of the log pass, or the fault that stops it. -/
def logFindings (tbl : Nat → Nat) (resource : ResourceData) : Except Fault (List AnalysisDetail) :=
  let combinedLogs := strings.Join resource.Logs (lit "\n")
  let lowerLogs := strings.ToLower tbl combinedLogs
  if strings.Contains lowerLogs (lit "exception") || strings.Contains lowerLogs (lit "error") then
    match PodAnalyzer.extractErrorSnippet tbl combinedLogs with
    | .error f => .error f
    | .ok errorSnippet =>
      .ok (PodAnalyzer.logErrorDetail resource errorSnippet
        :: connectionFindings lowerLogs resource)
  else .ok (connectionFindings lowerLogs resource)

/-- Test of the condition loop: condition `i` is `PodScheduled` with status `False`. -/
def unschedulable (resource : ResourceData) (i : Nat) : Bool :=
  decide (mapGet? resource.Status (PodAnalyzer.condKey i "type") = some (lit "PodScheduled")
    ∧ mapGet? resource.Status (PodAnalyzer.condKey i "status") = some (lit "False"))

/-- Findings of one iteration of the condition loop that does not break. -/
def condFinding (resource : ResourceData) (i : Nat) : List AnalysisDetail :=
  if unschedulable resource i then
    [PodAnalyzer.schedulingDetail resource
      (mapGet resource.Status (PodAnalyzer.condKey i "reason"))
      (mapGet resource.Status (PodAnalyzer.condKey i "message"))]
  else []

/-- Pending pod used to instantiate the statements about the status pass: condition 0 is
`Ready`, condition 1 is `PodScheduled` with status `False` and reason `Insufficient cpu`. -/
def pendingPod : ResourceData :=
  { Resource := { Kind := lit "Pod", Name := lit "web", Namespace := lit "default", Labels := [] }
    Manifest := []
    Events := []
    Logs := []
    Status := [
      (lit "phase", lit "Pending"),
      (lit "condition.0.type", lit "Ready"),
      (lit "condition.0.status", lit "False"),
      (lit "condition.1.type", lit "PodScheduled"),
      (lit "condition.1.status", lit "False"),
      (lit "condition.1.reason", lit "Insufficient cpu"),
      (lit "condition.1.message", lit "0/3 nodes are available")]
    Related := [] }

deriving instance DecidableEq for Except

def snippetLogs : Str := lit "INFO startup\nERROR cannot open file\nretrying\ndone"

/-- Test of `strings.ToLower` for text of ASCII bytes only. -/
def isASCII (s : Str) : Bool := s.all (fun b => decide (b.toNat < 0x80))

/-- ASCII lower-casing of one byte, the loop body of the ASCII path of `strings.ToLower`. -/
def lowerByte (b : UInt8) : UInt8 := if 0x41 ≤ b.toNat ∧ b.toNat ≤ 0x5A then b + 32 else b

/-- Titles of the findings of the container-state pass. -/
def containerTitles : List Str :=
  [lit "Container in CrashLoopBackOff", lit "Image pull failure",
    lit "Container configuration error"]

/-- Titles of the findings of the event pass. -/
def eventTitles : List Str := [lit "Container terminated due to OOMKilled", lit "Pod was evicted"]

/-- Titles of the findings of the log pass. -/
def logTitles : List Str := [lit "Errors detected in logs", lit "Connection issues detected"]

/-- Titles of the findings of the status pass. -/
def statusTitles : List Str := [lit "Pod scheduling issues", lit "Pod failed"]

/-- The log step of `Analyze` returns on the snapshot: there are no logs, or `checkLogs` does
not panic. -/
def logPassReturns (tbl : Nat → Nat) (resource : ResourceData) : Prop :=
  resource.Logs = [] ∨ ∃ c, PodAnalyzer.checkLogs tbl resource emptyCtx = .ok c

/-- Test of the container-state loop: the key ends in ".state" and the value is "waiting". -/
def isWaitingEntry (kv : Str × Str) : Bool :=
  strings.HasSuffix kv.1 (lit ".state") && kv.2 == lit "waiting"

/-- Log text `strings.Repeat("Ⱥ", 56) + "error"`: 117 bytes; its lower-case form has 173 bytes,
with "error" at offset 168. -/
def growingLogs : Str := (List.replicate 56 (lit "Ⱥ")).flatten ++ lit "error"

/-- Resource of the snapshots of `pod_analyzer_test.go`. -/
def testPodInfo : ResourceInfo :=
  { Kind := lit "Pod", Name := lit "test-pod", Namespace := lit "default", Labels := [] }

/-- Snapshot of the test `TestPodAnalyzer_CrashLoopBackOff`, with `growingLogs` as its log. -/
def crashLoopPod : ResourceData :=
  { Resource := testPodInfo
    Manifest := []
    Events := []
    Logs := [growingLogs]
    Status := [
      (lit "phase", lit "Running"),
      (lit "container.0.name", lit "app"),
      (lit "container.0.state", lit "waiting"),
      (lit "container.0.reason", lit "CrashLoopBackOff"),
      (lit "container.0.message", lit "Back-off 5m0s restarting failed container"),
      (lit "container.0.ready", lit "false"),
      (lit "container.0.restartCount", lit "5")]
    Related := [] }

/-- Snapshot of the test `TestPodAnalyzer_ImagePullBackOff`, with `growingLogs` as its log. -/
def imagePullPod : ResourceData :=
  { Resource := testPodInfo
    Manifest := []
    Events := []
    Logs := [growingLogs]
    Status := [
      (lit "phase", lit "Pending"),
      (lit "container.0.name", lit "app"),
      (lit "container.0.state", lit "waiting"),
      (lit "container.0.reason", lit "ImagePullBackOff"),
      (lit "container.0.message", lit "Back-off pulling image"),
      (lit "container.0.ready", lit "false")]
    Related := [] }

/-- Failed pod with `growingLogs` as its log. -/
def failedPod : ResourceData :=
  { Resource := testPodInfo
    Manifest := []
    Events := []
    Logs := [growingLogs]
    Status := [(lit "phase", lit "Failed")]
    Related := [] }

/-- Plan `p` with steps and commands appended. -/
def Plan.extend (p : Plan) (steps : List Str) (cmds : List Command) : Plan :=
  { p with Steps := p.Steps ++ steps, Commands := p.Commands ++ cmds }

/-- Commands that the template loop appends for one template reference. -/
def renderedCommands (tmpl : List template.Node) (templateName : Str) (detail : AnalysisDetail) :
    List ResourceData → List Command
  | [] => []
  | res :: rest =>
    if sameResource detail res then
      match template.Execute tmpl res.Resource with
      | some out => [{
          Type_ := CommandTypeKubectl
          Description := lit "Apply " ++ templateName ++ lit " template for "
            ++ detail.Resource.Kind ++ lit "/" ++ detail.Resource.Name
          Command := out
          Variables := [] }]
      | none => []
    else renderedCommands tmpl templateName detail rest

/-- Commands that one command string of a finding contributes to the plan. -/
def commandsOfString (g : Generator) (detail : AnalysisDetail) (resources : List ResourceData)
    (cmdStr : Str) : List Command :=
  if strings.HasPrefix cmdStr (lit "template:") then
    match g.templates.lookup (strings.TrimPrefix cmdStr (lit "template:")) with
    | some tmpl =>
      renderedCommands tmpl (strings.TrimPrefix cmdStr (lit "template:")) detail resources
    | none => []
  else
    [{ Type_ := determineCommandType cmdStr
       Description := lit "Remediation step for " ++ detail.Resource.Kind ++ lit "/"
         ++ detail.Resource.Name
       Command := cmdStr
       Variables := [] }]

/-- Steps that one finding contributes to the plan. -/
def stepsOfDetail (detail : AnalysisDetail) : List Str :=
  detail.Remediation.map (fun step => lit "  - " ++ step)

/-- Commands that one finding contributes to the plan. -/
def commandsOfDetail (g : Generator) (resources : List ResourceData) (detail : AnalysisDetail) :
    List Command :=
  detail.RemediationCommands.flatMap (commandsOfString g detail resources)

/-- Bucket of the findings of one severity, in their original order (spec, step 1). -/
def specBucket (details : List AnalysisDetail) (severity : String) : List AnalysisDetail :=
  details.filter (fun d => decide (d.Type_ = lit severity))

/-- Section of the steps for one bucket (spec, step 2): nothing for an empty bucket, else the
header and every remediation step of every finding, indented. -/
def specSection (header : String) (bucket : List AnalysisDetail) : List Str :=
  if bucket = [] then []
  else lit header :: bucket.flatMap (fun d => d.Remediation.map (fun step => lit "  - " ++ step))

/-- Two findings, a warning and then an error, used to instantiate the statements about
`GeneratePlan`. -/
def sampleDetails : List AnalysisDetail := [
  { Type_ := lit "warning", Title := lit "Pod was evicted", Description := []
    Resource := { Kind := lit "Pod", Name := lit "web", Namespace := lit "default", Labels := [] }
    Remediation := [lit "Check node resource pressure (CPU, memory, disk)"]
    RemediationCommands := [lit "kubectl top nodes"] },
  { Type_ := lit "error", Title := lit "Pod failed", Description := []
    Resource := { Kind := lit "Pod", Name := lit "web", Namespace := lit "default", Labels := [] }
    Remediation := [lit "Check pod logs for errors", lit "Check pod events for issues"]
    RemediationCommands := [lit "kubectl logs web -n default", lit "helm status web"] }]

/-- Prefix heuristic of the spec, read on a string as it stands. -/
def prefixHeuristic (s : Str) : CommandType :=
  if strings.HasPrefix s (lit "kubectl ") then CommandTypeKubectl
  else if strings.HasPrefix s (lit "helm ") then CommandTypeHelm
  else if strings.HasPrefix s (lit "apiVersion:") ∨ strings.HasPrefix s (lit "kind:") then
    CommandTypeYAML
  else CommandTypeBash

/-- Outcome of the loop body of `Analyze` on one snapshot: the findings it appends, or the fault
that stops it. -/
def bodyOutcome (tbl : Nat → Nat) (resource : ResourceData) : Except Fault (List AnalysisDetail) :=
  match PodAnalyzer.analyzeBody tbl emptyCtx resource with
  | .ok c => .ok c.Details
  | .error f => .error f

/-- Outcome of the loop of `Analyze` on a list of snapshots. -/
def loopOutcome (tbl : Nat → Nat) : List ResourceData → Except Fault (List AnalysisDetail)
  | [] => .ok []
  | resource :: rest =>
    match bodyOutcome tbl resource with
    | .error f => .error f
    | .ok new =>
      match loopOutcome tbl rest with
      | .error f => .error f
      | .ok more => .ok (new ++ more)

/-- Test of `Analyze`: the snapshot is a Pod. -/
def isPod (resource : ResourceData) : Bool := decide (resource.Resource.Kind = lit "Pod")

/-- Run of two analyzers, one after the other, on one context. -/
def runInOrder (first second : Analyzer) (analysisCtx : AnalysisContext) :
    Except Fault (AnalysisContext × Option Str) :=
  match first.Analyze analysisCtx with
  | .error f => .error f
  | .ok (c, _) => second.Analyze c

/-- Registry after a sequence of `Register` calls on a new registry, in call order. -/
def registered (calls : List Analyzer) : Registry :=
  calls.foldl Registry.Register { analyzers := [] }

/-- Invariant of the registry map: every entry is stored under its analyzer's name and no name
occurs twice. -/
def Registry.wellFormed (r : Registry) : Prop :=
  (∀ kv ∈ r.analyzers, kv.1 = kv.2.Name) ∧ (r.analyzers.map (fun kv => kv.1)).Nodup

/-- Reasons that the container-state pass diagnoses. -/
def diagnosedReasons : List Str :=
  [lit "CrashLoopBackOff", lit "ImagePullBackOff", lit "ErrImagePull",
    lit "CreateContainerConfigError"]

/-- Lower-casing does not lengthen the joined logs of the snapshot (so it is for ASCII logs). -/
def logsDoNotGrow (tbl : Nat → Nat) (resource : ResourceData) : Prop :=
  (strings.ToLower tbl (strings.Join resource.Logs (lit "\n"))).length
    ≤ (strings.Join resource.Logs (lit "\n")).length

/-- Pod without status and events whose only log is `growingLogs`. -/
def logOnlyPod : ResourceData :=
  { Resource := testPodInfo
    Manifest := []
    Events := []
    Logs := [growingLogs]
    Status := []
    Related := [] }

/-- Resource of the deployment used to instantiate the statements about templates. -/
def webDeploymentInfo : ResourceInfo :=
  { Kind := lit "Deployment", Name := lit "web", Namespace := lit "default", Labels := [] }

/-- Finding that asks for the registered template "restart-deployment". -/
def restartFinding : AnalysisDetail :=
  { Type_ := lit "warning"
    Title := lit "Deployment needs a restart"
    Description := []
    Resource := webDeploymentInfo
    Remediation := [lit "Restart the deployment"]
    RemediationCommands := [lit "template:restart-deployment"] }

/-- Snapshot of the deployment that `restartFinding` is about. -/
def webDeployment : ResourceData :=
  { Resource := webDeploymentInfo
    Manifest := []
    Events := []
    Logs := []
    Status := [(lit "replicas", lit "3")]
    Related := [] }

/-- Two findings are alike for the synthesizer: same severity, same steps, same commands
contributed to the plan. -/
def alikeFor (g : Generator) (resources : List ResourceData) (d d1 : AnalysisDetail) : Prop :=
  d.Type_ = d1.Type_ ∧ d.Remediation = d1.Remediation ∧
    commandsOfDetail g resources d = commandsOfDetail g resources d1

/-- Finding that asks for a template that is not registered. -/
def unknownTemplateFinding : AnalysisDetail :=
  { Type_ := lit "warning"
    Title := lit "Deployment needs a restart"
    Description := []
    Resource := webDeploymentInfo
    Remediation := [lit "Restart the deployment"]
    RemediationCommands := [lit "template:no-such-template"] }

/-- Snapshot of the same deployment with another status, events, logs and manifest. -/
def webDeploymentLater : ResourceData :=
  { Resource := webDeploymentInfo
    Manifest := lit "kind: Deployment"
    Events := [lit "scaled"]
    Logs := [lit "started"]
    Status := []
    Related := [] }

/-- Finding with a severity of the closed set and a title. -/
def wellFormedFinding (d : AnalysisDetail) : Prop :=
  (d.Type_ = lit "error" ∨ d.Type_ = lit "warning" ∨ d.Type_ = lit "info") ∧ d.Title ≠ []

/-- Start of the snippet window for a match at `index`: 50 bytes before it, not below 0. -/
def windowStart (index : Int) : Int := if index - 50 < 0 then 0 else index - 50

/-- End of the snippet window for a match at `index`: 100 bytes after it, not above `len(logs)`. -/
def windowEnd (logs : Str) (index : Int) : Int :=
  if index + 100 > (logs.length : Int) then (logs.length : Int) else index + 100

/-- Log text of four lines with the match in the second line. -/
def fourLineLogs : Str := lit "a\nerror\nb\nc"

/-- Log text of five lines with the match in the second line. -/
def fiveLineLogs : Str := lit "a\nerror\nb\nc\nd"

/-- Pending pod whose conditions have a gap: condition 0 and condition 2 are `PodScheduled` with
status `False`, condition 1 is missing. -/
def gapPod : ResourceData :=
  { Resource := { Kind := lit "Pod", Name := lit "web", Namespace := lit "default", Labels := [] }
    Manifest := []
    Events := []
    Logs := []
    Status := [
      (lit "phase", lit "Pending"),
      (lit "condition.0.type", lit "PodScheduled"),
      (lit "condition.0.status", lit "False"),
      (lit "condition.2.type", lit "PodScheduled"),
      (lit "condition.2.status", lit "False")]
    Related := [] }

/-- Test that the severity of a finding is one of the three that `GeneratePlan` filters on. -/
def knownSeverity (d : AnalysisDetail) : Bool :=
  decide (d.Type_ = lit "error" ∨ d.Type_ = lit "warning" ∨ d.Type_ = lit "info")

/-- Finding with a severity outside the three, with a step and a command of its own. -/
def criticalFinding : AnalysisDetail :=
  { Type_ := lit "critical", Title := lit "Node lost", Description := []
    Resource := { Kind := lit "Pod", Name := lit "web", Namespace := lit "default", Labels := [] }
    Remediation := [lit "Page the on-call"]
    RemediationCommands := [lit "kubectl get nodes"] }

/-- Findings that `PodAnalyzer.Analyze` appends for the snapshots `resources`, read off on a
context without findings; the fault when the call stops. -/
def findingsOf (tbl : Nat → Nat) (resources : List ResourceData) :
    Except Fault (List AnalysisDetail) :=
  match PodAnalyzer.Analyze tbl { Query := [], Resources := resources, Details := [] } with
  | .ok (c, _) => .ok c.Details
  | .error f => .error f

/-- Pod with two waiting containers: one crash looping, one that cannot pull its image. -/
def twoWaitingPod : ResourceData :=
  { Resource := { Kind := lit "Pod", Name := lit "web", Namespace := lit "default", Labels := [] }
    Manifest := []
    Events := []
    Logs := []
    Status := [
      (lit "container.0.name", lit "app"),
      (lit "container.0.state", lit "waiting"),
      (lit "container.0.reason", lit "CrashLoopBackOff"),
      (lit "container.1.name", lit "sidecar"),
      (lit "container.1.state", lit "waiting"),
      (lit "container.1.reason", lit "ImagePullBackOff")]
    Related := [] }

/-- Findings of the status pass on the snapshot. -/
def statusFindings (resource : ResourceData) : List AnalysisDetail :=
  (PodAnalyzer.checkPodStatusState resource emptyCtx).1.Details

/-- Findings that the passes append for one Pod snapshot, in pass order, with the fault of the
log pass, after which the status pass does not run. -/
def podFindings (tbl : Nat → Nat) (resource : ResourceData) :
    List AnalysisDetail × Option Fault :=
  match (if resource.Logs.length > 0 then logFindings tbl resource else .ok []) with
  | .ok logNew =>
    (resource.Status.flatMap (containerFindings resource)
      ++ resource.Events.flatMap (eventFindings tbl resource) ++ logNew
      ++ statusFindings resource, none)
  | .error f =>
    (resource.Status.flatMap (containerFindings resource)
      ++ resource.Events.flatMap (eventFindings tbl resource), some f)

/-- Findings that the loop body of `Analyze` appends for one snapshot, with its fault. -/
def bodyFindings (tbl : Nat → Nat) (resource : ResourceData) :
    List AnalysisDetail × Option Fault :=
  if resource.Resource.Kind = lit "Pod" then podFindings tbl resource else ([], none)

/-- Findings that the loop of `Analyze` appends for a list of snapshots, with the fault that
stops it: the snapshots after a fault are not visited. -/
def loopFindings (tbl : Nat → Nat) : List ResourceData → List AnalysisDetail × Option Fault
  | [] => ([], none)
  | resource :: rest =>
    match bodyFindings tbl resource with
    | (new, some f) => (new, some f)
    | (new, none) => (new ++ (loopFindings tbl rest).1, (loopFindings tbl rest).2)

/-- Two enumerations of one Go map: the same entries, every key once. -/
def sameMap (m1 m2 : List (Str × Str)) : Prop := m1.Perm m2 ∧ (m1.map Prod.fst).Nodup

/-- Two views of one snapshot: they differ only in the order in which the status map is
enumerated. -/
def sameSnapshot (r1 r2 : ResourceData) : Prop :=
  r2 = { r1 with Status := r2.Status } ∧ sameMap r1.Status r2.Status

theorem toNat_ofNat_digit (d : Nat) (h : d < 10) : (UInt8.ofNat (48 + d)).toNat = 48 + d := by
  show (48 + d) % 256 = 48 + d
  omega

theorem digitsVal_append (v : Nat) (s t : Str) :
    digitsVal v (s ++ t) = digitsVal (digitsVal v s) t := by
  simp [digitsVal, List.foldl_append]

theorem digitsAux_spec : ∀ (fuel n : Nat) (acc : Str), n < fuel →
    ∃ ds : Str, digitsAux fuel n acc = ds ++ acc ∧ digitsVal 0 ds = n ∧
      ∀ b ∈ ds, 48 ≤ b.toNat ∧ b.toNat ≤ 57 := by
  intro fuel
  induction fuel with
  | zero => intro n acc h; omega
  | succ fuel ih =>
    intro n acc h
    have hd : (UInt8.ofNat (48 + n % 10)).toNat = 48 + n % 10 :=
      toNat_ofNat_digit _ (Nat.mod_lt _ (by decide))
    by_cases h0 : n / 10 = 0
    · refine ⟨[UInt8.ofNat (48 + n % 10)], ?_, ?_, ?_⟩
      · simp [digitsAux, h0]
      · simp only [digitsVal, List.foldl_cons, List.foldl_nil, hd]
        omega
      · intro b hb
        simp only [List.mem_singleton] at hb
        subst hb
        omega
    · obtain ⟨ds, h1, h2, h3⟩ := ih (n / 10) (UInt8.ofNat (48 + n % 10) :: acc) (by omega)
      refine ⟨ds ++ [UInt8.ofNat (48 + n % 10)], ?_, ?_, ?_⟩
      · simp [digitsAux, h0, h1]
      · rw [digitsVal_append, h2]
        simp only [digitsVal, List.foldl_cons, List.foldl_nil, hd]
        omega
      · intro b hb
        rcases List.mem_append.1 hb with hb | hb
        · exact h3 b hb
        · simp only [List.mem_singleton] at hb
          subst hb
          omega

theorem digitsVal_Itoa (n : Nat) : digitsVal 0 (Itoa n) = n := by
  obtain ⟨ds, h1, h2, _⟩ := digitsAux_spec (n + 1) n [] (Nat.lt_succ_self n)
  simpa [Itoa, h1] using h2

theorem Itoa_injective : Function.Injective Itoa := by
  intro a b h
  have := congrArg (digitsVal 0) h
  simpa [digitsVal_Itoa] using this

theorem Itoa_digits (n : Nat) : ∀ b ∈ Itoa n, 48 ≤ b.toNat ∧ b.toNat ≤ 57 := by
  obtain ⟨ds, h1, _, h3⟩ := digitsAux_spec (n + 1) n [] (Nat.lt_succ_self n)
  intro b hb
  simp only [Itoa, h1, List.append_nil] at hb
  exact h3 b hb

theorem dot_not_mem_Itoa (n : Nat) : (46 : UInt8) ∉ Itoa n := by
  intro h
  have := Itoa_digits n _ h
  revert this
  decide

/-- Splitting on a one-byte separator: a piece free of the separator, followed by it. -/
theorem splitAux_piece (c : UInt8) : ∀ (a rest cur : Str), c ∉ a →
    strings.splitAux [c] (a ++ c :: rest) cur 0
      = (cur.reverse ++ a) :: strings.splitAux [c] rest [] 0 := by
  intro a
  induction a with
  | nil =>
    intro rest cur _
    simp [strings.splitAux, List.isPrefixOf]
  | cons x a ih =>
    intro rest cur h
    have hx : c ≠ x := fun e => h (by simp [e])
    have ha : c ∉ a := fun e => h (by simp [e])
    simp [strings.splitAux, List.isPrefixOf, hx, ih rest (x :: cur) ha]

/-- Splitting on a one-byte separator: the last piece. -/
theorem splitAux_last (c : UInt8) : ∀ (a cur : Str), c ∉ a →
    strings.splitAux [c] a cur 0 = [cur.reverse ++ a] := by
  intro a
  induction a with
  | nil => intro cur _; simp [strings.splitAux]
  | cons x a ih =>
    intro cur h
    have hx : c ≠ x := fun e => h (by simp [e])
    have ha : c ∉ a := fun e => h (by simp [e])
    simp [strings.splitAux, List.isPrefixOf, hx, ih (x :: cur) ha]

theorem split_containerKey_state (i : Nat) :
    strings.Split (containerKey i "state") (lit ".") = [lit "container", Itoa i, lit "state"] := by
  have e : containerKey i "state"
      = lit "container" ++ 46 :: (Itoa i ++ 46 :: lit "state") := by
    have h1 : lit "container." = lit "container" ++ [46] := by decide
    have h2 : lit "." = [46] := by decide
    simp [containerKey, h1, h2]
  have h3 : lit "." = [46] := by decide
  rw [strings.Split, e, h3, splitAux_piece 46 _ _ _ (by decide),
    splitAux_piece 46 _ _ _ (dot_not_mem_Itoa i), splitAux_last 46 _ _ (by decide)]
  simp

theorem hasSuffix_containerKey_state (i : Nat) :
    strings.HasSuffix (containerKey i "state") (lit ".state") = true := by
  have h1 : lit "." ++ lit "state" = lit ".state" := by decide
  simp only [strings.HasSuffix, containerKey, List.append_assoc, h1, List.isSuffixOf_iff_suffix]
  exact ⟨lit "container." ++ Itoa i, by simp⟩

theorem containerKey_eq (i : Nat) (field : String) :
    lit "container" ++ lit "." ++ Itoa i ++ lit "." ++ lit field = containerKey i field := by
  have h1 : lit "container" ++ lit "." = lit "container." := by decide
  simp [containerKey, ← h1]

/-! ## What each pass of the pod analyzer appends -/

@[simp] theorem extend_nil (c : AnalysisContext) : c.extend [] = c := by
  simp [AnalysisContext.extend]

@[simp] theorem extend_extend (c : AnalysisContext) (a b : List AnalysisDetail) :
    (c.extend a).extend b = c.extend (a ++ b) := by
  simp [AnalysisContext.extend]

@[simp] theorem extend_Details (c : AnalysisContext) (a : List AnalysisDetail) :
    (c.extend a).Details = c.Details ++ a := rfl

theorem appendDetail_eq (c : AnalysisContext) (d : AnalysisDetail) :
    c.appendDetail d = c.extend [d] := rfl

theorem containerStateBody_eq (resource : ResourceData) (c : AnalysisContext) (key value : Str) :
    PodAnalyzer.containerStateBody resource c key value
      = c.extend (containerFindings resource (key, value)) := by
  simp only [containerFindings, PodAnalyzer.containerStateBody]
  split
  · split
    · split_ifs <;> simp [appendDetail_eq, emptyCtx]
    · simp [emptyCtx]
  · simp [emptyCtx]

theorem checkContainerStates_eq (resource : ResourceData) (c : AnalysisContext) :
    PodAnalyzer.checkContainerStates resource c
      = c.extend (resource.Status.flatMap (containerFindings resource)) := by
  unfold PodAnalyzer.checkContainerStates
  generalize resource.Status = l
  induction l generalizing c with
  | nil => simp
  | cons kv l ih => rw [List.foldl_cons, ih, containerStateBody_eq]; simp

theorem eventBody_eq (tbl : Nat → Nat) (resource : ResourceData) (c : AnalysisContext)
    (event : Str) :
    PodAnalyzer.eventBody tbl resource c event = c.extend (eventFindings tbl resource event) := by
  simp only [PodAnalyzer.eventBody, eventFindings]
  split_ifs <;> simp [appendDetail_eq]

theorem checkEvents_eq (tbl : Nat → Nat) (resource : ResourceData) (c : AnalysisContext) :
    PodAnalyzer.checkEvents tbl resource c
      = c.extend (resource.Events.flatMap (eventFindings tbl resource)) := by
  unfold PodAnalyzer.checkEvents
  generalize resource.Events = l
  split_ifs with h
  · have : l = [] := List.length_eq_zero.1 h
    simp [this]
  · clear h
    induction l generalizing c with
    | nil => simp
    | cons e l ih => rw [List.foldl_cons, ih, eventBody_eq]; simp

theorem checkConnection_eq (lowerLogs : Str) (resource : ResourceData) (c : AnalysisContext) :
    PodAnalyzer.checkConnection lowerLogs resource c
      = c.extend (connectionFindings lowerLogs resource) := by
  simp only [PodAnalyzer.checkConnection, connectionFindings]
  split_ifs <;> simp [appendDetail_eq]

theorem checkLogs_eq (tbl : Nat → Nat) (resource : ResourceData) (c : AnalysisContext) :
    PodAnalyzer.checkLogs tbl resource c
      = match logFindings tbl resource with
        | .ok new => .ok (c.extend new)
        | .error f => .error f := by
  simp only [PodAnalyzer.checkLogs, logFindings]
  split_ifs
  · cases PodAnalyzer.extractErrorSnippet tbl (strings.Join resource.Logs (lit "\n")) <;>
      simp [checkConnection_eq, appendDetail_eq]
  · simp [checkConnection_eq]

theorem condLoop_stop (resource : ResourceData) (fuel i : Nat) (c : AnalysisContext)
    (h : mapGet? resource.Status (PodAnalyzer.condKey i "type") = none) :
    PodAnalyzer.condLoop resource (fuel + 1) i c = .ok c := by
  simp [PodAnalyzer.condLoop, h]

theorem condLoop_step (resource : ResourceData) (fuel i : Nat) (c : AnalysisContext)
    (h : (mapGet? resource.Status (PodAnalyzer.condKey i "type")).isSome) :
    PodAnalyzer.condLoop resource (fuel + 1) i c
      = PodAnalyzer.condLoop resource fuel (i + 1) (c.extend (condFinding resource i)) := by
  obtain ⟨t, ht⟩ := Option.isSome_iff_exists.1 h
  simp only [PodAnalyzer.condLoop, ht, condFinding, unschedulable]
  cases hs : mapGet? resource.Status (PodAnalyzer.condKey i "status") with
  | none => simp
  | some st =>
    by_cases hc : t = lit "PodScheduled" ∧ st = lit "False"
    · simp [hc, appendDetail_eq]
    · have : ¬ (t = lit "PodScheduled" ∧ st = lit "False") := hc
      simp [hc]

/-- The condition loop run: when conditions `i .. i+m-1` have a type, condition `i+m` has none and
the budget exceeds `m`, the loop returns, having appended the findings of those conditions in
index order. -/
theorem condLoop_run (resource : ResourceData) : ∀ (m fuel i : Nat) (c : AnalysisContext),
    (∀ k, i ≤ k → k < i + m → (mapGet? resource.Status (PodAnalyzer.condKey k "type")).isSome) →
    mapGet? resource.Status (PodAnalyzer.condKey (i + m) "type") = none →
    m < fuel →
    PodAnalyzer.condLoop resource fuel i c
      = .ok (c.extend ((List.range' i m).flatMap (condFinding resource))) := by
  intro m
  induction m with
  | zero =>
    intro fuel i c _ hnone hf
    obtain ⟨f, rfl⟩ : ∃ f, fuel = f + 1 := ⟨fuel - 1, by omega⟩
    simpa using condLoop_stop resource f i c (by simpa using hnone)
  | succ m ih =>
    intro fuel i c hsome hnone hf
    obtain ⟨f, rfl⟩ : ∃ f, fuel = f + 1 := ⟨fuel - 1, by omega⟩
    rw [condLoop_step resource f i c (hsome i (le_refl _) (by omega)),
      ih f (i + 1) _ (fun k h1 h2 => hsome k (by omega) (by omega))
        (by rw [← hnone]; congr 2; omega) (by omega)]
    simp [List.range'_succ]

theorem mem_keys_of_mapGet? (m : List (Str × Str)) (k : Str) (h : (mapGet? m k).isSome) :
    k ∈ m.map Prod.fst := by
  induction m with
  | nil => simp [mapGet?] at h
  | cons kv m ih =>
    obtain ⟨a, b⟩ := kv
    by_cases e : k = a
    · simp [e]
    · have hb : (k == a) = false := by simpa using e
      simp only [mapGet?, List.lookup, hb] at h
      simp only [List.map_cons, List.mem_cons]
      exact Or.inr (ih h)

theorem condKey_injective (field : String) :
    Function.Injective (fun i => PodAnalyzer.condKey i field) := by
  intro a b h
  simp only [PodAnalyzer.condKey, List.append_assoc, List.append_cancel_left_eq,
    List.append_cancel_right_eq] at h
  exact Itoa_injective h

/-- Finiteness of the map: some index up to the number of entries has no `type` key. -/
theorem exists_missing_type (resource : ResourceData) :
    ∃ n, n ≤ resource.Status.length ∧
      mapGet? resource.Status (PodAnalyzer.condKey n "type") = none := by
  by_contra hcon
  push_neg at hcon
  have hsub : (List.range (resource.Status.length + 1)).map
      (fun i => PodAnalyzer.condKey i "type") ⊆ resource.Status.map Prod.fst := by
    intro k hk
    obtain ⟨i, hi, rfl⟩ := List.mem_map.1 hk
    apply mem_keys_of_mapGet?
    have := hcon i (by simpa [Nat.lt_succ_iff] using hi)
    exact Option.ne_none_iff_isSome.1 this
  have hnd : ((List.range (resource.Status.length + 1)).map
      (fun i => PodAnalyzer.condKey i "type")).Nodup :=
    (List.nodup_range _).map (condKey_injective "type")
  have := (List.subperm_of_subset hnd hsub).length_le
  simp at this

/-- The least index without a `type` key. -/
theorem exists_least_missing_type (resource : ResourceData) :
    ∃ n, n ≤ resource.Status.length ∧
      mapGet? resource.Status (PodAnalyzer.condKey n "type") = none ∧
      ∀ k, k < n → (mapGet? resource.Status (PodAnalyzer.condKey k "type")).isSome := by
  classical
  have hex : ∃ n, mapGet? resource.Status (PodAnalyzer.condKey n "type") = none := by
    obtain ⟨n, _, h⟩ := exists_missing_type resource
    exact ⟨n, h⟩
  refine ⟨Nat.find hex, ?_, Nat.find_spec hex, ?_⟩
  · obtain ⟨n, hn, h⟩ := exists_missing_type resource
    exact le_trans (Nat.find_min' hex h) hn
  · intro k hk
    exact Option.ne_none_iff_isSome.1 (Nat.find_min hex hk)

/-- The status pass on a `Pending` pod returns, with the findings of the conditions below the
first missing index. -/
theorem checkPodStatus_pending (resource : ResourceData) (c : AnalysisContext) (n : Nat)
    (hphase : mapGet? resource.Status (lit "phase") = some (lit "Pending"))
    (hn : mapGet? resource.Status (PodAnalyzer.condKey n "type") = none)
    (hlt : ∀ k, k < n → (mapGet? resource.Status (PodAnalyzer.condKey k "type")).isSome)
    (hle : n ≤ resource.Status.length) :
    PodAnalyzer.checkPodStatus resource c
      = .ok (c.extend ((List.range n).flatMap (condFinding resource))) := by
  simp only [PodAnalyzer.checkPodStatus, hphase, if_true]
  rw [condLoop_run resource n _ 0 c (fun k _ h => hlt k (by omega)) (by simpa using hn)
    (by omega), List.range_eq_range']

theorem condFindings_length (resource : ResourceData) (l : List Nat) :
    (l.flatMap (condFinding resource)).length = (l.filter (unschedulable resource)).length := by
  induction l with
  | nil => simp
  | cons i l ih =>
    by_cases h : unschedulable resource i <;> simp [List.flatMap_cons, condFinding, h, List.filter_cons, ih]

/-- C3: on a `Pending` pod, for a condition `j` reachable from index 0 (every index up to `j` has
a `type` key) that is `PodScheduled` with status `False`, the status pass returns and the finding
it appends for that condition (the one preceded by as many findings as there are unschedulable
conditions below `j`) is the "Pod scheduling issues" error finding whose commands contain
`kubectl get nodes` when the condition's reason contains "Insufficient" and are empty when it
does not. -/
theorem C3_scheduling_commands (resource : ResourceData) (c : AnalysisContext) (j : Nat)
    (hphase : mapGet? resource.Status (lit "phase") = some (lit "Pending"))
    (hreach : ∀ k, k ≤ j → (mapGet? resource.Status (PodAnalyzer.condKey k "type")).isSome)
    (htype : mapGet? resource.Status (PodAnalyzer.condKey j "type") = some (lit "PodScheduled"))
    (hstatus : mapGet? resource.Status (PodAnalyzer.condKey j "status") = some (lit "False")) :
    ∃ (before after : List AnalysisDetail) (d : AnalysisDetail),
      PodAnalyzer.checkPodStatus resource c
        = .ok { c with Details := c.Details ++ (before ++ d :: after) } ∧
      before.length = ((List.range j).filter (unschedulable resource)).length ∧
      d.Title = lit "Pod scheduling issues" ∧ d.Type_ = lit "error" ∧
      d.Resource = resource.Resource ∧
      d.Description = lit "The pod is in a Pending state and cannot be scheduled: "
        ++ mapGet resource.Status (PodAnalyzer.condKey j "message") ∧
      (strings.Contains (mapGet resource.Status (PodAnalyzer.condKey j "reason"))
          (lit "Insufficient") = true → lit "kubectl get nodes" ∈ d.RemediationCommands) ∧
      (strings.Contains (mapGet resource.Status (PodAnalyzer.condKey j "reason"))
          (lit "Insufficient") = false → d.RemediationCommands = []) := by
  obtain ⟨n, hle, hn, hlt⟩ := exists_least_missing_type resource
  have hjn : j < n := by
    by_contra hcon
    have := hreach n (by omega)
    simp [hn] at this
  have hsplit : List.range n = List.range j ++ j :: List.range' (j + 1) (n - j - 1) := by
    have h1 : n = (n - j - 1 + 1) + j := by omega
    have h2 := List.range'_append_1 0 j (n - j - 1 + 1)
    rw [Nat.zero_add] at h2
    conv_lhs => rw [h1]
    rw [List.range_eq_range', List.range_eq_range', ← h2, List.range'_succ]
  have hj : condFinding resource j
      = [PodAnalyzer.schedulingDetail resource
          (mapGet resource.Status (PodAnalyzer.condKey j "reason"))
          (mapGet resource.Status (PodAnalyzer.condKey j "message"))] := by
    simp [condFinding, unschedulable, htype, hstatus]
  refine ⟨(List.range j).flatMap (condFinding resource),
    (List.range' (j + 1) (n - j - 1)).flatMap (condFinding resource),
    PodAnalyzer.schedulingDetail resource
      (mapGet resource.Status (PodAnalyzer.condKey j "reason"))
      (mapGet resource.Status (PodAnalyzer.condKey j "message")), ?_, ?_, rfl, rfl, rfl, rfl, ?_, ?_⟩
  · rw [checkPodStatus_pending resource c n hphase hn hlt hle, hsplit]
    simp [AnalysisContext.extend, List.flatMap_append, List.flatMap_cons, hj]
  · exact condFindings_length resource _
  · intro h
    simp [PodAnalyzer.schedulingDetail, h]
  · intro h
    simp [PodAnalyzer.schedulingDetail, h]

/-- Instance of C3 at `pendingPod`, condition 1. -/
theorem C3_scheduling_commands_witness :
    ∃ (before after : List AnalysisDetail) (d : AnalysisDetail),
      PodAnalyzer.checkPodStatus pendingPod emptyCtx
        = .ok { emptyCtx with Details := emptyCtx.Details ++ (before ++ d :: after) } ∧
      before.length = ((List.range 1).filter (unschedulable pendingPod)).length ∧
      d.Title = lit "Pod scheduling issues" ∧ d.Type_ = lit "error" ∧
      d.Resource = pendingPod.Resource ∧
      d.Description = lit "The pod is in a Pending state and cannot be scheduled: "
        ++ mapGet pendingPod.Status (PodAnalyzer.condKey 1 "message") ∧
      (strings.Contains (mapGet pendingPod.Status (PodAnalyzer.condKey 1 "reason"))
          (lit "Insufficient") = true → lit "kubectl get nodes" ∈ d.RemediationCommands) ∧
      (strings.Contains (mapGet pendingPod.Status (PodAnalyzer.condKey 1 "reason"))
          (lit "Insufficient") = false → d.RemediationCommands = []) :=
  C3_scheduling_commands pendingPod emptyCtx 1 (by decide)
    (by intro k hk; interval_cases k <;> decide) (by decide) (by decide)

theorem ToLower_ascii (tbl tbl1 : Nat → Nat) (s : Str) (h : isASCII s = true) :
    strings.ToLower tbl s = strings.ToLower tbl1 s := by
  simp only [isASCII] at h
  simp [strings.ToLower, h]

theorem extractErrorSnippet_ascii (tbl tbl1 : Nat → Nat) (logs : Str) (h : isASCII logs = true) :
    PodAnalyzer.extractErrorSnippet tbl logs = PodAnalyzer.extractErrorSnippet tbl1 logs := by
  simp only [PodAnalyzer.extractErrorSnippet, ToLower_ascii tbl tbl1 logs h]

/-- C6 (counterexample): on the four-line log text the snippet is not one that includes the
line "ERROR cannot open file" and omits "INFO startup". -/
theorem C6_snippet_keeps_leading_line :
    ¬ ∃ snippet, PodAnalyzer.extractErrorSnippet unicode.lowerExcerpt snippetLogs = .ok snippet ∧
      strings.Contains snippet (lit "ERROR cannot open file") = true ∧
      strings.Contains snippet (lit "INFO startup") = false := by
  rintro ⟨snippet, h1, -, h3⟩
  have h : PodAnalyzer.extractErrorSnippet unicode.lowerExcerpt snippetLogs
      = .ok (lit "INFO startup\nERROR cannot open file\nretrying") := by decide!
  rw [h] at h1
  injection h1 with h1
  subst h1
  revert h3
  decide!

/-- C6 (amended): for every case table, the snippet of the four-line log text is its first three
lines: it includes the line "ERROR cannot open file", keeps the leading line "INFO startup", which
lies within the 50 bytes before the match, and drops only the fourth line "done". -/
theorem C6_snippet_first_three_lines (tbl : Nat → Nat) :
    PodAnalyzer.extractErrorSnippet tbl snippetLogs
      = .ok (lit "INFO startup\nERROR cannot open file\nretrying") ∧
    strings.Split (lit "INFO startup\nERROR cannot open file\nretrying") (lit "\n")
      = [lit "INFO startup", lit "ERROR cannot open file", lit "retrying"] := by
  refine ⟨?_, by decide!⟩
  rw [extractErrorSnippet_ascii tbl unicode.lowerExcerpt snippetLogs (by decide!)]
  decide!

theorem indexFrom_nonneg_of_prefix (p : Str) : ∀ (s : Str) (i : Nat),
    p.isPrefixOf s = true → strings.indexFrom p s i = (i : Int) := by
  intro s i h
  cases s with
  | nil => simp [strings.indexFrom, h]
  | cons a t => simp [strings.indexFrom, h]

theorem indexFrom_nonneg (p b : Str) : ∀ (a : Str) (i : Nat),
    0 ≤ strings.indexFrom p (a ++ (p ++ b)) i := by
  intro a
  induction a with
  | nil =>
    intro i
    rw [List.nil_append, indexFrom_nonneg_of_prefix p _ i (by simp)]
    exact Int.ofNat_nonneg i
  | cons x a ih =>
    intro i
    simp only [List.cons_append, strings.indexFrom]
    split_ifs
    · exact Int.ofNat_nonneg i
    · exact ih (i + 1)

theorem contains_of_infix (a p b : Str) : strings.Contains (a ++ (p ++ b)) p = true := by
  simp [strings.Contains, strings.Index, indexFrom_nonneg]

theorem ToLower_of_isASCII (tbl : Nat → Nat) (s : Str) (h : isASCII s = true) :
    strings.ToLower tbl s = s.map lowerByte := by
  simp only [isASCII] at h
  simp only [strings.ToLower, h, if_true]
  rfl

theorem filter_title_eventFindings_oom (tbl : Nat → Nat) (resource : ResourceData) (event : Str) :
    (eventFindings tbl resource event).filter
        (fun d => decide (d.Title = lit "Container terminated due to OOMKilled"))
      = if strings.Contains (strings.ToLower tbl event) (lit "oomkilled") then
          [PodAnalyzer.oomDetail resource event] else [] := by
  have hne : lit "Pod was evicted" ≠ lit "Container terminated due to OOMKilled" := by decide
  simp only [eventFindings]
  split_ifs <;> simp [PodAnalyzer.oomDetail, PodAnalyzer.evictDetail, hne]

theorem filter_title_eventFindings_evict (tbl : Nat → Nat) (resource : ResourceData)
    (event : Str) :
    (eventFindings tbl resource event).filter (fun d => decide (d.Title = lit "Pod was evicted"))
      = if strings.Contains (strings.ToLower tbl event) (lit "evict") then
          [PodAnalyzer.evictDetail resource event] else [] := by
  have hne : lit "Container terminated due to OOMKilled" ≠ lit "Pod was evicted" := by decide
  simp only [eventFindings]
  split_ifs <;> simp [PodAnalyzer.oomDetail, PodAnalyzer.evictDetail, hne]

/-- C5: the event pass appends, event by event in list order, an "OOMKilled" error finding when
the lower-cased event contains "oomkilled", followed by a "Pod was evicted" warning finding when
it contains "evict"; so the appended findings hold one OOMKilled finding per matching event and
one eviction finding per matching event, nothing is suppressed, and in ASCII text the match does
not depend on letter case. -/
theorem C5_event_pass (tbl : Nat → Nat) (resource : ResourceData) (c : AnalysisContext) :
    (∃ new : List AnalysisDetail,
      PodAnalyzer.checkEvents tbl resource c = { c with Details := c.Details ++ new } ∧
      new = resource.Events.flatMap (fun event =>
        (if strings.Contains (strings.ToLower tbl event) (lit "oomkilled") then
          [PodAnalyzer.oomDetail resource event] else [])
        ++ (if strings.Contains (strings.ToLower tbl event) (lit "evict") then
          [PodAnalyzer.evictDetail resource event] else [])) ∧
      (new.filter (fun d => decide (d.Title = lit "Container terminated due to OOMKilled"))).length
        = (resource.Events.filter (fun event =>
            strings.Contains (strings.ToLower tbl event) (lit "oomkilled"))).length ∧
      (new.filter (fun d => decide (d.Title = lit "Pod was evicted"))).length
        = (resource.Events.filter (fun event =>
            strings.Contains (strings.ToLower tbl event) (lit "evict"))).length) ∧
    (∀ event, (PodAnalyzer.oomDetail resource event).Title
          = lit "Container terminated due to OOMKilled" ∧
        (PodAnalyzer.oomDetail resource event).Type_ = lit "error") ∧
    (∀ event, (PodAnalyzer.evictDetail resource event).Title = lit "Pod was evicted" ∧
        (PodAnalyzer.evictDetail resource event).Type_ = lit "warning") ∧
    (∀ before word after : Str, isASCII (before ++ (word ++ after)) = true →
        word.map lowerByte = lit "oomkilled" →
        strings.Contains (strings.ToLower tbl (before ++ (word ++ after))) (lit "oomkilled")
          = true) := by
  refine ⟨⟨resource.Events.flatMap (eventFindings tbl resource), ?_, rfl, ?_, ?_⟩,
    fun _ => ⟨rfl, rfl⟩, fun _ => ⟨rfl, rfl⟩, ?_⟩
  · rw [checkEvents_eq]; rfl
  · generalize resource.Events = l
    induction l with
    | nil => simp
    | cons e l ih =>
      rw [List.flatMap_cons, List.filter_append, List.length_append, ih,
        filter_title_eventFindings_oom, List.filter_cons]
      split_ifs <;> simp [Nat.add_comm]
  · generalize resource.Events = l
    induction l with
    | nil => simp
    | cons e l ih =>
      rw [List.flatMap_cons, List.filter_append, List.length_append, ih,
        filter_title_eventFindings_evict, List.filter_cons]
      split_ifs <;> simp [Nat.add_comm]
  · intro before word after hascii hword
    rw [ToLower_of_isASCII tbl _ hascii, List.map_append, List.map_append, hword]
    exact contains_of_infix _ _ _

/-! ## Titles of the findings of each pass -/

theorem filter_title_eq_nil (l : List AnalysisDetail) (titles : List Str) (title : Str)
    (hl : ∀ d ∈ l, d.Title ∈ titles) (ht : title ∉ titles) :
    l.filter (fun d => decide (d.Title = title)) = [] := by
  rw [List.filter_eq_nil_iff]
  intro d hd
  have := hl d hd
  simp only [decide_eq_true_eq]
  intro e
  exact ht (e ▸ this)

theorem containerFindings_titles (resource : ResourceData) (kv : Str × Str) :
    ∀ d ∈ containerFindings resource kv, d.Title ∈ containerTitles := by
  intro d hd
  simp only [containerFindings, PodAnalyzer.containerStateBody] at hd
  split at hd
  · split at hd
    · split_ifs at hd <;>
        simp [emptyCtx, AnalysisContext.appendDetail] at hd <;>
        subst hd <;>
        simp [containerTitles, PodAnalyzer.crashLoopDetail, PodAnalyzer.imagePullDetail,
          PodAnalyzer.configErrorDetail]
    · simp [emptyCtx] at hd
  · simp [emptyCtx] at hd

theorem mem_flatMap_titles {α : Type} (f : α → List AnalysisDetail) (titles : List Str)
    (l : List α) (h : ∀ x, ∀ d ∈ f x, d.Title ∈ titles) :
    ∀ d ∈ l.flatMap f, d.Title ∈ titles := by
  intro d hd
  obtain ⟨x, _, hx⟩ := List.mem_flatMap.1 hd
  exact h x d hx

theorem eventFindings_titles (tbl : Nat → Nat) (resource : ResourceData) (event : Str) :
    ∀ d ∈ eventFindings tbl resource event, d.Title ∈ eventTitles := by
  intro d hd
  simp only [eventFindings, List.mem_append] at hd
  rcases hd with hd | hd
  · split_ifs at hd
    · simp only [List.mem_singleton] at hd
      subst hd
      simp [eventTitles, PodAnalyzer.oomDetail]
    · simp at hd
  · split_ifs at hd
    · simp only [List.mem_singleton] at hd
      subst hd
      simp [eventTitles, PodAnalyzer.evictDetail]
    · simp at hd

theorem connectionFindings_titles (lowerLogs : Str) (resource : ResourceData) :
    ∀ d ∈ connectionFindings lowerLogs resource, d.Title ∈ logTitles := by
  intro d hd
  simp only [connectionFindings] at hd
  split_ifs at hd <;> simp at hd
  subst hd
  simp [logTitles, PodAnalyzer.connectionDetail]

theorem logFindings_titles (tbl : Nat → Nat) (resource : ResourceData)
    (new : List AnalysisDetail) (h : logFindings tbl resource = .ok new) :
    ∀ d ∈ new, d.Title ∈ logTitles := by
  intro d hd
  simp only [logFindings] at h
  split_ifs at h
  · cases hx : PodAnalyzer.extractErrorSnippet tbl (strings.Join resource.Logs (lit "\n")) with
    | error f => simp [hx] at h
    | ok snippet =>
      simp only [hx, Except.ok.injEq] at h
      subst h
      rcases List.mem_cons.1 hd with hd | hd
      · subst hd
        simp [logTitles, PodAnalyzer.logErrorDetail]
      · exact connectionFindings_titles _ _ d hd
  · simp only [Except.ok.injEq] at h
    subst h
    exact connectionFindings_titles _ _ d hd

theorem condFinding_titles (resource : ResourceData) (i : Nat) :
    ∀ d ∈ condFinding resource i, d.Title ∈ statusTitles := by
  intro d hd
  simp only [condFinding] at hd
  split_ifs at hd <;> simp at hd
  subst hd
  simp [statusTitles, PodAnalyzer.schedulingDetail]

/-- The status pass always returns, and appends findings that depend on the snapshot only. -/
theorem checkPodStatus_returns (resource : ResourceData) :
    ∃ new : List AnalysisDetail, (∀ c, PodAnalyzer.checkPodStatus resource c = .ok (c.extend new))
      ∧ (∀ d ∈ new, d.Title ∈ statusTitles)
      ∧ (mapGet? resource.Status (lit "phase") = some (lit "Failed") →
          new = [PodAnalyzer.failedDetail resource]) := by
  cases hp : mapGet? resource.Status (lit "phase") with
  | none =>
    exact ⟨[], fun c => by simp [PodAnalyzer.checkPodStatus, hp], by simp, by simp⟩
  | some phase =>
    by_cases h1 : phase = lit "Pending"
    · subst h1
      obtain ⟨n, hle, hn, hlt⟩ := exists_least_missing_type resource
      refine ⟨(List.range n).flatMap (condFinding resource),
        fun c => checkPodStatus_pending resource c n hp hn hlt hle,
        mem_flatMap_titles _ _ _ (condFinding_titles resource), ?_⟩
      intro h
      exact absurd (Option.some.inj h) (by decide)
    · by_cases h2 : phase = lit "Failed"
      · subst h2
        refine ⟨[PodAnalyzer.failedDetail resource], fun c => ?_, ?_, fun _ => rfl⟩
        · have hne : lit "Failed" ≠ lit "Pending" := by decide
          simp [PodAnalyzer.checkPodStatus, hp, appendDetail_eq, hne]
        · intro d hd
          simp only [List.mem_singleton] at hd
          subst hd
          simp [statusTitles, PodAnalyzer.failedDetail]
      · refine ⟨[], fun c => by simp [PodAnalyzer.checkPodStatus, hp, h1, h2], by simp, ?_⟩
        intro h
        exact absurd (Option.some.inj h) h2

/-- What `Analyze` does with one Pod snapshot on which the log step returns: the four passes
append their findings in pass order. -/
theorem analyzeBody_pod (tbl : Nat → Nat) (resource : ResourceData)
    (hkind : resource.Resource.Kind = lit "Pod") (hlog : logPassReturns tbl resource) :
    ∃ logNew statusNew : List AnalysisDetail,
      (∀ c, PodAnalyzer.analyzeBody tbl c resource
        = .ok (c.extend (resource.Status.flatMap (containerFindings resource)
            ++ resource.Events.flatMap (eventFindings tbl resource) ++ logNew ++ statusNew))) ∧
      (∀ d ∈ logNew, d.Title ∈ logTitles) ∧ (∀ d ∈ statusNew, d.Title ∈ statusTitles) ∧
      (mapGet? resource.Status (lit "phase") = some (lit "Failed") →
          statusNew = [PodAnalyzer.failedDetail resource]) := by
  obtain ⟨statusNew, hs1, hs2, hs3⟩ := checkPodStatus_returns resource
  by_cases hl : resource.Logs = []
  · refine ⟨[], statusNew, fun c => ?_, by simp, hs2, hs3⟩
    simp [PodAnalyzer.analyzeBody, hkind, hl, checkContainerStates_eq, checkEvents_eq, hs1]
  · have hpos : resource.Logs.length > 0 := List.length_pos.2 hl
    rcases hlog with h | ⟨c0, h⟩
    · exact absurd h hl
    · rw [checkLogs_eq] at h
      cases hf : logFindings tbl resource with
      | error f => simp [hf] at h
      | ok logNew =>
        refine ⟨logNew, statusNew, fun c => ?_, logFindings_titles tbl resource logNew hf, hs2, hs3⟩
        simp [PodAnalyzer.analyzeBody, hkind, hpos, checkContainerStates_eq, checkEvents_eq,
          checkLogs_eq, hf, hs1]

theorem containerFindings_of_not_waiting (resource : ResourceData) (kv : Str × Str)
    (h : isWaitingEntry kv = false) : containerFindings resource kv = [] := by
  simp only [isWaitingEntry] at h
  simp [containerFindings, PodAnalyzer.containerStateBody, h, emptyCtx]

/-- Findings of the container-state loop for the waiting container with index `i`. -/
theorem containerFindings_waiting (resource : ResourceData) (i : Nat) :
    containerFindings resource (containerKey i "state", lit "waiting")
      = if mapGet resource.Status (containerKey i "name") = []
            ∨ mapGet resource.Status (containerKey i "reason") = [] then []
        else if mapGet resource.Status (containerKey i "reason") = lit "CrashLoopBackOff" then
          [PodAnalyzer.crashLoopDetail resource (mapGet resource.Status (containerKey i "name"))
            (mapGet resource.Status (containerKey i "message"))]
        else if mapGet resource.Status (containerKey i "reason") = lit "ImagePullBackOff"
            ∨ mapGet resource.Status (containerKey i "reason") = lit "ErrImagePull" then
          [PodAnalyzer.imagePullDetail resource (mapGet resource.Status (containerKey i "name"))
            (mapGet resource.Status (containerKey i "message"))]
        else if mapGet resource.Status (containerKey i "reason")
            = lit "CreateContainerConfigError" then
          [PodAnalyzer.configErrorDetail resource (mapGet resource.Status (containerKey i "name"))
            (mapGet resource.Status (containerKey i "message"))]
        else [] := by
  simp only [containerFindings, PodAnalyzer.containerStateBody, hasSuffix_containerKey_state,
    split_containerKey_state, containerKey_eq, beq_self_eq_true, Bool.and_self, if_true]
  split_ifs <;> simp [emptyCtx, AnalysisContext.appendDetail]

theorem flatMap_filter_of_nil {α β : Type} (f : α → List β) (p : α → Bool) (l : List α)
    (h : ∀ x, p x = false → f x = []) : l.flatMap f = (l.filter p).flatMap f := by
  induction l with
  | nil => simp
  | cons x l ih =>
    cases hp : p x
    · simp [List.flatMap_cons, List.filter_cons, hp, h x hp, ih]
    · simp [List.flatMap_cons, List.filter_cons, hp, ih]

/-- Container-state findings of a snapshot whose only waiting entry is that of container `i`. -/
theorem containerPass_single (resource : ResourceData) (i : Nat)
    (hone : resource.Status.filter isWaitingEntry = [(containerKey i "state", lit "waiting")]) :
    resource.Status.flatMap (containerFindings resource)
      = containerFindings resource (containerKey i "state", lit "waiting") := by
  rw [flatMap_filter_of_nil _ isWaitingEntry _ (containerFindings_of_not_waiting resource), hone]
  simp

theorem Analyze_single (tbl : Nat → Nat) (query : Str) (resource : ResourceData)
    (prior new : List AnalysisDetail)
    (h : ∀ c, PodAnalyzer.analyzeBody tbl c resource = .ok (c.extend new)) :
    PodAnalyzer.Analyze tbl { Query := query, Resources := [resource], Details := prior }
      = .ok ({ Query := query, Resources := [resource], Details := prior ++ new }, none) := by
  simp [PodAnalyzer.Analyze, PodAnalyzer.analyzeLoop, h, AnalysisContext.extend]

/-- Companion of C1: the claim holds on every snapshot on which the log step returns. -/
theorem crashLoop_finding_when_log_pass_returns (tbl : Nat → Nat) (resource : ResourceData)
    (query : Str) (i : Nat) (containerName : Str)
    (hkind : resource.Resource.Kind = lit "Pod")
    (hone : resource.Status.filter isWaitingEntry = [(containerKey i "state", lit "waiting")])
    (hname : mapGet resource.Status (containerKey i "name") = containerName)
    (hne : containerName ≠ [])
    (hreason : mapGet resource.Status (containerKey i "reason") = lit "CrashLoopBackOff")
    (hlog : logPassReturns tbl resource) :
    ∃ (c : AnalysisContext) (d : AnalysisDetail),
      PodAnalyzer.Analyze tbl { Query := query, Resources := [resource], Details := [] }
        = .ok (c, none) ∧
      c.Details.filter (fun x => decide (x.Title = lit "Container in CrashLoopBackOff")) = [d] ∧
      d.Type_ = lit "error" ∧ d.Resource = resource.Resource ∧
      lit "kubectl logs " ++ resource.Resource.Name ++ lit " -c " ++ containerName ++ lit " -n "
        ++ resource.Resource.Namespace ∈ d.RemediationCommands := by
  obtain ⟨logNew, statusNew, hbody, hl, hs, _⟩ := analyzeBody_pod tbl resource hkind hlog
  have hcont : resource.Status.flatMap (containerFindings resource)
      = [PodAnalyzer.crashLoopDetail resource containerName
          (mapGet resource.Status (containerKey i "message"))] := by
    have hr : lit "CrashLoopBackOff" ≠ ([] : Str) := by decide
    rw [containerPass_single resource i hone, containerFindings_waiting, hname, hreason]
    simp [hne, hr]
  refine ⟨_, PodAnalyzer.crashLoopDetail resource containerName
      (mapGet resource.Status (containerKey i "message")),
    Analyze_single tbl query resource [] _ hbody, ?_, rfl, rfl, ?_⟩
  · rw [hcont]
    simp only [List.nil_append, List.filter_append]
    rw [filter_title_eq_nil _ eventTitles _
        (mem_flatMap_titles _ _ _ (eventFindings_titles tbl resource)) (by decide),
      filter_title_eq_nil _ logTitles _ hl (by decide),
      filter_title_eq_nil _ statusTitles _ hs (by decide)]
    simp [PodAnalyzer.crashLoopDetail]
  · simp [PodAnalyzer.crashLoopDetail]

/-- Companion of C2: the claim holds on every snapshot on which the log step returns. -/
theorem imagePull_finding_when_log_pass_returns (tbl : Nat → Nat) (resource : ResourceData)
    (query : Str) (i : Nat)
    (hkind : resource.Resource.Kind = lit "Pod")
    (hone : resource.Status.filter isWaitingEntry = [(containerKey i "state", lit "waiting")])
    (hne : mapGet resource.Status (containerKey i "name") ≠ [])
    (hreason : mapGet resource.Status (containerKey i "reason") = lit "ImagePullBackOff"
      ∨ mapGet resource.Status (containerKey i "reason") = lit "ErrImagePull")
    (hlog : logPassReturns tbl resource) :
    ∃ (c : AnalysisContext) (d : AnalysisDetail),
      PodAnalyzer.Analyze tbl { Query := query, Resources := [resource], Details := [] }
        = .ok (c, none) ∧
      c.Details.filter (fun x => decide (x.Title = lit "Image pull failure")) = [d] ∧
      d.Type_ = lit "error" ∧ 2 ≤ d.Remediation.length := by
  obtain ⟨logNew, statusNew, hbody, hl, hs, _⟩ := analyzeBody_pod tbl resource hkind hlog
  have hcont : resource.Status.flatMap (containerFindings resource)
      = [PodAnalyzer.imagePullDetail resource (mapGet resource.Status (containerKey i "name"))
          (mapGet resource.Status (containerKey i "message"))] := by
    have h1 : lit "ImagePullBackOff" ≠ ([] : Str) := by decide
    have h2 : lit "ErrImagePull" ≠ ([] : Str) := by decide
    have h3 : lit "ImagePullBackOff" ≠ lit "CrashLoopBackOff" := by decide
    have h4 : lit "ErrImagePull" ≠ lit "CrashLoopBackOff" := by decide
    rw [containerPass_single resource i hone, containerFindings_waiting]
    rcases hreason with hr | hr <;> simp [hr, hne, h1, h2, h3, h4]
  refine ⟨_, PodAnalyzer.imagePullDetail resource (mapGet resource.Status (containerKey i "name"))
      (mapGet resource.Status (containerKey i "message")),
    Analyze_single tbl query resource [] _ hbody, ?_, rfl, ?_⟩
  · rw [hcont]
    simp only [List.nil_append, List.filter_append]
    rw [filter_title_eq_nil _ eventTitles _
        (mem_flatMap_titles _ _ _ (eventFindings_titles tbl resource)) (by decide),
      filter_title_eq_nil _ logTitles _ hl (by decide),
      filter_title_eq_nil _ statusTitles _ hs (by decide)]
    simp [PodAnalyzer.imagePullDetail]
  · simp [PodAnalyzer.imagePullDetail]

/-- Companion of C4: the claim holds on every snapshot on which the log step returns. -/
theorem failed_finding_when_log_pass_returns (tbl : Nat → Nat) (resource : ResourceData)
    (query : Str) (prior : List AnalysisDetail)
    (hkind : resource.Resource.Kind = lit "Pod")
    (hphase : mapGet? resource.Status (lit "phase") = some (lit "Failed"))
    (hlog : logPassReturns tbl resource) :
    ∃ (c : AnalysisContext) (new : List AnalysisDetail) (d : AnalysisDetail),
      PodAnalyzer.Analyze tbl { Query := query, Resources := [resource], Details := prior }
        = .ok (c, none) ∧
      c.Details = prior ++ new ∧
      new.filter (fun x => decide (x.Title = lit "Pod failed")) = [d] ∧
      d.Type_ = lit "error" := by
  obtain ⟨logNew, statusNew, hbody, hl, _, hs⟩ := analyzeBody_pod tbl resource hkind hlog
  refine ⟨_, _, PodAnalyzer.failedDetail resource,
    Analyze_single tbl query resource prior _ hbody, rfl, ?_, rfl⟩
  rw [hs hphase]
  simp only [List.filter_append]
  rw [filter_title_eq_nil _ containerTitles _
      (mem_flatMap_titles _ _ _ (containerFindings_titles resource)) (by decide),
    filter_title_eq_nil _ eventTitles _
      (mem_flatMap_titles _ _ _ (eventFindings_titles tbl resource)) (by decide),
    filter_title_eq_nil _ logTitles _ hl (by decide)]
  simp [PodAnalyzer.failedDetail]

/-- Instance of the companion of C1: the snapshot of `TestPodAnalyzer_CrashLoopBackOff`. -/
theorem crashLoop_finding_on_test_snapshot :
    ∃ (c : AnalysisContext) (d : AnalysisDetail),
      PodAnalyzer.Analyze unicode.lowerExcerpt
        { Query := [], Resources := [{ crashLoopPod with Logs := [] }], Details := [] }
        = .ok (c, none) ∧
      c.Details.filter (fun x => decide (x.Title = lit "Container in CrashLoopBackOff")) = [d] ∧
      d.Type_ = lit "error" ∧ d.Resource = testPodInfo ∧
      lit "kubectl logs " ++ testPodInfo.Name ++ lit " -c " ++ lit "app" ++ lit " -n "
        ++ testPodInfo.Namespace ∈ d.RemediationCommands :=
  crashLoop_finding_when_log_pass_returns unicode.lowerExcerpt { crashLoopPod with Logs := [] }
    [] 0 (lit "app") (by decide!) (by decide!) (by decide!) (by decide!) (by decide!)
    (Or.inl rfl)

/-- Instance of the companion of C2: the snapshot of `TestPodAnalyzer_ImagePullBackOff`. -/
theorem imagePull_finding_on_test_snapshot :
    ∃ (c : AnalysisContext) (d : AnalysisDetail),
      PodAnalyzer.Analyze unicode.lowerExcerpt
        { Query := [], Resources := [{ imagePullPod with Logs := [] }], Details := [] }
        = .ok (c, none) ∧
      c.Details.filter (fun x => decide (x.Title = lit "Image pull failure")) = [d] ∧
      d.Type_ = lit "error" ∧ 2 ≤ d.Remediation.length :=
  imagePull_finding_when_log_pass_returns unicode.lowerExcerpt { imagePullPod with Logs := [] }
    [] 0 (by decide!) (by decide!) (by decide!) (Or.inl (by decide!)) (Or.inl rfl)

/-- Instance of the companion of C4: a failed pod whose log is plain ASCII. -/
theorem failed_finding_on_ascii_logs :
    ∃ (c : AnalysisContext) (new : List AnalysisDetail) (d : AnalysisDetail),
      PodAnalyzer.Analyze unicode.lowerExcerpt
        { Query := [], Resources := [{ failedPod with Logs := [snippetLogs] }], Details := [] }
        = .ok (c, none) ∧
      c.Details = [] ++ new ∧
      new.filter (fun x => decide (x.Title = lit "Pod failed")) = [d] ∧
      d.Type_ = lit "error" :=
  failed_finding_when_log_pass_returns unicode.lowerExcerpt
    { failedPod with Logs := [snippetLogs] } [] [] (by decide!) (by decide!)
    (Or.inr ⟨emptyCtx.extend [PodAnalyzer.logErrorDetail { failedPod with Logs := [snippetLogs] }
      (lit "INFO startup\nERROR cannot open file\nretrying")], by decide!⟩)

/-! ## The log step on text that grows when lower-cased -/

/-- The call of `Analyze` on `crashLoopPod` panics in the log step: the snippet extraction fails
on `growingLogs`.  The finding of the container-state pass is in the context by then. -/
theorem crashLoopPod_analyze_panics :
    crashLoopPod.Resource.Kind = lit "Pod" ∧
    crashLoopPod.Status.filter isWaitingEntry = [(containerKey 0 "state", lit "waiting")] ∧
    mapGet crashLoopPod.Status (containerKey 0 "name") = lit "app" ∧
    mapGet crashLoopPod.Status (containerKey 0 "reason") = lit "CrashLoopBackOff" ∧
    PodAnalyzer.extractErrorSnippet unicode.lowerExcerpt growingLogs = .error Fault.panic ∧
    PodAnalyzer.Analyze unicode.lowerExcerpt
      { Query := [], Resources := [crashLoopPod], Details := [] } = .error Fault.panic := by
  decide!

/-- The call of `Analyze` on `imagePullPod` panics in the log step.  The finding of the
container-state pass is in the context by then. -/
theorem imagePullPod_analyze_panics :
    imagePullPod.Resource.Kind = lit "Pod" ∧
    imagePullPod.Status.filter isWaitingEntry = [(containerKey 0 "state", lit "waiting")] ∧
    mapGet imagePullPod.Status (containerKey 0 "name") = lit "app" ∧
    mapGet imagePullPod.Status (containerKey 0 "reason") = lit "ImagePullBackOff" ∧
    PodAnalyzer.Analyze unicode.lowerExcerpt
      { Query := [], Resources := [imagePullPod], Details := [] } = .error Fault.panic := by
  decide!

/-- C4 (failing input): `failedPod` has phase `Failed`, yet `Analyze` panics in the log step
before the status pass and appends no "Pod failed" finding. -/
theorem C4_analyze_panics_on_growing_logs :
    failedPod.Resource.Kind = lit "Pod" ∧
    mapGet? failedPod.Status (lit "phase") = some (lit "Failed") ∧
    (strings.ToLower unicode.lowerExcerpt growingLogs).length = 173 ∧
    growingLogs.length = 117 ∧
    strings.Index (strings.ToLower unicode.lowerExcerpt growingLogs) (lit "error") = 168 ∧
    PodAnalyzer.Analyze unicode.lowerExcerpt
      { Query := [], Resources := [failedPod], Details := [] } = .error Fault.panic := by
  decide!

/-! ## What the remediation synthesizer appends -/

@[simp] theorem planExtend_nil (p : Plan) : p.extend [] [] = p := by
  simp [Plan.extend]

@[simp] theorem planExtend_extend (p : Plan) (s1 s2 : List Str) (c1 c2 : List Command) :
    (p.extend s1 c1).extend s2 c2 = p.extend (s1 ++ s2) (c1 ++ c2) := by
  simp [Plan.extend]

theorem filterDetailsByType_eq (details : List AnalysisDetail) (detailType : Str) :
    filterDetailsByType details detailType
      = details.filter (fun d => decide (d.Type_ = detailType)) := by
  have h : ∀ (l acc : List AnalysisDetail),
      l.foldl (fun filtered detail =>
        if detail.Type_ = detailType then filtered ++ [detail] else filtered) acc
        = acc ++ l.filter (fun d => decide (d.Type_ = detailType)) := by
    intro l
    induction l with
    | nil => simp
    | cons d l ih =>
      intro acc
      rw [List.foldl_cons, ih]
      by_cases hd : d.Type_ = detailType <;> simp [hd, List.filter_cons]
  simpa [filterDetailsByType] using h details []

theorem renderLoop_eq (tmpl : List template.Node) (templateName : Str) (detail : AnalysisDetail)
    (plan : Plan) (resources : List ResourceData) :
    renderLoop tmpl templateName detail plan resources
      = plan.extend [] (renderedCommands tmpl templateName detail resources) := by
  induction resources with
  | nil => simp [renderLoop, renderedCommands]
  | cons res rest ih =>
    simp only [renderLoop, renderedCommands]
    split_ifs
    · cases template.Execute tmpl res.Resource <;> simp [Plan.extend]
    · exact ih

theorem commandBody_eq (g : Generator) (detail : AnalysisDetail) (resources : List ResourceData)
    (plan : Plan) (cmdStr : Str) :
    commandBody g detail resources plan cmdStr
      = plan.extend [] (commandsOfString g detail resources cmdStr) := by
  simp only [commandBody, commandsOfString]
  split_ifs
  · cases g.templates.lookup (strings.TrimPrefix cmdStr (lit "template:")) <;>
      simp [renderLoop_eq]
  · simp [Plan.extend]

theorem addRemediationForDetail_eq (g : Generator) (plan : Plan) (detail : AnalysisDetail)
    (resources : List ResourceData) :
    g.addRemediationForDetail plan detail resources
      = plan.extend (stepsOfDetail detail) (commandsOfDetail g resources detail) := by
  have h1 : ∀ (l : List Str) (p : Plan),
      l.foldl (fun p step => { p with Steps := p.Steps ++ [lit "  - " ++ step] }) p
        = p.extend (l.map (fun step => lit "  - " ++ step)) [] := by
    intro l
    induction l with
    | nil => simp
    | cons s l ih =>
      intro p
      rw [List.foldl_cons, ih]
      simp [Plan.extend]
  have h2 : ∀ (l : List Str) (p : Plan),
      l.foldl (commandBody g detail resources) p
        = p.extend [] (l.flatMap (commandsOfString g detail resources)) := by
    intro l
    induction l with
    | nil => simp
    | cons s l ih =>
      intro p
      rw [List.foldl_cons, ih, commandBody_eq]
      simp
  simp [Generator.addRemediationForDetail, h1, h2, stepsOfDetail, commandsOfDetail]

theorem addBucket_eq (g : Generator) (plan : Plan) (header : Str) (bucket : List AnalysisDetail)
    (resources : List ResourceData) :
    g.addBucket plan header bucket resources
      = plan.extend (if bucket = [] then [] else header :: bucket.flatMap stepsOfDetail)
          (bucket.flatMap (commandsOfDetail g resources)) := by
  have h : ∀ (l : List AnalysisDetail) (p : Plan),
      l.foldl (fun p detail => g.addRemediationForDetail p detail resources) p
        = p.extend (l.flatMap stepsOfDetail) (l.flatMap (commandsOfDetail g resources)) := by
    intro l
    induction l with
    | nil => simp
    | cons d l ih =>
      intro p
      rw [List.foldl_cons, ih, addRemediationForDetail_eq]
      simp
  cases bucket with
  | nil => simp [Generator.addBucket]
  | cons d l =>
    simp only [Generator.addBucket, List.length_cons, Nat.succ_pos, if_true, h]
    simp [Plan.extend]

/-- Plan built by `GeneratePlan` for a non-empty finding list. -/
theorem GeneratePlan_eq (g : Generator) (details : List AnalysisDetail)
    (resources : List ResourceData) (hne : details ≠ []) :
    g.GeneratePlan details resources = some
      { Title := lit "Remediation Plan"
        Description := lit "Steps to address the identified issues"
        Steps := specSection "Fix critical issues:" (specBucket details "error")
          ++ specSection "Address warnings:" (specBucket details "warning")
          ++ specSection "Consider improvements:" (specBucket details "info")
        Commands := (specBucket details "error" ++ specBucket details "warning"
          ++ specBucket details "info").flatMap (commandsOfDetail g resources)
        YAMLSnippets := []
        AnalysisDetails := details } := by
  have h0 : details.length ≠ 0 := fun h => hne (List.length_eq_zero.1 h)
  simp only [Generator.GeneratePlan, h0, if_false, addBucket_eq, filterDetailsByType_eq,
    planExtend_extend]
  have hs : stepsOfDetail = fun d => d.Remediation.map (fun step => lit "  - " ++ step) := rfl
  simp [Plan.extend, specSection, specBucket, hs]

/-- C7: `GeneratePlan` returns no plan exactly when the finding list is empty; the empty list
gives `nil` and not a plan without steps, and a non-empty list gives a plan whose
`AnalysisDetails` is the list itself. -/
theorem C7_no_plan_iff_empty (g : Generator) (details : List AnalysisDetail)
    (resources : List ResourceData) :
    (g.GeneratePlan details resources = none ↔ details = []) ∧
    g.GeneratePlan [] resources = none ∧
    (details ≠ [] → ∃ plan, g.GeneratePlan details resources = some plan ∧
      plan.AnalysisDetails = details) := by
  refine ⟨?_, by simp [Generator.GeneratePlan], ?_⟩
  · constructor
    · intro h
      by_contra hne
      rw [GeneratePlan_eq g details resources hne] at h
      exact Option.noConfusion h
    · rintro rfl
      simp [Generator.GeneratePlan]
  · intro hne
    exact ⟨_, GeneratePlan_eq g details resources hne, rfl⟩

/-- C8: for every non-empty finding list, whatever its severities, the steps of the plan are
the error section, then the warning section, then the info section; the section of a non-empty
bucket is its header followed by every remediation step of every finding of that severity, in
the original order, each prefixed with two blanks, a dash and a blank, and the section of an
empty bucket is empty. -/
theorem C8_steps_by_severity (g : Generator) (details : List AnalysisDetail)
    (resources : List ResourceData) (hne : details ≠ []) :
    ∃ plan, g.GeneratePlan details resources = some plan ∧
      plan.Steps = specSection "Fix critical issues:" (specBucket details "error")
        ++ specSection "Address warnings:" (specBucket details "warning")
        ++ specSection "Consider improvements:" (specBucket details "info") :=
  ⟨_, GeneratePlan_eq g details resources hne, rfl⟩

/-- Instance of C8 at `sampleDetails`. -/
theorem C8_steps_by_severity_witness :
    sampleDetails ≠ [] ∧
    ∃ plan, NewGenerator.GeneratePlan sampleDetails [] = some plan ∧
      plan.Steps = specSection "Fix critical issues:" (specBucket sampleDetails "error")
        ++ specSection "Address warnings:" (specBucket sampleDetails "warning")
        ++ specSection "Consider improvements:" (specBucket sampleDetails "info") :=
  ⟨by decide, C8_steps_by_severity NewGenerator sampleDetails [] (by decide)⟩

theorem commandsOfDetail_literal (g : Generator) (resources : List ResourceData)
    (detail : AnalysisDetail)
    (h : ∀ cmd ∈ detail.RemediationCommands, strings.HasPrefix cmd (lit "template:") = false) :
    commandsOfDetail g resources detail
      = detail.RemediationCommands.map (fun cmd =>
          { Type_ := determineCommandType cmd
            Description := lit "Remediation step for " ++ detail.Resource.Kind ++ lit "/"
              ++ detail.Resource.Name
            Command := cmd
            Variables := [] }) := by
  unfold commandsOfDetail
  generalize detail.RemediationCommands = l at h
  induction l with
  | nil => simp
  | cons cmd l ih =>
    have h1 := h cmd (by simp)
    rw [List.flatMap_cons, ih (fun x hx => h x (by simp [hx]))]
    simp [commandsOfString, h1]

/-- C9: when no remediation command of a non-empty finding list starts with "template:", the
commands of the plan are the findings' commands, verbatim, error findings first, then warning
findings, then info findings, each bucket in the original order and each finding's commands in
their own order; every command carries the description `Remediation step for <Kind>/<Name>` of
its finding's resource and the type given by `determineCommandType`. -/
theorem C9_literal_commands (g : Generator) (details : List AnalysisDetail)
    (resources : List ResourceData) (hne : details ≠ [])
    (hlit : ∀ d ∈ details, ∀ cmd ∈ d.RemediationCommands,
      strings.HasPrefix cmd (lit "template:") = false) :
    ∃ plan, g.GeneratePlan details resources = some plan ∧
      plan.Commands = (specBucket details "error" ++ specBucket details "warning"
          ++ specBucket details "info").flatMap (fun d =>
            d.RemediationCommands.map (fun cmd =>
              { Type_ := determineCommandType cmd
                Description := lit "Remediation step for " ++ d.Resource.Kind ++ lit "/"
                  ++ d.Resource.Name
                Command := cmd
                Variables := [] })) ∧
      plan.Commands.map (fun cmd => cmd.Command)
        = (specBucket details "error" ++ specBucket details "warning"
          ++ specBucket details "info").flatMap (fun d => d.RemediationCommands) := by
  have hmem : ∀ d ∈ specBucket details "error" ++ specBucket details "warning"
      ++ specBucket details "info", d ∈ details := by
    intro d hd
    simp only [specBucket, List.mem_append, List.mem_filter] at hd
    rcases hd with (hd | hd) | hd <;> exact hd.1
  have hcmds : ∀ l : List AnalysisDetail, (∀ d ∈ l, d ∈ details) →
      l.flatMap (commandsOfDetail g resources) = l.flatMap (fun d =>
        d.RemediationCommands.map (fun cmd =>
          ({ Type_ := determineCommandType cmd
             Description := lit "Remediation step for " ++ d.Resource.Kind ++ lit "/"
               ++ d.Resource.Name
             Command := cmd
             Variables := [] } : Command))) := by
    intro l hl
    induction l with
    | nil => simp
    | cons d l ih =>
      rw [List.flatMap_cons, List.flatMap_cons, ih (fun x hx => hl x (by simp [hx])),
        commandsOfDetail_literal g resources d (hlit d (hl d (by simp)))]
  refine ⟨_, GeneratePlan_eq g details resources hne, hcmds _ hmem, ?_⟩
  simp only [hcmds _ hmem]
  generalize specBucket details "error" ++ specBucket details "warning"
    ++ specBucket details "info" = l
  induction l with
  | nil => simp
  | cons d l ih =>
    rw [List.flatMap_cons, List.flatMap_cons, List.map_append, ih, List.map_map]
    congr 1
    simp [Function.comp_def]

/-- Instance of C9 at `sampleDetails`. -/
theorem C9_literal_commands_witness :
    sampleDetails ≠ [] ∧
    (∀ d ∈ sampleDetails, ∀ cmd ∈ d.RemediationCommands,
      strings.HasPrefix cmd (lit "template:") = false) ∧
    ∃ plan, NewGenerator.GeneratePlan sampleDetails [] = some plan ∧
      plan.Commands = (specBucket sampleDetails "error" ++ specBucket sampleDetails "warning"
          ++ specBucket sampleDetails "info").flatMap (fun d =>
            d.RemediationCommands.map (fun cmd =>
              { Type_ := determineCommandType cmd
                Description := lit "Remediation step for " ++ d.Resource.Kind ++ lit "/"
                  ++ d.Resource.Name
                Command := cmd
                Variables := [] })) ∧
      plan.Commands.map (fun cmd => cmd.Command)
        = (specBucket sampleDetails "error" ++ specBucket sampleDetails "warning"
          ++ specBucket sampleDetails "info").flatMap (fun d => d.RemediationCommands) :=
  ⟨by decide, by decide,
    C9_literal_commands NewGenerator sampleDetails [] (by decide) (by decide)⟩

/-- C10 (counterexample): a command with a leading blank is typed `kubectl` although it does not
begin with "kubectl ", and the command "kubectl " is typed `bash` although it does. -/
theorem C10_type_ignores_outer_blanks :
    determineCommandType (lit " kubectl get pods") ≠ prefixHeuristic (lit " kubectl get pods") ∧
    determineCommandType (lit " kubectl get pods") = CommandTypeKubectl ∧
    strings.HasPrefix (lit " kubectl get pods") (lit "kubectl ") = false ∧
    determineCommandType (lit "kubectl ") = CommandTypeBash ∧
    strings.HasPrefix (lit "kubectl ") (lit "kubectl ") = true := by
  decide!

/-- C10 (amended): the type of a command is the prefix heuristic applied to the command with its
leading and trailing white space removed; so it is the heuristic on the string itself whenever
trimming leaves the string unchanged. -/
theorem C10_type_of_trimmed (cmd : Str) :
    determineCommandType cmd = prefixHeuristic (strings.TrimSpace cmd) ∧
    (strings.TrimSpace cmd = cmd → determineCommandType cmd = prefixHeuristic cmd) := by
  have h : determineCommandType cmd = prefixHeuristic (strings.TrimSpace cmd) := by
    simp only [determineCommandType, prefixHeuristic, Bool.or_eq_true]
  exact ⟨h, fun e => by rw [h, e]⟩

/-! ## Outcome of a call of `Analyze` -/

theorem analyzeBody_eq (tbl : Nat → Nat) (c : AnalysisContext) (resource : ResourceData) :
    PodAnalyzer.analyzeBody tbl c resource
      = match bodyOutcome tbl resource with
        | .ok new => .ok (c.extend new)
        | .error f => .error f := by
  obtain ⟨statusNew, hs, -, -⟩ := checkPodStatus_returns resource
  simp only [bodyOutcome, PodAnalyzer.analyzeBody, checkContainerStates_eq, checkEvents_eq,
    checkLogs_eq, hs]
  by_cases hk : resource.Resource.Kind = lit "Pod"
  · simp only [hk, if_true]
    by_cases hl : resource.Logs.length > 0
    · simp only [hl, if_true]
      cases logFindings tbl resource <;> simp [emptyCtx, AnalysisContext.extend]
    · simp [hl, emptyCtx, AnalysisContext.extend]
  · simp [hk, emptyCtx]

theorem analyzeLoop_eq (tbl : Nat → Nat) (l : List ResourceData) (c : AnalysisContext) :
    PodAnalyzer.analyzeLoop tbl l c
      = match loopOutcome tbl l with
        | .ok new => .ok (c.extend new)
        | .error f => .error f := by
  induction l generalizing c with
  | nil => simp [PodAnalyzer.analyzeLoop, loopOutcome]
  | cons r rest ih =>
    simp only [PodAnalyzer.analyzeLoop, loopOutcome, analyzeBody_eq]
    cases bodyOutcome tbl r with
    | error f => rfl
    | ok new =>
      simp only [ih]
      cases loopOutcome tbl rest <;> simp

/-- The one shape of every call of `PodAnalyzer.Analyze`: it stops with a fault, or returns `nil`
and the context with findings appended that depend on the table and the snapshots only. -/
theorem Analyze_eq (tbl : Nat → Nat) (c : AnalysisContext) :
    PodAnalyzer.Analyze tbl c
      = match loopOutcome tbl c.Resources with
        | .ok new => .ok (c.extend new, none)
        | .error f => .error f := by
  simp only [PodAnalyzer.Analyze, analyzeLoop_eq]
  cases loopOutcome tbl c.Resources <;> rfl

theorem bodyOutcome_of_not_pod (tbl : Nat → Nat) (resource : ResourceData)
    (h : isPod resource = false) : bodyOutcome tbl resource = .ok [] := by
  simp only [isPod, decide_eq_false_iff_not] at h
  simp [bodyOutcome, PodAnalyzer.analyzeBody, h, emptyCtx]

theorem loopOutcome_filter_isPod (tbl : Nat → Nat) (l : List ResourceData) :
    loopOutcome tbl (l.filter isPod) = loopOutcome tbl l := by
  induction l with
  | nil => rfl
  | cons r rest ih =>
    cases hp : isPod r
    · simp [List.filter_cons, hp, loopOutcome, bodyOutcome_of_not_pod tbl r hp, ih]
      cases loopOutcome tbl rest <;> rfl
    · simp [List.filter_cons, hp, loopOutcome, ih]

theorem loopOutcome_of_no_pod (tbl : Nat → Nat) (l : List ResourceData)
    (h : ∀ r ∈ l, isPod r = false) : loopOutcome tbl l = .ok [] := by
  induction l with
  | nil => rfl
  | cons r rest ih =>
    simp [loopOutcome, bodyOutcome_of_not_pod tbl r (h r (by simp)),
      ih (fun x hx => h x (by simp [hx]))]

/-- Companion of C14: under one enumeration of the status maps, `Analyze` has the same outcome on
a context and on the context with every snapshot of a kind other than "Pod" removed: both calls
stop with the same fault, or both return with the same findings; and on a context without a Pod
snapshot it returns `nil` and appends nothing. -/
theorem only_pod_snapshots_per_enumeration (tbl : Nat → Nat) (c : AnalysisContext) :
    (PodAnalyzer.Analyze tbl c).map (fun r => r.1.Details)
      = (PodAnalyzer.Analyze tbl { c with Resources := c.Resources.filter isPod }).map
          (fun r => r.1.Details) ∧
    ((∀ r ∈ c.Resources, r.Resource.Kind ≠ lit "Pod") →
      PodAnalyzer.Analyze tbl c = .ok (c, none)) := by
  constructor
  · rw [Analyze_eq, Analyze_eq]
    simp only [loopOutcome_filter_isPod]
    cases loopOutcome tbl c.Resources <;> rfl
  · intro h
    rw [Analyze_eq, loopOutcome_of_no_pod tbl _ (fun r hr => by simpa [isPod] using h r hr)]
    simp

/-- Companion of C20: under one enumeration of the status maps, what `PodAnalyzer.Analyze`
appends (or the fault that stops it) is fixed by the table and the snapshots, and what
`DeploymentAnalyzer.Analyze` appends is fixed, whatever the query and the findings already in the
context; so the two analyzers run in either order stop with the same fault or return the same
findings, the two blocks of new findings swapped. -/
theorem prior_findings_not_read_per_enumeration (tbl : Nat → Nat) (resources : List ResourceData) :
    ∃ (podOutcome : Except Fault (List AnalysisDetail)) (deploymentNew : List AnalysisDetail),
      (∀ query prior, PodAnalyzer.Analyze tbl
          { Query := query, Resources := resources, Details := prior }
        = podOutcome.map (fun podNew =>
            ({ Query := query, Resources := resources, Details := prior ++ podNew }, none))) ∧
      (∀ query prior, DeploymentAnalyzer.Analyze
          { Query := query, Resources := resources, Details := prior }
        = .ok ({ Query := query, Resources := resources, Details := prior ++ deploymentNew },
            none)) ∧
      (∀ query prior,
        runInOrder (PodAnalyzer.asAnalyzer tbl) DeploymentAnalyzer.asAnalyzer
            { Query := query, Resources := resources, Details := prior }
          = podOutcome.map (fun podNew =>
              ({ Query := query, Resources := resources,
                 Details := prior ++ (podNew ++ deploymentNew) }, none)) ∧
        runInOrder DeploymentAnalyzer.asAnalyzer (PodAnalyzer.asAnalyzer tbl)
            { Query := query, Resources := resources, Details := prior }
          = podOutcome.map (fun podNew =>
              ({ Query := query, Resources := resources,
                 Details := prior ++ (deploymentNew ++ podNew) }, none))) := by
  refine ⟨loopOutcome tbl resources, [DeploymentAnalyzer.placeholderDetail], ?_, ?_, ?_⟩
  · intro query prior
    rw [Analyze_eq]
    cases loopOutcome tbl resources <;> rfl
  · intro query prior
    rfl
  · intro query prior
    simp only [runInOrder, PodAnalyzer.asAnalyzer, DeploymentAnalyzer.asAnalyzer, Analyze_eq,
      DeploymentAnalyzer.Analyze, AnalysisContext.appendDetail, AnalysisContext.extend]
    cases loopOutcome tbl resources <;> simp [Except.map]

/-! ## The registry -/

theorem lookup_filter_ne (l : List (Str × Analyzer)) (k n : Str) (h : n ≠ k) :
    (l.filter (fun kv => decide (kv.1 ≠ k))).lookup n = l.lookup n := by
  induction l with
  | nil => rfl
  | cons kv l ih =>
    obtain ⟨a, v⟩ := kv
    simp only [ne_eq, decide_not] at ih
    by_cases ha : a = k
    · subst ha
      have hb : (n == a) = false := by simpa using h
      simp [List.filter_cons, List.lookup, hb, ih]
    · by_cases hn : n = a
      · subst hn
        simp [List.filter_cons, ha, List.lookup]
      · have hb : (n == a) = false := by simpa using hn
        simp [List.filter_cons, ha, List.lookup, hb, ih]

theorem Get_Register (r : Registry) (a : Analyzer) (n : Str) :
    (r.Register a).Get n = if n = a.Name then some a else r.Get n := by
  by_cases h : n = a.Name
  · subst h
    simp [Registry.Get, Registry.Register, List.lookup]
  · have hb : (n == a.Name) = false := by simpa using h
    simp only [Registry.Get, Registry.Register, List.lookup, hb, h, if_false]
    exact lookup_filter_ne _ _ _ h

theorem registered_snoc (calls : List Analyzer) (a : Analyzer) :
    registered (calls ++ [a]) = (registered calls).Register a := by
  simp [registered, List.foldl_append]

theorem Get_registered (calls : List Analyzer) (n : Str) :
    (registered calls).Get n = calls.reverse.find? (fun a => decide (a.Name = n)) := by
  induction calls using List.reverseRecOn with
  | nil => rfl
  | append_singleton calls a ih =>
    rw [registered_snoc, Get_Register, ih, List.reverse_append]
    by_cases h : n = a.Name
    · simp [h]
    · have h1 : ¬ a.Name = n := fun e => h e.symm
      simp [h, h1]

theorem wellFormed_Register (r : Registry) (a : Analyzer) (h : r.wellFormed) :
    (r.Register a).wellFormed := by
  obtain ⟨h1, h2⟩ := h
  constructor
  · intro kv hkv
    simp only [Registry.Register, List.mem_cons, List.mem_filter] at hkv
    rcases hkv with rfl | ⟨hkv, -⟩
    · rfl
    · exact h1 kv hkv
  · simp only [Registry.Register, List.map_cons, List.nodup_cons, List.mem_map, List.mem_filter]
    constructor
    · rintro ⟨kv, ⟨-, hne⟩, heq⟩
      simp only [decide_eq_true_eq] at hne
      exact hne heq
    · exact (h2.sublist (List.Sublist.map _ (List.filter_sublist _)))

theorem wellFormed_registered (calls : List Analyzer) : (registered calls).wellFormed := by
  induction calls using List.reverseRecOn with
  | nil => exact ⟨by simp [registered], by simp [registered]⟩
  | append_singleton calls a ih =>
    rw [registered_snoc]
    exact wellFormed_Register _ _ ih

theorem mem_keys_Register (r : Registry) (a : Analyzer) (n : Str) :
    n ∈ (r.Register a).analyzers.map (fun kv => kv.1)
      ↔ n = a.Name ∨ n ∈ r.analyzers.map (fun kv => kv.1) := by
  simp only [Registry.Register, List.map_cons, List.mem_cons, List.mem_map, List.mem_filter,
    decide_eq_true_eq]
  constructor
  · rintro (h | ⟨kv, ⟨hkv, -⟩, rfl⟩)
    · exact Or.inl h
    · exact Or.inr ⟨kv, hkv, rfl⟩
  · rintro (h | ⟨kv, hkv, rfl⟩)
    · exact Or.inl h
    · by_cases e : kv.1 = a.Name
      · exact Or.inl e
      · exact Or.inr ⟨kv, ⟨hkv, e⟩, rfl⟩

theorem mem_keys_registered (calls : List Analyzer) (n : Str) :
    n ∈ (registered calls).analyzers.map (fun kv => kv.1) ↔ ∃ a ∈ calls, a.Name = n := by
  induction calls using List.reverseRecOn with
  | nil => simp [registered]
  | append_singleton calls a ih =>
    rw [registered_snoc, mem_keys_Register, ih]
    constructor
    · rintro (h | ⟨b, hb, rfl⟩)
      · exact ⟨a, by simp, h.symm⟩
      · exact ⟨b, by simp [hb], rfl⟩
    · rintro ⟨b, hb, rfl⟩
      rcases List.mem_append.1 hb with hb | hb
      · exact Or.inr ⟨b, hb, rfl⟩
      · simp only [List.mem_singleton] at hb
        exact Or.inl (by rw [hb])

theorem lookup_of_mem_nodup (l : List (Str × Analyzer)) (kv : Str × Analyzer) (h : kv ∈ l)
    (hnd : (l.map (fun kv => kv.1)).Nodup) : l.lookup kv.1 = some kv.2 := by
  induction l with
  | nil => simp at h
  | cons x l ih =>
    obtain ⟨a, v⟩ := x
    simp only [List.map_cons, List.nodup_cons] at hnd
    rcases List.mem_cons.1 h with rfl | h
    · simp [List.lookup]
    · have hne : kv.1 ≠ a := by
        intro e
        exact hnd.1 (e ▸ List.mem_map_of_mem (fun kv => kv.1) h)
      have hb : (kv.1 == a) = false := by simpa using hne
      simp only [List.lookup, hb]
      exact ih h hnd.2

/-- C13: after any sequence of `Register` calls on a new registry, `Get(n)` is the analyzer of the
last call whose analyzer has name `n`, so a later call overwrites an earlier one of the same name
and leaves the other names alone, and `Get(n)` is `nil` when no call had that name; `GetAll`
holds no name twice, holds exactly the registered names, and each of its analyzers is the one
`Get` returns for its name. -/
theorem C13_registry_is_a_map (calls : List Analyzer) :
    (∀ n, (registered calls).Get n = calls.reverse.find? (fun a => decide (a.Name = n))) ∧
    (∀ (a : Analyzer) (n : Str), ((registered calls).Register a).Get n
        = if n = a.Name then some a else (registered calls).Get n) ∧
    (∀ n, (∀ a ∈ calls, a.Name ≠ n) → (registered calls).Get n = none) ∧
    ((registered calls).GetAll.map (fun a => a.Name)).Nodup ∧
    (∀ n, n ∈ (registered calls).GetAll.map (fun a => a.Name) ↔ ∃ a ∈ calls, a.Name = n) ∧
    (∀ a ∈ (registered calls).GetAll, (registered calls).Get a.Name = some a) := by
  obtain ⟨hw1, hw2⟩ := wellFormed_registered calls
  have hnames : (registered calls).GetAll.map (fun a => a.Name)
      = (registered calls).analyzers.map (fun kv => kv.1) := by
    simp only [Registry.GetAll, List.map_map]
    apply List.map_congr_left
    intro kv hkv
    exact (hw1 kv hkv).symm
  refine ⟨Get_registered calls, Get_Register (registered calls), ?_, ?_, ?_, ?_⟩
  · intro n hn
    rw [Get_registered, List.find?_eq_none]
    intro a ha
    simpa using hn a (List.mem_reverse.1 ha)
  · rw [hnames]; exact hw2
  · intro n
    rw [hnames]; exact mem_keys_registered calls n
  · intro a ha
    simp only [Registry.GetAll, List.mem_map] at ha
    obtain ⟨kv, hkv, rfl⟩ := ha
    have := lookup_of_mem_nodup _ kv hkv hw2
    rw [hw1 kv hkv] at this
    exact this

/-! ## The reasons that the container-state pass diagnoses -/

/-- C15: in the container-state loop, the iteration for a waiting container `i` appends one
finding exactly when the container has a non-empty name and its reason is one of
"CrashLoopBackOff", "ImagePullBackOff", "ErrImagePull", "CreateContainerConfigError" (compared
byte for byte); with any other reason, or a missing or empty name or reason, it leaves the
context as it is, and so does the iteration for an entry that is not a waiting state. -/
theorem C15_diagnosed_reasons_only (resource : ResourceData) (c : AnalysisContext) (i : Nat) :
    (mapGet resource.Status (containerKey i "name") ≠ [] ∧
        mapGet resource.Status (containerKey i "reason") ∈ diagnosedReasons →
      ∃ d, PodAnalyzer.containerStateBody resource c (containerKey i "state") (lit "waiting")
          = c.appendDetail d ∧ d.Type_ = lit "error" ∧ d.Title ∈ containerTitles) ∧
    (mapGet resource.Status (containerKey i "name") = [] ∨
        mapGet resource.Status (containerKey i "reason") ∉ diagnosedReasons →
      PodAnalyzer.containerStateBody resource c (containerKey i "state") (lit "waiting") = c) ∧
    (mapGet resource.Status (containerKey i "reason") = [] →
      PodAnalyzer.containerStateBody resource c (containerKey i "state") (lit "waiting") = c) ∧
    (∀ key value, isWaitingEntry (key, value) = false →
      PodAnalyzer.containerStateBody resource c key value = c) ∧
    PodAnalyzer.checkContainerStates resource c
      = resource.Status.foldl
          (fun ctx kv => PodAnalyzer.containerStateBody resource ctx kv.1 kv.2) c := by
  have h1 : lit "CrashLoopBackOff" ≠ ([] : Str) := by decide
  have h2 : lit "ImagePullBackOff" ≠ ([] : Str) := by decide
  have h3 : lit "ErrImagePull" ≠ ([] : Str) := by decide
  have h4 : lit "CreateContainerConfigError" ≠ ([] : Str) := by decide
  have h5 : lit "ImagePullBackOff" ≠ lit "CrashLoopBackOff" := by decide
  have h6 : lit "ErrImagePull" ≠ lit "CrashLoopBackOff" := by decide
  have h7 : lit "CreateContainerConfigError" ≠ lit "CrashLoopBackOff" := by decide
  have h8 : lit "CreateContainerConfigError" ≠ lit "ImagePullBackOff" := by decide
  have h9 : lit "CreateContainerConfigError" ≠ lit "ErrImagePull" := by decide
  refine ⟨?_, ?_, ?_, ?_, rfl⟩
  · rintro ⟨hname, hreason⟩
    rw [containerStateBody_eq, containerFindings_waiting]
    simp only [diagnosedReasons, List.mem_cons, List.mem_singleton, List.not_mem_nil,
      or_false] at hreason
    rcases hreason with hr | hr | hr | hr
    · exact ⟨PodAnalyzer.crashLoopDetail resource (mapGet resource.Status (containerKey i "name"))
          (mapGet resource.Status (containerKey i "message")),
        by simp [hr, hname, h1, appendDetail_eq], rfl,
        by simp [containerTitles, PodAnalyzer.crashLoopDetail]⟩
    · exact ⟨PodAnalyzer.imagePullDetail resource (mapGet resource.Status (containerKey i "name"))
          (mapGet resource.Status (containerKey i "message")),
        by simp [hr, hname, h2, h5, appendDetail_eq], rfl,
        by simp [containerTitles, PodAnalyzer.imagePullDetail]⟩
    · exact ⟨PodAnalyzer.imagePullDetail resource (mapGet resource.Status (containerKey i "name"))
          (mapGet resource.Status (containerKey i "message")),
        by simp [hr, hname, h3, h6, appendDetail_eq], rfl,
        by simp [containerTitles, PodAnalyzer.imagePullDetail]⟩
    · exact ⟨PodAnalyzer.configErrorDetail resource
          (mapGet resource.Status (containerKey i "name"))
          (mapGet resource.Status (containerKey i "message")),
        by simp [hr, hname, h4, h7, h8, h9, appendDetail_eq], rfl,
        by simp [containerTitles, PodAnalyzer.configErrorDetail]⟩
  · intro h
    rw [containerStateBody_eq, containerFindings_waiting]
    rcases h with h | h
    · simp [h]
    · simp only [diagnosedReasons, List.mem_cons, List.mem_singleton, List.not_mem_nil,
        or_false, not_or] at h
      obtain ⟨a, b, c1, d⟩ := h
      simp [a, b, c1, d]
  · intro h
    rw [containerStateBody_eq, containerFindings_waiting]
    simp [h]
  · intro key value h
    rw [containerStateBody_eq, containerFindings_of_not_waiting resource _ h]
    simp

/-! ## When the log step returns -/

theorem indexFrom_le (p : Str) : ∀ (s : Str) (i : Nat),
    strings.indexFrom p s i ≤ (i : Int) + s.length := by
  intro s
  induction s with
  | nil =>
    intro i
    simp only [strings.indexFrom]
    split_ifs
    · simp
    · simp; omega
  | cons a t ih =>
    intro i
    simp only [strings.indexFrom, List.length_cons]
    split_ifs
    · push_cast; omega
    · have := ih (i + 1)
      push_cast at this ⊢
      omega

theorem Index_le_length (s p : Str) : strings.Index s p ≤ (s.length : Int) := by
  have := indexFrom_le p s 0
  simpa [strings.Index] using this

theorem snippetIndex_some (e x idx : Int) (h : PodAnalyzer.snippetIndex e x = some idx) :
    0 ≤ idx ∧ (idx = e ∨ idx = x) := by
  simp only [PodAnalyzer.snippetIndex] at h
  split_ifs at h with h1 h2 h3 h4
  · cases h; exact ⟨h1.1, Or.inl rfl⟩
  · cases h; exact ⟨h1.2, Or.inr rfl⟩
  · cases h; exact ⟨h3, Or.inl rfl⟩
  · cases h; exact ⟨h4, Or.inr rfl⟩

/-- The snippet extraction returns whenever lower-casing does not lengthen the log text. -/
theorem extractErrorSnippet_returns (tbl : Nat → Nat) (logs : Str)
    (h : (strings.ToLower tbl logs).length ≤ logs.length) :
    ∃ snippet, PodAnalyzer.extractErrorSnippet tbl logs = .ok snippet := by
  simp only [PodAnalyzer.extractErrorSnippet]
  cases hi : PodAnalyzer.snippetIndex (strings.Index (strings.ToLower tbl logs) (lit "error"))
      (strings.Index (strings.ToLower tbl logs) (lit "exception")) with
  | none => exact ⟨[], rfl⟩
  | some idx =>
    obtain ⟨h0, hor⟩ := snippetIndex_some _ _ _ hi
    have hle : idx ≤ (logs.length : Int) := by
      have h1 := Index_le_length (strings.ToLower tbl logs) (lit "error")
      have h2 := Index_le_length (strings.ToLower tbl logs) (lit "exception")
      have h3 : ((strings.ToLower tbl logs).length : Int) ≤ logs.length := by exact_mod_cast h
      rcases hor with rfl | rfl <;> omega
    have hs : ∃ s, sliceStr logs (if idx - 50 < 0 then 0 else idx - 50)
        (if idx + 100 > (logs.length : Int) then (logs.length : Int) else idx + 100)
        = .ok s := by
      simp only [sliceStr]
      rw [if_pos]
      · exact ⟨_, rfl⟩
      · split_ifs <;> omega
    obtain ⟨s, hs⟩ := hs
    simp only [hs]
    exact ⟨_, rfl⟩

theorem logsDoNotGrow_of_isASCII (tbl : Nat → Nat) (resource : ResourceData)
    (h : isASCII (strings.Join resource.Logs (lit "\n")) = true) : logsDoNotGrow tbl resource := by
  simp [logsDoNotGrow, ToLower_of_isASCII tbl _ h]

theorem logsDoNotGrow_of_no_logs (tbl : Nat → Nat) (resource : ResourceData)
    (h : resource.Logs = []) : logsDoNotGrow tbl resource := by
  apply logsDoNotGrow_of_isASCII
  rw [h]
  rfl

/-- Companion of C16: on every snapshot whose joined logs do not grow when lower-cased, the log
pass returns and appends what the claim says: first the "Errors detected in logs" warning when
the lower-cased logs contain "exception" or "error", then the "Connection issues detected"
warning when they contain "connection refused", "cannot connect" or "dial tcp". -/
theorem logPass_findings_when_logs_do_not_grow (tbl : Nat → Nat) (resource : ResourceData)
    (c : AnalysisContext) (h : logsDoNotGrow tbl resource) :
    ∃ errorNew connectionNew : List AnalysisDetail,
      PodAnalyzer.checkLogs tbl resource c
        = .ok { c with Details := c.Details ++ (errorNew ++ connectionNew) } ∧
      (if strings.Contains (strings.ToLower tbl (strings.Join resource.Logs (lit "\n")))
            (lit "exception")
          || strings.Contains (strings.ToLower tbl (strings.Join resource.Logs (lit "\n")))
            (lit "error")
        then ∃ d, errorNew = [d] ∧ d.Title = lit "Errors detected in logs" ∧
          d.Type_ = lit "warning"
        else errorNew = []) ∧
      (if strings.Contains (strings.ToLower tbl (strings.Join resource.Logs (lit "\n")))
            (lit "connection refused")
          || strings.Contains (strings.ToLower tbl (strings.Join resource.Logs (lit "\n")))
            (lit "cannot connect")
          || strings.Contains (strings.ToLower tbl (strings.Join resource.Logs (lit "\n")))
            (lit "dial tcp")
        then ∃ d, connectionNew = [d] ∧ d.Title = lit "Connection issues detected" ∧
          d.Type_ = lit "warning"
        else connectionNew = []) := by
  obtain ⟨snippet, hs⟩ := extractErrorSnippet_returns tbl _ h
  rw [checkLogs_eq]
  simp only [logFindings, hs]
  refine ⟨if strings.Contains (strings.ToLower tbl (strings.Join resource.Logs (lit "\n")))
            (lit "exception")
          || strings.Contains (strings.ToLower tbl (strings.Join resource.Logs (lit "\n")))
            (lit "error")
        then [PodAnalyzer.logErrorDetail resource snippet] else [],
    connectionFindings (strings.ToLower tbl (strings.Join resource.Logs (lit "\n"))) resource,
    ?_, ?_, ?_⟩
  · split_ifs <;> simp [AnalysisContext.extend]
  · split_ifs
    · exact ⟨_, rfl, rfl, rfl⟩
    · rfl
  · simp only [connectionFindings]
    split_ifs
    · exact ⟨_, rfl, rfl, rfl⟩
    · rfl

/-- C16 (failing input): the log of `logOnlyPod` contains "error" when lower-cased, yet the log
pass panics in `extractErrorSnippet` and appends no "Errors detected in logs" finding. -/
theorem C16_log_pass_panics_on_growing_logs :
    logOnlyPod.Resource.Kind = lit "Pod" ∧ logOnlyPod.Logs ≠ [] ∧
    strings.Contains
      (strings.ToLower unicode.lowerExcerpt (strings.Join logOnlyPod.Logs (lit "\n")))
      (lit "error") = true ∧
    PodAnalyzer.checkLogs unicode.lowerExcerpt logOnlyPod emptyCtx = .error Fault.panic := by
  decide!

theorem bodyOutcome_returns (tbl : Nat → Nat) (resource : ResourceData)
    (h : logsDoNotGrow tbl resource) : ∃ new, bodyOutcome tbl resource = .ok new := by
  by_cases hk : resource.Resource.Kind = lit "Pod"
  · obtain ⟨e, k, hl, -⟩ := logPass_findings_when_logs_do_not_grow tbl resource emptyCtx h
    obtain ⟨logNew, statusNew, hb, -⟩ := analyzeBody_pod tbl resource hk (Or.inr ⟨_, hl⟩)
    exact ⟨_, by rw [bodyOutcome, hb]⟩
  · exact ⟨[], bodyOutcome_of_not_pod tbl resource (by simpa [isPod] using hk)⟩

/-- Companion of C17: `PodAnalyzer.Analyze` returns `nil` on every context in which no snapshot
has logs that grow when lower-cased; among them the contexts whose snapshots have no logs, or
ASCII logs, whatever their status maps and events are. -/
theorem Analyze_returns_when_logs_do_not_grow (tbl : Nat → Nat) (c : AnalysisContext)
    (h : ∀ r ∈ c.Resources, logsDoNotGrow tbl r) :
    ∃ c1, PodAnalyzer.Analyze tbl c = .ok (c1, none) := by
  have hl : ∀ l : List ResourceData, (∀ r ∈ l, logsDoNotGrow tbl r) →
      ∃ new, loopOutcome tbl l = .ok new := by
    intro l
    induction l with
    | nil => intro _; exact ⟨[], rfl⟩
    | cons r rest ih =>
      intro hr
      obtain ⟨new, h1⟩ := bodyOutcome_returns tbl r (hr r (by simp))
      obtain ⟨more, h2⟩ := ih (fun x hx => hr x (by simp [hx]))
      exact ⟨new ++ more, by simp [loopOutcome, h1, h2]⟩
  obtain ⟨new, hn⟩ := hl c.Resources h
  exact ⟨c.extend new, by rw [Analyze_eq, hn]⟩

/-- Instance of the companion of C17: a context with the failed pod and its ASCII log. -/
theorem Analyze_returns_on_ascii_logs :
    ∃ c1, PodAnalyzer.Analyze unicode.lowerExcerpt
      { Query := [], Resources := [{ failedPod with Logs := [snippetLogs] }], Details := [] }
      = .ok (c1, none) :=
  Analyze_returns_when_logs_do_not_grow unicode.lowerExcerpt _
    (fun r hr => by
      simp only [List.mem_singleton] at hr
      subst hr
      exact logsDoNotGrow_of_isASCII _ _ (by decide!))

/-- C17 (failing input): `DeploymentAnalyzer.Analyze` always returns `nil`, but
`PodAnalyzer.Analyze` panics on a context whose one Pod snapshot has an empty status map, no
events and the log `growingLogs`. -/
theorem C17_pod_analyze_can_panic :
    (∀ c, ∃ c1, DeploymentAnalyzer.Analyze c = .ok (c1, none)) ∧
    logOnlyPod.Status = [] ∧ logOnlyPod.Events = [] ∧
    PodAnalyzer.Analyze unicode.lowerExcerpt
      { Query := [], Resources := [logOnlyPod], Details := [] } = .error Fault.panic :=
  ⟨fun c => ⟨_, rfl⟩, rfl, rfl, by decide!⟩

/-! ## Templates -/

theorem NewGenerator_templates :
    NewGenerator.templates = [
      (lit "scale-deployment", [
        .text (lit "kubectl scale deployment "), .field (lit "DeploymentName"),
        .text (lit " -n "), .field (lit "Namespace"), .text (lit " --replicas="),
        .field (lit "Replicas")]),
      (lit "restart-deployment", [
        .text (lit "kubectl rollout restart deployment "), .field (lit "DeploymentName"),
        .text (lit " -n "), .field (lit "Namespace")]),
      (lit "fix-pod-resources", [
        .text (lit "kubectl patch "), .field (lit "ResourceType"), .text (lit " "),
        .field (lit "ResourceName"), .text (lit " -n "), .field (lit "Namespace"),
        .text (lit " --type=json -p='[\x7b\"op\": \"replace\", \"path\": \"/spec/template/spec/containers/0/resources/"),
        .field (lit "ResourcePath"), .text (lit "\", \"value\": \x7b\""),
        .field (lit "ResourceType"), .text (lit "\": \""), .field (lit "ResourceValue"),
        .text (lit "\"\x7d\x7d]'")])] := by
  decide!

theorem evalField_DeploymentName (data : ResourceInfo) :
    template.evalField data (lit "DeploymentName") = none := by
  have h1 : lit "DeploymentName" ≠ lit "Kind" := by decide
  have h2 : lit "DeploymentName" ≠ lit "Name" := by decide
  have h3 : lit "DeploymentName" ≠ lit "Namespace" := by decide
  have h4 : lit "DeploymentName" ≠ lit "Labels" := by decide
  simp [template.evalField, h1, h2, h3, h4]

theorem evalField_ResourceType (data : ResourceInfo) :
    template.evalField data (lit "ResourceType") = none := by
  have h1 : lit "ResourceType" ≠ lit "Kind" := by decide
  have h2 : lit "ResourceType" ≠ lit "Name" := by decide
  have h3 : lit "ResourceType" ≠ lit "Namespace" := by decide
  have h4 : lit "ResourceType" ≠ lit "Labels" := by decide
  simp [template.evalField, h1, h2, h3, h4]

/-- No registered template can be executed on a `ResourceInfo`: each one starts with a field
(`DeploymentName` or `ResourceType`) that the struct does not have. -/
theorem registered_templates_fail (name : Str) (tmpl : List template.Node) (data : ResourceInfo)
    (h : NewGenerator.templates.lookup name = some tmpl) : template.Execute tmpl data = none := by
  rw [NewGenerator_templates] at h
  simp only [List.lookup] at h
  split at h
  · cases h
    simp [template.Execute, evalField_DeploymentName]
  · split at h
    · cases h
      simp [template.Execute, evalField_DeploymentName]
    · split at h
      · cases h
        simp [template.Execute, evalField_ResourceType]
      · cases h

/-- C11 (failing input): the finding carries "template:restart-deployment", a registered
template, and the snapshot list holds its deployment, yet the plan has no command: the template
names the field `DeploymentName`, which `ResourceInfo` lacks, so the execution fails; the same
happens for every registered template on every resource. -/
theorem C11_registered_templates_never_render :
    (NewGenerator.templates.lookup (lit "restart-deployment")).isSome = true ∧
    sameResource restartFinding webDeployment = true ∧
    (NewGenerator.GeneratePlan [restartFinding] [webDeployment]).map (fun plan => plan.Commands)
      = some [] ∧
    (∀ (name : Str) (tmpl : List template.Node) (data : ResourceInfo),
      NewGenerator.templates.lookup name = some tmpl → template.Execute tmpl data = none) :=
  ⟨by decide!, by decide!, by decide!, registered_templates_fail⟩

/-! ## Commands that are skipped, and the part of the snapshots that is read -/

theorem renderedCommands_of_no_match (tmpl : List template.Node) (templateName : Str)
    (detail : AnalysisDetail) (resources : List ResourceData)
    (h : ∀ res ∈ resources, sameResource detail res = false) :
    renderedCommands tmpl templateName detail resources = [] := by
  induction resources with
  | nil => rfl
  | cons res rest ih =>
    simp [renderedCommands, h res (by simp), ih (fun x hx => h x (by simp [hx]))]

theorem renderedCommands_congr (tmpl : List template.Node) (templateName : Str)
    (d d1 : AnalysisDetail) (hres : d.Resource = d1.Resource) :
    ∀ rs rs1 : List ResourceData,
      rs.map (fun r => r.Resource) = rs1.map (fun r => r.Resource) →
      renderedCommands tmpl templateName d rs = renderedCommands tmpl templateName d1 rs1 := by
  intro rs
  induction rs with
  | nil =>
    intro rs1 h
    cases rs1 with
    | nil => rfl
    | cons _ _ => simp at h
  | cons r rest ih =>
    intro rs1 h
    cases rs1 with
    | nil => simp at h
    | cons r1 rest1 =>
      simp only [List.map_cons, List.cons.injEq] at h
      simp only [renderedCommands, sameResource, hres, h.1, ih rest1 h.2]

theorem commandsOfString_congr (g : Generator) (d d1 : AnalysisDetail)
    (hres : d.Resource = d1.Resource) (rs rs1 : List ResourceData)
    (h : rs.map (fun r => r.Resource) = rs1.map (fun r => r.Resource)) (cmd : Str) :
    commandsOfString g d rs cmd = commandsOfString g d1 rs1 cmd := by
  simp only [commandsOfString, hres]
  split_ifs
  · cases g.templates.lookup (strings.TrimPrefix cmd (lit "template:")) with
    | none => rfl
    | some tmpl => exact renderedCommands_congr tmpl _ d d1 hres rs rs1 h
  · rfl

theorem commandsOfDetail_congr (g : Generator) (d : AnalysisDetail) (rs rs1 : List ResourceData)
    (h : rs.map (fun r => r.Resource) = rs1.map (fun r => r.Resource)) :
    commandsOfDetail g rs d = commandsOfDetail g rs1 d := by
  simp only [commandsOfDetail]
  congr 1
  funext cmd
  exact commandsOfString_congr g d d rfl rs rs1 h cmd

theorem commandsOfString_skipped (g : Generator) (d : AnalysisDetail)
    (resources : List ResourceData) (cmd : Str)
    (htemplate : strings.HasPrefix cmd (lit "template:") = true)
    (hskip : g.templates.lookup (strings.TrimPrefix cmd (lit "template:")) = none
      ∨ ∀ res ∈ resources, sameResource d res = false) :
    commandsOfString g d resources cmd = [] := by
  simp only [commandsOfString, htemplate, if_true]
  rcases hskip with h | h
  · simp [h]
  · cases g.templates.lookup (strings.TrimPrefix cmd (lit "template:")) with
    | none => rfl
    | some tmpl => exact renderedCommands_of_no_match tmpl _ d resources h

theorem specBucket_alike (g : Generator) (resources : List ResourceData) (severity : String)
    (l l1 : List AnalysisDetail) (h : List.Forall₂ (alikeFor g resources) l l1) :
    List.Forall₂ (alikeFor g resources) (specBucket l severity) (specBucket l1 severity) := by
  induction h with
  | nil => exact List.Forall₂.nil
  | @cons a b l l1 hab _ ih =>
    simp only [specBucket, List.filter_cons] at ih ⊢
    rw [← hab.1]
    split_ifs
    · exact List.Forall₂.cons hab ih
    · exact ih

theorem flatMap_alike {β : Type} (g : Generator) (resources : List ResourceData)
    (f : AnalysisDetail → List β)
    (hf : ∀ a b, alikeFor g resources a b → f a = f b)
    (l l1 : List AnalysisDetail) (h : List.Forall₂ (alikeFor g resources) l l1) :
    l.flatMap f = l1.flatMap f := by
  induction h with
  | nil => rfl
  | @cons a b l l1 hab _ ih => rw [List.flatMap_cons, List.flatMap_cons, hf a b hab, ih]

theorem specSection_alike (g : Generator) (resources : List ResourceData) (header : String)
    (l l1 : List AnalysisDetail) (h : List.Forall₂ (alikeFor g resources) l l1) :
    specSection header l = specSection header l1 := by
  have hnil : l = [] ↔ l1 = [] := by
    cases h with
    | nil => simp
    | cons _ _ => simp
  simp only [specSection, hnil]
  rw [flatMap_alike g resources _ (fun a b hab => by rw [hab.2.1]) l l1 h]

/-- Plans of two finding lists that are alike position by position have the same steps and the
same commands. -/
theorem GeneratePlan_alike (g : Generator) (resources : List ResourceData)
    (l l1 : List AnalysisDetail) (h : List.Forall₂ (alikeFor g resources) l l1)
    (hne : l ≠ []) :
    ∃ plan plan1, g.GeneratePlan l resources = some plan ∧
      g.GeneratePlan l1 resources = some plan1 ∧
      plan.Steps = plan1.Steps ∧ plan.Commands = plan1.Commands := by
  have hne1 : l1 ≠ [] := by
    cases h with
    | nil => exact absurd rfl hne
    | cons _ _ => simp
  refine ⟨_, _, GeneratePlan_eq g l resources hne, GeneratePlan_eq g l1 resources hne1, ?_, ?_⟩
  · simp only
    rw [specSection_alike g resources _ _ _ (specBucket_alike g resources "error" l l1 h),
      specSection_alike g resources _ _ _ (specBucket_alike g resources "warning" l l1 h),
      specSection_alike g resources _ _ _ (specBucket_alike g resources "info" l l1 h)]
  · simp only [List.flatMap_append]
    rw [flatMap_alike g resources _ (fun a b hab => hab.2.2) _ _
        (specBucket_alike g resources "error" l l1 h),
      flatMap_alike g resources _ (fun a b hab => hab.2.2) _ _
        (specBucket_alike g resources "warning" l l1 h),
      flatMap_alike g resources _ (fun a b hab => hab.2.2) _ _
        (specBucket_alike g resources "info" l l1 h)]

theorem forall2_alike_refl (g : Generator) (resources : List ResourceData)
    (l : List AnalysisDetail) : List.Forall₂ (alikeFor g resources) l l := by
  induction l with
  | nil => exact List.Forall₂.nil
  | cons a l ih => exact List.Forall₂.cons ⟨rfl, rfl, rfl⟩ ih

theorem forall2_alike_middle (g : Generator) (resources : List ResourceData)
    (before after : List AnalysisDetail) (d d1 : AnalysisDetail)
    (h : alikeFor g resources d d1) :
    List.Forall₂ (alikeFor g resources) (before ++ d :: after) (before ++ d1 :: after) := by
  induction before with
  | nil => exact List.Forall₂.cons h (forall2_alike_refl g resources after)
  | cons a l ih => exact List.Forall₂.cons ⟨rfl, rfl, rfl⟩ ih

/-- C12: a command "template:<id>" whose id is not in the template table, or whose finding has
no snapshot of the same kind, name and namespace, is left out: the plan is returned, and its
steps and commands are those of the plan for the same findings with that command string removed
from its finding. -/
theorem C12_unresolved_template_skipped (g : Generator) (resources : List ResourceData)
    (before after : List AnalysisDetail) (d : AnalysisDetail) (pre post : List Str) (cmd : Str)
    (hd : d.RemediationCommands = pre ++ cmd :: post)
    (htemplate : strings.HasPrefix cmd (lit "template:") = true)
    (hskip : g.templates.lookup (strings.TrimPrefix cmd (lit "template:")) = none
      ∨ ∀ res ∈ resources, sameResource d res = false) :
    ∃ plan plan1,
      g.GeneratePlan (before ++ d :: after) resources = some plan ∧
      g.GeneratePlan (before ++ { d with RemediationCommands := pre ++ post } :: after) resources
        = some plan1 ∧
      plan.Steps = plan1.Steps ∧ plan.Commands = plan1.Commands := by
  apply GeneratePlan_alike g resources _ _ _ (by simp)
  apply forall2_alike_middle
  refine ⟨rfl, rfl, ?_⟩
  simp only [commandsOfDetail, hd, List.flatMap_append, List.flatMap_cons,
    commandsOfString_skipped g d resources cmd htemplate hskip, List.nil_append]
  congr 1 <;>
  · congr 1
    funext x
    exact commandsOfString_congr g d { d with RemediationCommands := pre ++ post } rfl
      resources resources rfl x

/-- Instance of C12: the finding `unknownTemplateFinding`, whose template is not registered. -/
theorem C12_unresolved_template_skipped_witness :
    ∃ plan plan1,
      NewGenerator.GeneratePlan ([] ++ unknownTemplateFinding :: sampleDetails) [webDeployment]
        = some plan ∧
      NewGenerator.GeneratePlan
        ([] ++ { unknownTemplateFinding with RemediationCommands := [] ++ [] } :: sampleDetails)
        [webDeployment] = some plan1 ∧
      plan.Steps = plan1.Steps ∧ plan.Commands = plan1.Commands :=
  C12_unresolved_template_skipped NewGenerator [webDeployment] [] sampleDetails
    unknownTemplateFinding [] [] (lit "template:no-such-template") rfl (by decide!)
    (Or.inl (by decide!))

/-- C18: `GeneratePlan` is a function of the generator, the finding list and the resource
references of the snapshots: two snapshot lists that agree on every `Resource` (so that they
differ in status, events, logs or manifest only) give the same plan, steps and commands
included, for every finding list. -/
theorem C18_plan_reads_resource_references_only (g : Generator) (details : List AnalysisDetail)
    (resources resources1 : List ResourceData)
    (h : resources.map (fun r => r.Resource) = resources1.map (fun r => r.Resource)) :
    g.GeneratePlan details resources = g.GeneratePlan details resources1 ∧
    (g.GeneratePlan details resources).map (fun plan => (plan.Steps, plan.Commands))
      = (g.GeneratePlan details resources1).map (fun plan => (plan.Steps, plan.Commands)) := by
  have heq : g.GeneratePlan details resources = g.GeneratePlan details resources1 := by
    by_cases hne : details = []
    · subst hne
      simp [Generator.GeneratePlan]
    · rw [GeneratePlan_eq g details resources hne, GeneratePlan_eq g details resources1 hne]
      have : commandsOfDetail g resources = commandsOfDetail g resources1 := by
        funext d
        exact commandsOfDetail_congr g d resources resources1 h
      rw [this]
  exact ⟨heq, by rw [heq]⟩

/-- Instance of C18: the deployment snapshot and the same snapshot with another status, events,
logs and manifest. -/
theorem C18_plan_reads_resource_references_only_witness :
    [webDeployment].map (fun r => r.Resource) = [webDeploymentLater].map (fun r => r.Resource) ∧
    NewGenerator.GeneratePlan [restartFinding] [webDeployment]
      = NewGenerator.GeneratePlan [restartFinding] [webDeploymentLater] ∧
    (NewGenerator.GeneratePlan [restartFinding] [webDeployment]).map
        (fun plan => (plan.Steps, plan.Commands))
      = (NewGenerator.GeneratePlan [restartFinding] [webDeploymentLater]).map
        (fun plan => (plan.Steps, plan.Commands)) :=
  ⟨rfl, C18_plan_reads_resource_references_only NewGenerator [restartFinding] [webDeployment]
    [webDeploymentLater] rfl⟩

/-! ## Severity and title of the findings -/

theorem wellFormed_crashLoopDetail (r : ResourceData) (a b : Str) :
    wellFormedFinding (PodAnalyzer.crashLoopDetail r a b) :=
  ⟨Or.inl rfl, by simp only [PodAnalyzer.crashLoopDetail]; decide⟩

theorem wellFormed_imagePullDetail (r : ResourceData) (a b : Str) :
    wellFormedFinding (PodAnalyzer.imagePullDetail r a b) :=
  ⟨Or.inl rfl, by simp only [PodAnalyzer.imagePullDetail]; decide⟩

theorem wellFormed_configErrorDetail (r : ResourceData) (a b : Str) :
    wellFormedFinding (PodAnalyzer.configErrorDetail r a b) :=
  ⟨Or.inl rfl, by simp only [PodAnalyzer.configErrorDetail]; decide⟩

theorem wellFormed_oomDetail (r : ResourceData) (e : Str) :
    wellFormedFinding (PodAnalyzer.oomDetail r e) :=
  ⟨Or.inl rfl, by simp only [PodAnalyzer.oomDetail]; decide⟩

theorem wellFormed_evictDetail (r : ResourceData) (e : Str) :
    wellFormedFinding (PodAnalyzer.evictDetail r e) :=
  ⟨Or.inr (Or.inl rfl), by simp only [PodAnalyzer.evictDetail]; decide⟩

theorem wellFormed_logErrorDetail (r : ResourceData) (s : Str) :
    wellFormedFinding (PodAnalyzer.logErrorDetail r s) :=
  ⟨Or.inr (Or.inl rfl), by simp only [PodAnalyzer.logErrorDetail]; decide⟩

theorem wellFormed_connectionDetail (r : ResourceData) :
    wellFormedFinding (PodAnalyzer.connectionDetail r) :=
  ⟨Or.inr (Or.inl rfl), by simp only [PodAnalyzer.connectionDetail]; decide⟩

theorem wellFormed_schedulingDetail (r : ResourceData) (a b : Str) :
    wellFormedFinding (PodAnalyzer.schedulingDetail r a b) :=
  ⟨Or.inl rfl, by simp only [PodAnalyzer.schedulingDetail]; decide⟩

theorem wellFormed_failedDetail (r : ResourceData) :
    wellFormedFinding (PodAnalyzer.failedDetail r) :=
  ⟨Or.inl rfl, by simp only [PodAnalyzer.failedDetail]; decide⟩

theorem wellFormed_placeholderDetail : wellFormedFinding DeploymentAnalyzer.placeholderDetail :=
  ⟨Or.inr (Or.inr rfl), by simp only [DeploymentAnalyzer.placeholderDetail]; decide⟩

theorem containerFindings_wellFormed (resource : ResourceData) (kv : Str × Str) :
    ∀ d ∈ containerFindings resource kv, wellFormedFinding d := by
  intro d hd
  simp only [containerFindings, PodAnalyzer.containerStateBody] at hd
  split at hd
  · split at hd
    · split_ifs at hd <;>
        simp [emptyCtx, AnalysisContext.appendDetail] at hd <;>
        subst hd
      · exact wellFormed_crashLoopDetail _ _ _
      · exact wellFormed_imagePullDetail _ _ _
      · exact wellFormed_configErrorDetail _ _ _
    · simp [emptyCtx] at hd
  · simp [emptyCtx] at hd

theorem eventFindings_wellFormed (tbl : Nat → Nat) (resource : ResourceData) (event : Str) :
    ∀ d ∈ eventFindings tbl resource event, wellFormedFinding d := by
  intro d hd
  simp only [eventFindings, List.mem_append] at hd
  rcases hd with hd | hd
  · split_ifs at hd
    · simp only [List.mem_singleton] at hd
      subst hd
      exact wellFormed_oomDetail _ _
    · simp at hd
  · split_ifs at hd
    · simp only [List.mem_singleton] at hd
      subst hd
      exact wellFormed_evictDetail _ _
    · simp at hd

theorem connectionFindings_wellFormed (lowerLogs : Str) (resource : ResourceData) :
    ∀ d ∈ connectionFindings lowerLogs resource, wellFormedFinding d := by
  intro d hd
  simp only [connectionFindings] at hd
  split_ifs at hd <;> simp at hd
  subst hd
  exact wellFormed_connectionDetail _

theorem logFindings_wellFormed (tbl : Nat → Nat) (resource : ResourceData)
    (new : List AnalysisDetail) (h : logFindings tbl resource = .ok new) :
    ∀ d ∈ new, wellFormedFinding d := by
  intro d hd
  simp only [logFindings] at h
  split_ifs at h
  · cases hx : PodAnalyzer.extractErrorSnippet tbl (strings.Join resource.Logs (lit "\n")) with
    | error f => simp [hx] at h
    | ok snippet =>
      simp only [hx, Except.ok.injEq] at h
      subst h
      rcases List.mem_cons.1 hd with hd | hd
      · subst hd
        exact wellFormed_logErrorDetail _ _
      · exact connectionFindings_wellFormed _ _ d hd
  · simp only [Except.ok.injEq] at h
    subst h
    exact connectionFindings_wellFormed _ _ d hd

theorem condFinding_wellFormed (resource : ResourceData) (i : Nat) :
    ∀ d ∈ condFinding resource i, wellFormedFinding d := by
  intro d hd
  simp only [condFinding] at hd
  split_ifs at hd <;> simp at hd
  subst hd
  exact wellFormed_schedulingDetail _ _ _

/-- The status pass returns the context with findings of the closed severity set appended. -/
theorem checkPodStatus_wellFormed (resource : ResourceData) :
    ∃ new : List AnalysisDetail, (∀ c, PodAnalyzer.checkPodStatus resource c = .ok (c.extend new))
      ∧ (∀ d ∈ new, wellFormedFinding d) := by
  cases hp : mapGet? resource.Status (lit "phase") with
  | none => exact ⟨[], fun c => by simp [PodAnalyzer.checkPodStatus, hp], by simp⟩
  | some phase =>
    by_cases h1 : phase = lit "Pending"
    · subst h1
      obtain ⟨n, hle, hn, hlt⟩ := exists_least_missing_type resource
      refine ⟨(List.range n).flatMap (condFinding resource),
        fun c => checkPodStatus_pending resource c n hp hn hlt hle, ?_⟩
      intro d hd
      obtain ⟨i, -, hi⟩ := List.mem_flatMap.1 hd
      exact condFinding_wellFormed resource i d hi
    · by_cases h2 : phase = lit "Failed"
      · subst h2
        refine ⟨[PodAnalyzer.failedDetail resource], fun c => ?_, ?_⟩
        · have hne : lit "Failed" ≠ lit "Pending" := by decide
          simp [PodAnalyzer.checkPodStatus, hp, appendDetail_eq, hne]
        · intro d hd
          simp only [List.mem_singleton] at hd
          subst hd
          exact wellFormed_failedDetail _
      · exact ⟨[], fun c => by simp [PodAnalyzer.checkPodStatus, hp, h1, h2], by simp⟩

/-- Shape of the findings of one snapshot when the loop body returns: nothing for a snapshot that
is not a Pod, else the findings of the four passes in pass order. -/
theorem bodyOutcome_ok_shape (tbl : Nat → Nat) (resource : ResourceData)
    (new : List AnalysisDetail) (h : bodyOutcome tbl resource = .ok new) :
    (isPod resource = false ∧ new = []) ∨
    ∃ logNew statusNew : List AnalysisDetail,
      new = resource.Status.flatMap (containerFindings resource)
        ++ resource.Events.flatMap (eventFindings tbl resource) ++ logNew ++ statusNew ∧
      ((resource.Logs = [] ∧ logNew = []) ∨
        (resource.Logs ≠ [] ∧ logFindings tbl resource = .ok logNew)) ∧
      (∀ c, PodAnalyzer.checkPodStatus resource c = .ok (c.extend statusNew)) ∧
      (∀ d ∈ statusNew, wellFormedFinding d) := by
  obtain ⟨statusNew, hs, hw⟩ := checkPodStatus_wellFormed resource
  by_cases hk : resource.Resource.Kind = lit "Pod"
  · right
    simp only [bodyOutcome, PodAnalyzer.analyzeBody, checkContainerStates_eq, checkEvents_eq,
      checkLogs_eq, hs, hk, if_true] at h
    by_cases hl : resource.Logs = []
    · refine ⟨[], statusNew, ?_, Or.inl ⟨hl, rfl⟩, hs, hw⟩
      simp [hl, emptyCtx, AnalysisContext.extend] at h
      simp [h.symm]
    · have hpos : resource.Logs.length > 0 := List.length_pos.2 hl
      simp only [hpos, if_true] at h
      cases hf : logFindings tbl resource with
      | error f => simp [hf] at h
      | ok logNew =>
        refine ⟨logNew, statusNew, ?_, Or.inr ⟨hl, rfl⟩, hs, hw⟩
        simp [hf, emptyCtx, AnalysisContext.extend] at h
        simp [h.symm]
  · left
    have hp : isPod resource = false := by simpa [isPod] using hk
    rw [bodyOutcome_of_not_pod tbl resource hp] at h
    exact ⟨hp, (Except.ok.inj h).symm⟩

theorem bodyOutcome_wellFormed (tbl : Nat → Nat) (resource : ResourceData)
    (new : List AnalysisDetail) (h : bodyOutcome tbl resource = .ok new) :
    ∀ d ∈ new, wellFormedFinding d := by
  rcases bodyOutcome_ok_shape tbl resource new h with ⟨-, rfl⟩ | ⟨logNew, statusNew, rfl, hl, -, hw⟩
  · simp
  · intro d hd
    simp only [List.mem_append] at hd
    rcases hd with ((hd | hd) | hd) | hd
    · obtain ⟨kv, -, hkv⟩ := List.mem_flatMap.1 hd
      exact containerFindings_wellFormed resource kv d hkv
    · obtain ⟨e, -, he⟩ := List.mem_flatMap.1 hd
      exact eventFindings_wellFormed tbl resource e d he
    · rcases hl with ⟨-, rfl⟩ | ⟨-, hl⟩
      · simp at hd
      · exact logFindings_wellFormed tbl resource logNew hl d hd
    · exact hw d hd

theorem loopOutcome_wellFormed (tbl : Nat → Nat) (l : List ResourceData) :
    ∀ new, loopOutcome tbl l = .ok new → ∀ d ∈ new, wellFormedFinding d := by
  induction l with
  | nil =>
    intro new h d hd
    simp only [loopOutcome, Except.ok.injEq] at h
    subst h
    simp at hd
  | cons r rest ih =>
    intro new h d hd
    simp only [loopOutcome] at h
    cases hb : bodyOutcome tbl r with
    | error f => simp [hb] at h
    | ok a =>
      cases hr : loopOutcome tbl rest with
      | error f => simp [hb, hr] at h
      | ok b =>
        simp only [hb, hr, Except.ok.injEq] at h
        subst h
        rcases List.mem_append.1 hd with hd | hd
        · exact bodyOutcome_wellFormed tbl r a hb d hd
        · exact ih b hr d hd

/-! ## The snippet window -/

/-- The snippet extraction in terms of its window: nothing without a match, else the capped lines
of `logs[windowStart index : windowEnd logs index]`. -/
theorem extractErrorSnippet_eq (tbl : Nat → Nat) (logs : Str) :
    PodAnalyzer.extractErrorSnippet tbl logs
      = match PodAnalyzer.snippetIndex (strings.Index (strings.ToLower tbl logs) (lit "error"))
          (strings.Index (strings.ToLower tbl logs) (lit "exception")) with
        | none => .ok []
        | some index =>
          (sliceStr logs (windowStart index) (windowEnd logs index)).map
            (fun window => strings.Join (PodAnalyzer.capLines (strings.Split window (lit "\n")))
              (lit "\n")) := by
  simp only [PodAnalyzer.extractErrorSnippet, windowStart, windowEnd]
  cases PodAnalyzer.snippetIndex (strings.Index (strings.ToLower tbl logs) (lit "error"))
      (strings.Index (strings.ToLower tbl logs) (lit "exception")) with
  | none => rfl
  | some index =>
    simp only []
    cases sliceStr logs (if index - 50 < 0 then 0 else index - 50)
        (if index + 100 > (logs.length : Int) then (logs.length : Int) else index + 100) <;> rfl

theorem snippetIndex_none_iff (e x : Int) :
    PodAnalyzer.snippetIndex e x = none ↔ e < 0 ∧ x < 0 := by
  simp only [PodAnalyzer.snippetIndex]
  split_ifs <;> simp <;> omega

theorem snippetIndex_min (e x idx : Int) (h : PodAnalyzer.snippetIndex e x = some idx) :
    0 ≤ idx ∧ (idx = e ∨ idx = x) ∧ (0 ≤ e → idx ≤ e) ∧ (0 ≤ x → idx ≤ x) := by
  simp only [PodAnalyzer.snippetIndex] at h
  split_ifs at h with h1 h2 h3 h4 <;> cases h <;> refine ⟨?_, ?_, ?_, ?_⟩ <;> omega

theorem sliceStr_length (s w : Str) (lo hi : Int) (h : sliceStr s lo hi = .ok w) :
    0 ≤ lo ∧ lo ≤ hi ∧ hi ≤ (s.length : Int) ∧ (w.length : Int) = hi - lo ∧
      w = (s.take hi.toNat).drop lo.toNat := by
  simp only [sliceStr] at h
  split_ifs at h with hc
  cases h
  refine ⟨hc.1, hc.2.1, hc.2.2, ?_, rfl⟩
  simp only [List.length_drop, List.length_take]
  omega

theorem capLines_cases (lines : List Str) :
    (lines.length > 4 → PodAnalyzer.capLines lines
      = lines.take 2 ++ [lit "...", lines.getD (lines.length - 1) []]) ∧
    (lines.length = 4 → PodAnalyzer.capLines lines = lines.take 3) ∧
    (lines.length ≤ 3 → PodAnalyzer.capLines lines = lines) := by
  refine ⟨fun h => ?_, fun h => ?_, fun h => ?_⟩
  · simp only [PodAnalyzer.capLines]
    rw [if_pos (by omega), if_pos h]
  · simp only [PodAnalyzer.capLines]
    rw [if_pos (by omega), if_neg (by omega)]
  · simp only [PodAnalyzer.capLines]
    rw [if_neg (by omega)]

/-- C23 (counterexample): the window of the four-line log text is the whole text, it has more than
3 lines, and the snippet is its first three lines, not the first two lines, "..." and the last
line. -/
theorem C23_four_lines_keep_three :
    strings.Contains (strings.ToLower unicode.lowerExcerpt fourLineLogs) (lit "error") = true ∧
    sliceStr fourLineLogs (windowStart 2) (windowEnd fourLineLogs 2) = .ok fourLineLogs ∧
    strings.Split fourLineLogs (lit "\n") = [lit "a", lit "error", lit "b", lit "c"] ∧
    PodAnalyzer.extractErrorSnippet unicode.lowerExcerpt fourLineLogs = .ok (lit "a\nerror\nb") ∧
    PodAnalyzer.extractErrorSnippet unicode.lowerExcerpt fourLineLogs
      ≠ .ok (strings.Join [lit "a", lit "error", lit "...", lit "c"] (lit "\n")) := by
  decide!

/-- C23 (amended): for every log text that contains "error" or "exception" when lower-cased, the
match index exists, and whenever the window `logs[start:end]` lies within the text the snippet is
the window split on newlines, capped and joined by newlines again: more than 4 lines give the
first two lines, "..." and the last line; exactly 4 lines give the first three lines; at most 3
lines are left unchanged. -/
theorem C23_snippet_line_cap (tbl : Nat → Nat) (logs : Str)
    (hw : strings.Contains (strings.ToLower tbl logs) (lit "error") = true
      ∨ strings.Contains (strings.ToLower tbl logs) (lit "exception") = true) :
    ∃ index, PodAnalyzer.snippetIndex (strings.Index (strings.ToLower tbl logs) (lit "error"))
        (strings.Index (strings.ToLower tbl logs) (lit "exception")) = some index ∧
      ∀ window, sliceStr logs (windowStart index) (windowEnd logs index) = .ok window →
        (4 < (strings.Split window (lit "\n")).length →
          PodAnalyzer.extractErrorSnippet tbl logs
            = .ok (strings.Join ((strings.Split window (lit "\n")).take 2
                ++ [lit "...", (strings.Split window (lit "\n")).getD
                      ((strings.Split window (lit "\n")).length - 1) []]) (lit "\n"))) ∧
        ((strings.Split window (lit "\n")).length = 4 →
          PodAnalyzer.extractErrorSnippet tbl logs
            = .ok (strings.Join ((strings.Split window (lit "\n")).take 3) (lit "\n"))) ∧
        ((strings.Split window (lit "\n")).length ≤ 3 →
          PodAnalyzer.extractErrorSnippet tbl logs
            = .ok (strings.Join (strings.Split window (lit "\n")) (lit "\n"))) := by
  cases hi : PodAnalyzer.snippetIndex (strings.Index (strings.ToLower tbl logs) (lit "error"))
      (strings.Index (strings.ToLower tbl logs) (lit "exception")) with
  | none =>
    exfalso
    have hn := (snippetIndex_none_iff _ _).1 hi
    simp only [strings.Contains, decide_eq_true_eq] at hw
    omega
  | some index =>
    refine ⟨index, rfl, fun window hs => ?_⟩
    have he : PodAnalyzer.extractErrorSnippet tbl logs
        = .ok (strings.Join (PodAnalyzer.capLines (strings.Split window (lit "\n")))
            (lit "\n")) := by
      rw [extractErrorSnippet_eq, hi]
      simp only [hs, Except.map]
    obtain ⟨h1, h2, h3⟩ := capLines_cases (strings.Split window (lit "\n"))
    refine ⟨fun h => ?_, fun h => ?_, fun h => ?_⟩
    · rw [he, h1 h]
    · rw [he, h2 h]
    · rw [he, h3 h]

/-- Instance of C23 (amended): the five-line log text, whose window is the whole text; the snippet
is "a", "error", "..." and "d". -/
theorem C23_snippet_line_cap_witness :
    (strings.Contains (strings.ToLower unicode.lowerExcerpt fiveLineLogs) (lit "error") = true
      ∨ strings.Contains (strings.ToLower unicode.lowerExcerpt fiveLineLogs) (lit "exception")
          = true) ∧
    sliceStr fiveLineLogs (windowStart 2) (windowEnd fiveLineLogs 2) = .ok fiveLineLogs ∧
    PodAnalyzer.extractErrorSnippet unicode.lowerExcerpt fiveLineLogs
      = .ok (lit "a\nerror\n...\nd") ∧
    ∃ index, PodAnalyzer.snippetIndex
        (strings.Index (strings.ToLower unicode.lowerExcerpt fiveLineLogs) (lit "error"))
        (strings.Index (strings.ToLower unicode.lowerExcerpt fiveLineLogs) (lit "exception"))
          = some index ∧
      ∀ window, sliceStr fiveLineLogs (windowStart index) (windowEnd fiveLineLogs index)
          = .ok window →
        (4 < (strings.Split window (lit "\n")).length →
          PodAnalyzer.extractErrorSnippet unicode.lowerExcerpt fiveLineLogs
            = .ok (strings.Join ((strings.Split window (lit "\n")).take 2
                ++ [lit "...", (strings.Split window (lit "\n")).getD
                      ((strings.Split window (lit "\n")).length - 1) []]) (lit "\n"))) ∧
        ((strings.Split window (lit "\n")).length = 4 →
          PodAnalyzer.extractErrorSnippet unicode.lowerExcerpt fiveLineLogs
            = .ok (strings.Join ((strings.Split window (lit "\n")).take 3) (lit "\n"))) ∧
        ((strings.Split window (lit "\n")).length ≤ 3 →
          PodAnalyzer.extractErrorSnippet unicode.lowerExcerpt fiveLineLogs
            = .ok (strings.Join (strings.Split window (lit "\n")) (lit "\n"))) :=
  ⟨by decide!, by decide!, by decide!,
    C23_snippet_line_cap unicode.lowerExcerpt fiveLineLogs (by decide!)⟩

/-- C24 (failing input): the lower-cased copy of `growingLogs` contains "error", first at offset
168, and does not contain "exception"; the text itself is 117 bytes long, and the extraction
panics instead of returning a window of at most 150 bytes. -/
theorem C24_no_window_on_growing_logs :
    strings.Index (strings.ToLower unicode.lowerExcerpt growingLogs) (lit "error") = 168 ∧
    strings.Index (strings.ToLower unicode.lowerExcerpt growingLogs) (lit "exception") = -1 ∧
    growingLogs.length = 117 ∧
    ¬ ∃ snippet, PodAnalyzer.extractErrorSnippet unicode.lowerExcerpt growingLogs
        = .ok snippet := by
  refine ⟨by decide!, by decide!, by decide!, ?_⟩
  have h : PodAnalyzer.extractErrorSnippet unicode.lowerExcerpt growingLogs
      = .error Fault.panic := by decide!
  rintro ⟨s, hs⟩
  rw [h] at hs
  cases hs

/-- Companion of C24: when lower-casing does not lengthen the log text, the snippet is empty if
the lower-cased text contains neither word; otherwise the match index is the smaller of the first
occurrences that exist, the window is the part of the log from `max(0, index - 50)` up to
`min(len(logs), index + 100)`, at most 150 bytes, and the snippet is made of its lines. -/
theorem snippet_window_when_logs_do_not_grow (tbl : Nat → Nat) (logs : Str)
    (h : (strings.ToLower tbl logs).length ≤ logs.length) :
    (strings.Contains (strings.ToLower tbl logs) (lit "error") = false ∧
      strings.Contains (strings.ToLower tbl logs) (lit "exception") = false →
        PodAnalyzer.extractErrorSnippet tbl logs = .ok []) ∧
    (strings.Contains (strings.ToLower tbl logs) (lit "error") = true ∨
      strings.Contains (strings.ToLower tbl logs) (lit "exception") = true →
        ∃ index window,
          PodAnalyzer.snippetIndex (strings.Index (strings.ToLower tbl logs) (lit "error"))
            (strings.Index (strings.ToLower tbl logs) (lit "exception")) = some index ∧
          (index = strings.Index (strings.ToLower tbl logs) (lit "error")
            ∨ index = strings.Index (strings.ToLower tbl logs) (lit "exception")) ∧
          (0 ≤ strings.Index (strings.ToLower tbl logs) (lit "error") →
            index ≤ strings.Index (strings.ToLower tbl logs) (lit "error")) ∧
          (0 ≤ strings.Index (strings.ToLower tbl logs) (lit "exception") →
            index ≤ strings.Index (strings.ToLower tbl logs) (lit "exception")) ∧
          windowStart index = max 0 (index - 50) ∧
          windowEnd logs index = min (logs.length : Int) (index + 100) ∧
          window = (logs.take (windowEnd logs index).toNat).drop (windowStart index).toNat ∧
          window.length ≤ 150 ∧
          PodAnalyzer.extractErrorSnippet tbl logs
            = .ok (strings.Join (PodAnalyzer.capLines (strings.Split window (lit "\n")))
                (lit "\n"))) := by
  constructor
  · rintro ⟨h1, h2⟩
    simp only [strings.Contains, decide_eq_false_iff_not, not_le] at h1 h2
    rw [extractErrorSnippet_eq, (snippetIndex_none_iff _ _).2 ⟨by omega, by omega⟩]
  · intro hw
    cases hi : PodAnalyzer.snippetIndex (strings.Index (strings.ToLower tbl logs) (lit "error"))
        (strings.Index (strings.ToLower tbl logs) (lit "exception")) with
    | none =>
      exfalso
      have hn := (snippetIndex_none_iff _ _).1 hi
      simp only [strings.Contains, decide_eq_true_eq] at hw
      omega
    | some index =>
      obtain ⟨h0, hor, hle1, hle2⟩ := snippetIndex_min _ _ _ hi
      have hle : index ≤ (logs.length : Int) := by
        have h1 := Index_le_length (strings.ToLower tbl logs) (lit "error")
        have h2 := Index_le_length (strings.ToLower tbl logs) (lit "exception")
        have h3 : ((strings.ToLower tbl logs).length : Int) ≤ logs.length := by exact_mod_cast h
        rcases hor with rfl | rfl <;> omega
      have hs : sliceStr logs (windowStart index) (windowEnd logs index)
          = .ok ((logs.take (windowEnd logs index).toNat).drop (windowStart index).toNat) := by
        simp only [sliceStr, windowStart, windowEnd]
        rw [if_pos]
        split_ifs <;> omega
      have hlen := (sliceStr_length _ _ _ _ hs).2.2.2.1
      refine ⟨index, _, rfl, hor, hle1, hle2, ?_, ?_, rfl, ?_, ?_⟩
      · simp only [windowStart]
        split_ifs <;> omega
      · simp only [windowEnd]
        split_ifs <;> omega
      · have h1 : windowStart index = max 0 (index - 50) := by
          simp only [windowStart]
          split_ifs <;> omega
        have h2 : windowEnd logs index = min (logs.length : Int) (index + 100) := by
          simp only [windowEnd]
          split_ifs <;> omega
        omega
      · rw [extractErrorSnippet_eq, hi]
        simp only [hs, Except.map]

/-- C25 (failing input): for `growingLogs`, 117 bytes long, the match is found at offset 168 of
the lower-cased copy, so `start` is 118 and `end` is 117: `start <= end` fails, the slice
`logs[start:end]` is out of range, and the extraction panics. -/
theorem C25_window_out_of_range :
    growingLogs.length = 117 ∧
    PodAnalyzer.snippetIndex
      (strings.Index (strings.ToLower unicode.lowerExcerpt growingLogs) (lit "error"))
      (strings.Index (strings.ToLower unicode.lowerExcerpt growingLogs) (lit "exception"))
        = some 168 ∧
    windowStart 168 = 118 ∧ windowEnd growingLogs 168 = 117 ∧
    ¬ (0 ≤ windowStart 168 ∧ windowStart 168 ≤ windowEnd growingLogs 168
        ∧ windowEnd growingLogs 168 ≤ (growingLogs.length : Int)) ∧
    sliceStr growingLogs (windowStart 168) (windowEnd growingLogs 168) = .error Fault.panic ∧
    PodAnalyzer.extractErrorSnippet unicode.lowerExcerpt growingLogs = .error Fault.panic := by
  decide!

/-- Companion of C25: the bounds hold whenever lower-casing does not lengthen the log text. -/
theorem window_in_range_when_logs_do_not_grow (tbl : Nat → Nat) (logs : Str) (index : Int)
    (h : (strings.ToLower tbl logs).length ≤ logs.length)
    (hi : PodAnalyzer.snippetIndex (strings.Index (strings.ToLower tbl logs) (lit "error"))
      (strings.Index (strings.ToLower tbl logs) (lit "exception")) = some index) :
    0 ≤ windowStart index ∧ windowStart index ≤ windowEnd logs index
      ∧ windowEnd logs index ≤ (logs.length : Int) := by
  obtain ⟨h0, hor, -, -⟩ := snippetIndex_min _ _ _ hi
  have h1 := Index_le_length (strings.ToLower tbl logs) (lit "error")
  have h2 := Index_le_length (strings.ToLower tbl logs) (lit "exception")
  have h3 : ((strings.ToLower tbl logs).length : Int) ≤ logs.length := by exact_mod_cast h
  simp only [windowStart, windowEnd]
  rcases hor with rfl | rfl <;> split_ifs <;> omega

/-! ## The condition walk -/

theorem condFindings_eq_map (resource : ResourceData) (l : List Nat) :
    l.flatMap (condFinding resource)
      = (l.filter (unschedulable resource)).map (fun i =>
          PodAnalyzer.schedulingDetail resource
            (mapGet resource.Status (PodAnalyzer.condKey i "reason"))
            (mapGet resource.Status (PodAnalyzer.condKey i "message"))) := by
  induction l with
  | nil => simp
  | cons i l ih =>
    by_cases h : unschedulable resource i <;>
      simp [List.flatMap_cons, condFinding, h, List.filter_cons, ih]

/-- C26: on a `Pending` pod the condition walk stops at the least index `n` without a `type` key
and the status pass returns the context with one "Pod scheduling issues" finding for each index
below `n` whose condition is `PodScheduled` with status `False`, in increasing index order, and
nothing else: a condition stored at or beyond `n` gives no finding. -/
theorem C26_condition_walk (resource : ResourceData) (c : AnalysisContext)
    (hphase : mapGet? resource.Status (lit "phase") = some (lit "Pending")) :
    ∃ n, n ≤ resource.Status.length ∧
      mapGet? resource.Status (PodAnalyzer.condKey n "type") = none ∧
      (∀ k, k < n → (mapGet? resource.Status (PodAnalyzer.condKey k "type")).isSome) ∧
      ∃ new : List AnalysisDetail,
        PodAnalyzer.checkPodStatus resource c = .ok { c with Details := c.Details ++ new } ∧
        new = ((List.range n).filter (unschedulable resource)).map (fun i =>
          PodAnalyzer.schedulingDetail resource
            (mapGet resource.Status (PodAnalyzer.condKey i "reason"))
            (mapGet resource.Status (PodAnalyzer.condKey i "message"))) ∧
        (∀ d ∈ new, d.Title = lit "Pod scheduling issues") ∧
        (new.filter (fun d => decide (d.Title = lit "Pod scheduling issues"))).length
          = ((List.range n).filter (fun i =>
              decide (mapGet? resource.Status (PodAnalyzer.condKey i "type")
                  = some (lit "PodScheduled")
                ∧ mapGet? resource.Status (PodAnalyzer.condKey i "status")
                  = some (lit "False")))).length := by
  obtain ⟨n, hle, hn, hlt⟩ := exists_least_missing_type resource
  refine ⟨n, hle, hn, hlt, _, ?_, rfl, ?_, ?_⟩
  · rw [checkPodStatus_pending resource c n hphase hn hlt hle, condFindings_eq_map]
    rfl
  · intro d hd
    obtain ⟨i, -, rfl⟩ := List.mem_map.1 hd
    rfl
  · rw [List.filter_eq_self.2]
    · rw [List.length_map]
      rfl
    · intro d hd
      obtain ⟨i, -, rfl⟩ := List.mem_map.1 hd
      exact decide_eq_true rfl

/-- Instance of C26: in `gapPod` the walk stops at index 1, so the status pass appends one finding,
for condition 0, and none for the `PodScheduled`/`False` condition stored at index 2. -/
theorem C26_condition_walk_witness :
    mapGet? gapPod.Status (PodAnalyzer.condKey 1 "type") = none ∧
    unschedulable gapPod 2 = true ∧
    (PodAnalyzer.checkPodStatus gapPod emptyCtx).map (fun c1 => c1.Details.length) = .ok 1 ∧
    ∃ n, n ≤ gapPod.Status.length ∧
      mapGet? gapPod.Status (PodAnalyzer.condKey n "type") = none ∧
      (∀ k, k < n → (mapGet? gapPod.Status (PodAnalyzer.condKey k "type")).isSome) ∧
      ∃ new : List AnalysisDetail,
        PodAnalyzer.checkPodStatus gapPod emptyCtx
          = .ok { emptyCtx with Details := emptyCtx.Details ++ new } ∧
        new = ((List.range n).filter (unschedulable gapPod)).map (fun i =>
          PodAnalyzer.schedulingDetail gapPod
            (mapGet gapPod.Status (PodAnalyzer.condKey i "reason"))
            (mapGet gapPod.Status (PodAnalyzer.condKey i "message"))) ∧
        (∀ d ∈ new, d.Title = lit "Pod scheduling issues") ∧
        (new.filter (fun d => decide (d.Title = lit "Pod scheduling issues"))).length
          = ((List.range n).filter (fun i =>
              decide (mapGet? gapPod.Status (PodAnalyzer.condKey i "type")
                  = some (lit "PodScheduled")
                ∧ mapGet? gapPod.Status (PodAnalyzer.condKey i "status")
                  = some (lit "False")))).length :=
  ⟨by decide!, by decide!, by decide!, C26_condition_walk gapPod emptyCtx (by decide!)⟩

theorem condLoop_outOfFuel (resource : ResourceData) : ∀ (fuel i : Nat) (c : AnalysisContext),
    (∀ k, i ≤ k → k < i + fuel →
      (mapGet? resource.Status (PodAnalyzer.condKey k "type")).isSome) →
    PodAnalyzer.condLoop resource fuel i c = .error Fault.outOfFuel := by
  intro fuel
  induction fuel with
  | zero =>
    intro i c _
    simp [PodAnalyzer.condLoop]
  | succ f ih =>
    intro i c h
    rw [condLoop_step resource f i c (h i (le_refl _) (by omega))]
    exact ih (i + 1) _ (fun k h1 h2 => h k (by omega) (by omega))

theorem least_missing_type_le_keys (resource : ResourceData) (n : Nat)
    (hlt : ∀ k, k < n → (mapGet? resource.Status (PodAnalyzer.condKey k "type")).isSome) :
    n ≤ (resource.Status.map Prod.fst).dedup.length := by
  have hsub : (List.range n).map (fun i => PodAnalyzer.condKey i "type")
      ⊆ (resource.Status.map Prod.fst).dedup := by
    intro k hk
    obtain ⟨i, hi, rfl⟩ := List.mem_map.1 hk
    exact List.mem_dedup.2 (mem_keys_of_mapGet? _ _ (hlt i (List.mem_range.1 hi)))
  have hnd : ((List.range n).map (fun i => PodAnalyzer.condKey i "type")).Nodup :=
    (List.nodup_range _).map (condKey_injective "type")
  have := (List.subperm_of_subset hnd hsub).length_le
  simpa using this

/-- C27: for every status map there is a least index `n` without a `type` key, and `n` is at most
the number of distinct keys of the map; the condition loop breaks in its iteration `n + 1`: it
returns with every budget of more than `n` iterations and with no budget of `n` iterations or
fewer, whether the conditions below `n` have a `status` key or not. So the loop of
`checkPodStatus` always terminates, and the pass returns. -/
theorem C27_condition_loop_terminates (resource : ResourceData) (c : AnalysisContext) :
    ∃ n, n ≤ (resource.Status.map Prod.fst).dedup.length ∧
      (resource.Status.map Prod.fst).dedup.length ≤ resource.Status.length ∧
      mapGet? resource.Status (PodAnalyzer.condKey n "type") = none ∧
      (∀ k, k < n → (mapGet? resource.Status (PodAnalyzer.condKey k "type")).isSome) ∧
      (∀ fuel, n < fuel → ∃ c1, PodAnalyzer.condLoop resource fuel 0 c = .ok c1) ∧
      (∀ fuel, fuel ≤ n → PodAnalyzer.condLoop resource fuel 0 c = .error Fault.outOfFuel) ∧
      (∃ c1, PodAnalyzer.condLoop resource (resource.Status.length + 1) 0 c = .ok c1) ∧
      ∃ c1, PodAnalyzer.checkPodStatus resource c = .ok c1 := by
  obtain ⟨n, hle, hn, hlt⟩ := exists_least_missing_type resource
  have hrun : ∀ fuel, n < fuel → ∃ c1, PodAnalyzer.condLoop resource fuel 0 c = .ok c1 :=
    fun fuel hf => ⟨_, condLoop_run resource n fuel 0 c (fun k _ h => hlt k (by omega))
      (by simpa using hn) hf⟩
  have hd : (resource.Status.map Prod.fst).dedup.length ≤ resource.Status.length := by
    have := (List.dedup_sublist (resource.Status.map Prod.fst)).length_le
    simpa using this
  refine ⟨n, least_missing_type_le_keys resource n hlt, hd, hn, hlt, hrun, ?_,
    hrun _ (by omega), ?_⟩
  · intro fuel hf
    exact condLoop_outOfFuel resource fuel 0 c (fun k _ h => hlt k (by omega))
  · obtain ⟨new, h⟩ := checkPodStatus_returns resource
    exact ⟨_, h.1 c⟩

/-! ## Findings of another severity -/

theorem specBucket_filter_known (details : List AnalysisDetail) (severity : String)
    (h : severity = "error" ∨ severity = "warning" ∨ severity = "info") :
    specBucket (details.filter knownSeverity) severity = specBucket details severity := by
  simp only [specBucket, List.filter_filter]
  apply List.filter_congr
  intro d _
  by_cases hd : d.Type_ = lit severity
  · have : knownSeverity d = true := by
      simp only [knownSeverity, decide_eq_true_eq]
      rcases h with rfl | rfl | rfl
      · exact Or.inl hd
      · exact Or.inr (Or.inl hd)
      · exact Or.inr (Or.inr hd)
    simp [hd, this]
  · simp [hd]

theorem specBucket_of_unknown (details : List AnalysisDetail) (severity : String)
    (h : severity = "error" ∨ severity = "warning" ∨ severity = "info")
    (hu : ∀ d ∈ details, knownSeverity d = false) : specBucket details severity = [] := by
  simp only [specBucket, List.filter_eq_nil_iff, decide_eq_true_eq]
  intro d hd ht
  have := hu d hd
  simp only [knownSeverity, decide_eq_false_iff_not, not_or] at this
  rcases h with rfl | rfl | rfl
  · exact this.1 ht
  · exact this.2.1 ht
  · exact this.2.2 ht

/-- C28: for every non-empty finding list `GeneratePlan` returns a plan that lists all the
findings in `AnalysisDetails`, while its steps and commands are those of the findings of type
"error", "warning" or "info" alone: they equal the steps and commands computed from the list
without the other findings, and those of the plan generated for that shorter list. When no finding
has one of the three types the plan has no steps and no commands. -/
theorem C28_unknown_severity_dropped (g : Generator) (details : List AnalysisDetail)
    (resources : List ResourceData) (hne : details ≠ []) :
    ∃ plan, g.GeneratePlan details resources = some plan ∧
      plan.AnalysisDetails = details ∧
      plan.Steps
        = specSection "Fix critical issues:" (specBucket (details.filter knownSeverity) "error")
          ++ specSection "Address warnings:" (specBucket (details.filter knownSeverity) "warning")
          ++ specSection "Consider improvements:"
              (specBucket (details.filter knownSeverity) "info") ∧
      plan.Commands
        = (specBucket (details.filter knownSeverity) "error"
            ++ specBucket (details.filter knownSeverity) "warning"
            ++ specBucket (details.filter knownSeverity) "info").flatMap
              (commandsOfDetail g resources) ∧
      (∀ kept, g.GeneratePlan (details.filter knownSeverity) resources = some kept →
        plan.Steps = kept.Steps ∧ plan.Commands = kept.Commands) ∧
      ((∀ d ∈ details, knownSeverity d = false) → plan.Steps = [] ∧ plan.Commands = []) := by
  refine ⟨_, GeneratePlan_eq g details resources hne, rfl, ?_, ?_, ?_, ?_⟩
  · simp only [specBucket_filter_known details "error" (Or.inl rfl),
      specBucket_filter_known details "warning" (Or.inr (Or.inl rfl)),
      specBucket_filter_known details "info" (Or.inr (Or.inr rfl))]
  · simp only [specBucket_filter_known details "error" (Or.inl rfl),
      specBucket_filter_known details "warning" (Or.inr (Or.inl rfl)),
      specBucket_filter_known details "info" (Or.inr (Or.inr rfl))]
  · intro kept hk
    by_cases hf : details.filter knownSeverity = []
    · rw [hf] at hk
      simp [Generator.GeneratePlan] at hk
    · rw [GeneratePlan_eq g _ resources hf] at hk
      cases hk
      simp only [specBucket_filter_known details "error" (Or.inl rfl),
        specBucket_filter_known details "warning" (Or.inr (Or.inl rfl)),
        specBucket_filter_known details "info" (Or.inr (Or.inr rfl))]
      exact ⟨trivial, trivial⟩
  · intro hu
    simp only [specBucket_of_unknown details "error" (Or.inl rfl) hu,
      specBucket_of_unknown details "warning" (Or.inr (Or.inl rfl)) hu,
      specBucket_of_unknown details "info" (Or.inr (Or.inr rfl)) hu]
    exact ⟨rfl, rfl⟩

/-- Instance of C28: the list of the one finding of type "critical"; its plan is returned and has
no steps and no commands. -/
theorem C28_unknown_severity_dropped_witness :
    [criticalFinding] ≠ [] ∧ knownSeverity criticalFinding = false ∧
    ∃ plan, NewGenerator.GeneratePlan [criticalFinding] [] = some plan ∧
      plan.AnalysisDetails = [criticalFinding] ∧
      plan.Steps
        = specSection "Fix critical issues:"
            (specBucket ([criticalFinding].filter knownSeverity) "error")
          ++ specSection "Address warnings:"
              (specBucket ([criticalFinding].filter knownSeverity) "warning")
          ++ specSection "Consider improvements:"
              (specBucket ([criticalFinding].filter knownSeverity) "info") ∧
      plan.Commands
        = (specBucket ([criticalFinding].filter knownSeverity) "error"
            ++ specBucket ([criticalFinding].filter knownSeverity) "warning"
            ++ specBucket ([criticalFinding].filter knownSeverity) "info").flatMap
              (commandsOfDetail NewGenerator []) ∧
      (∀ kept, NewGenerator.GeneratePlan ([criticalFinding].filter knownSeverity) []
          = some kept → plan.Steps = kept.Steps ∧ plan.Commands = kept.Commands) ∧
      ((∀ d ∈ [criticalFinding], knownSeverity d = false) →
        plan.Steps = [] ∧ plan.Commands = []) :=
  ⟨by simp, by decide!, C28_unknown_severity_dropped NewGenerator [criticalFinding] []
    (by simp)⟩

/-! ## Order of the findings -/

theorem findingsOf_eq (tbl : Nat → Nat) (resources : List ResourceData) :
    findingsOf tbl resources = loopOutcome tbl resources := by
  simp only [findingsOf, Analyze_eq]
  cases loopOutcome tbl resources <;> simp [AnalysisContext.extend]

theorem loopOutcome_append (tbl : Nat → Nat) (l1 l2 : List ResourceData) :
    loopOutcome tbl (l1 ++ l2)
      = match loopOutcome tbl l1 with
        | .error f => .error f
        | .ok a =>
          match loopOutcome tbl l2 with
          | .error f => .error f
          | .ok b => .ok (a ++ b) := by
  induction l1 with
  | nil =>
    simp only [List.nil_append, loopOutcome]
    cases loopOutcome tbl l2 <;> simp
  | cons r rest ih =>
    have h1 : loopOutcome tbl (r :: rest ++ l2)
        = match bodyOutcome tbl r with
          | .error f => .error f
          | .ok new =>
            match loopOutcome tbl (rest ++ l2) with
            | .error f => .error f
            | .ok more => .ok (new ++ more) := rfl
    have h2 : loopOutcome tbl (r :: rest)
        = match bodyOutcome tbl r with
          | .error f => .error f
          | .ok new =>
            match loopOutcome tbl rest with
            | .error f => .error f
            | .ok more => .ok (new ++ more) := rfl
    rw [h1, h2, ih]
    cases bodyOutcome tbl r with
    | error f => rfl
    | ok new =>
      cases loopOutcome tbl rest with
      | error f => rfl
      | ok more =>
        cases loopOutcome tbl l2 <;> simp

/-- Companion of C29: under one enumeration of the status maps, the findings that
`PodAnalyzer.Analyze` appends for `R1 ++ R2` are those for `R1` followed by those for `R2` (the
call stops with the first fault met).  For a single Pod snapshot they are, in this order, the
findings of the container-state pass (in the enumeration order of the status map), of the event
pass (in event order), of the log pass, which runs when there are logs, and of the status pass,
each pass being read off on a context without findings. -/
theorem findings_in_order_per_enumeration (tbl : Nat → Nat) :
    (∀ c, PodAnalyzer.Analyze tbl c
      = match findingsOf tbl c.Resources with
        | .ok new => .ok ({ c with Details := c.Details ++ new }, none)
        | .error f => .error f) ∧
    (∀ R1 R2, findingsOf tbl (R1 ++ R2)
      = match findingsOf tbl R1 with
        | .error f => .error f
        | .ok a =>
          match findingsOf tbl R2 with
          | .error f => .error f
          | .ok b => .ok (a ++ b)) ∧
    (∀ r : ResourceData, r.Resource.Kind = lit "Pod" →
      ∃ statusNew : List AnalysisDetail,
        (∀ c, PodAnalyzer.checkPodStatus r c = .ok { c with Details := c.Details ++ statusNew }) ∧
        (PodAnalyzer.checkContainerStates r emptyCtx).Details
          = r.Status.flatMap (fun kv =>
              (PodAnalyzer.containerStateBody r emptyCtx kv.1 kv.2).Details) ∧
        (PodAnalyzer.checkEvents tbl r emptyCtx).Details
          = r.Events.flatMap (fun event =>
              (PodAnalyzer.eventBody tbl r emptyCtx event).Details) ∧
        findingsOf tbl [r]
          = match (if r.Logs.length > 0 then PodAnalyzer.checkLogs tbl r emptyCtx
              else .ok emptyCtx) with
            | .error f => .error f
            | .ok logCtx =>
              .ok ((PodAnalyzer.checkContainerStates r emptyCtx).Details
                ++ (PodAnalyzer.checkEvents tbl r emptyCtx).Details
                ++ logCtx.Details ++ statusNew)) := by
  refine ⟨fun c => ?_, fun R1 R2 => ?_, fun r hk => ?_⟩
  · rw [findingsOf_eq, Analyze_eq]
    cases loopOutcome tbl c.Resources <;> rfl
  · simp only [findingsOf_eq, loopOutcome_append]
  · obtain ⟨statusNew, hs, -, -⟩ := checkPodStatus_returns r
    refine ⟨statusNew, hs, ?_, ?_, ?_⟩
    · rw [checkContainerStates_eq]
      simp only [AnalysisContext.extend, emptyCtx, List.nil_append]
      rfl
    · rw [checkEvents_eq]
      have he : (fun event => (PodAnalyzer.eventBody tbl r emptyCtx event).Details)
          = eventFindings tbl r := by
        funext event
        rw [eventBody_eq]
        simp [AnalysisContext.extend, emptyCtx]
      rw [he]
      simp [AnalysisContext.extend, emptyCtx]
    · rw [findingsOf_eq]
      simp only [loopOutcome, bodyOutcome, PodAnalyzer.analyzeBody, hk, if_true,
        checkContainerStates_eq, checkEvents_eq, checkLogs_eq, hs]
      by_cases hl : r.Logs.length > 0
      · simp only [hl, if_true]
        cases logFindings tbl r <;> simp [emptyCtx, AnalysisContext.extend]
      · simp [hl, emptyCtx, AnalysisContext.extend]

/-! ## Enumeration order of the status map -/

theorem lookup_perm (k : Str) : ∀ {l1 l2 : List (Str × Str)}, l1.Perm l2 →
    (l1.map Prod.fst).Nodup → l1.lookup k = l2.lookup k := by
  intro l1 l2 hp
  induction hp with
  | nil => intro _; rfl
  | cons x _ ih =>
    intro hnd
    obtain ⟨a, b⟩ := x
    simp only [List.map_cons, List.nodup_cons] at hnd
    simp only [List.lookup_cons]
    cases k == a <;> simp [ih hnd.2]
  | swap x y l =>
    intro hnd
    obtain ⟨a, b⟩ := x
    obtain ⟨a1, b1⟩ := y
    simp only [List.map_cons, List.nodup_cons, List.mem_cons, not_or] at hnd
    have hne : a1 ≠ a := hnd.1.1
    simp only [List.lookup_cons]
    by_cases h1 : k = a1
    · subst h1
      have : (k == a) = false := by simpa using hne
      simp [this]
    · have : (k == a1) = false := by simpa using h1
      simp [this]
  | trans h1 _ ih1 ih2 =>
    intro hnd
    rw [ih1 hnd]
    exact ih2 ((h1.map Prod.fst).nodup_iff.1 hnd)

theorem containerFindings_congr (r1 r2 : ResourceData) (kv : Str × Str)
    (hr : r1.Resource = r2.Resource) (hs : ∀ k, mapGet? r1.Status k = mapGet? r2.Status k) :
    containerFindings r1 kv = containerFindings r2 kv := by
  have hg : ∀ k, mapGet r1.Status k = mapGet r2.Status k := fun k => by
    simp only [mapGet, hs]
  simp only [containerFindings, PodAnalyzer.containerStateBody, hs, hg,
    PodAnalyzer.crashLoopDetail, PodAnalyzer.imagePullDetail, PodAnalyzer.configErrorDetail, hr]

/-- C30: for every status map with unique keys and every enumeration `entries` of its entries in
another order, the container-state pass appends the same findings up to their order: the two
lists of findings are permutations of each other, each finding being that of its `.state` entry
in either enumeration, and when at most one finding is appended the two lists are equal. -/
theorem C30_container_pass_order (resource : ResourceData) (entries : List (Str × Str))
    (c : AnalysisContext) (hp : entries.Perm resource.Status)
    (hnd : (resource.Status.map Prod.fst).Nodup) :
    ∃ new reordered : List AnalysisDetail,
      PodAnalyzer.checkContainerStates resource c = { c with Details := c.Details ++ new } ∧
      PodAnalyzer.checkContainerStates { resource with Status := entries } c
        = { c with Details := c.Details ++ reordered } ∧
      new.Perm reordered ∧
      (∀ kv : Str × Str, (PodAnalyzer.containerStateBody { resource with Status := entries } emptyCtx
          kv.1 kv.2).Details = (PodAnalyzer.containerStateBody resource emptyCtx kv.1 kv.2).Details)
      ∧ (new.length ≤ 1 → new = reordered) := by
  have hl : ∀ k, mapGet? ({ resource with Status := entries } : ResourceData).Status k
      = mapGet? resource.Status k := fun k =>
    lookup_perm k hp ((hp.map Prod.fst).nodup_iff.2 hnd)
  have hc : ∀ kv, containerFindings { resource with Status := entries } kv
      = containerFindings resource kv := fun kv =>
    containerFindings_congr _ _ kv rfl hl
  have hperm : (resource.Status.flatMap (containerFindings resource)).Perm
      (entries.flatMap (containerFindings resource)) :=
    (hp.symm).flatMap_right _
  refine ⟨resource.Status.flatMap (containerFindings resource),
    entries.flatMap (containerFindings resource), ?_, ?_, hperm, hc, ?_⟩
  · rw [checkContainerStates_eq]
    rfl
  · rw [checkContainerStates_eq]
    have : (containerFindings { resource with Status := entries }) = containerFindings resource :=
      funext hc
    simp only [this]
    rfl
  · intro hlen
    generalize resource.Status.flatMap (containerFindings resource) = a at hperm hlen
    generalize entries.flatMap (containerFindings resource) = b at hperm
    match a, hlen, hperm with
    | [], _, hperm => exact (List.Perm.nil_eq hperm)
    | [x], _, hperm => exact List.singleton_perm.1 hperm

/-- Instance of C30: the status map of `twoWaitingPod` enumerated in reverse order; the two
findings come out in the other order. -/
theorem C30_container_pass_order_witness :
    (PodAnalyzer.checkContainerStates twoWaitingPod emptyCtx).Details.map (fun d => d.Title)
      = [lit "Container in CrashLoopBackOff", lit "Image pull failure"] ∧
    (PodAnalyzer.checkContainerStates
        { twoWaitingPod with Status := twoWaitingPod.Status.reverse } emptyCtx).Details.map
        (fun d => d.Title)
      = [lit "Image pull failure", lit "Container in CrashLoopBackOff"] ∧
    ∃ new reordered : List AnalysisDetail,
      PodAnalyzer.checkContainerStates twoWaitingPod emptyCtx
        = { emptyCtx with Details := emptyCtx.Details ++ new } ∧
      PodAnalyzer.checkContainerStates
          { twoWaitingPod with Status := twoWaitingPod.Status.reverse } emptyCtx
        = { emptyCtx with Details := emptyCtx.Details ++ reordered } ∧
      new.Perm reordered ∧
      (∀ kv : Str × Str, (PodAnalyzer.containerStateBody
          { twoWaitingPod with Status := twoWaitingPod.Status.reverse } emptyCtx
          kv.1 kv.2).Details
        = (PodAnalyzer.containerStateBody twoWaitingPod emptyCtx kv.1 kv.2).Details)
      ∧ (new.length ≤ 1 → new = reordered) :=
  ⟨by decide!, by decide!,
    C30_container_pass_order twoWaitingPod twoWaitingPod.Status.reverse emptyCtx
      (List.reverse_perm _) (by decide!)⟩

/-! ## The namespace name in the redacted text -/

/-- C22 (failing input): the text "namespace a" matches the namespace pattern with the name "a" as
its first submatch, and no other pattern; `replaceWithType` replaces the first "a" of the match,
the one inside the word "namespace", so `Anonymize` returns "n[NAMESPACE_NAME]mespace a": the
name still stands at the end and no token follows the word "namespace". -/
theorem C22_namespace_name_not_replaced :
    regexp.FindStringSubmatch anonymizer.namespaceRegex (lit "namespace a")
      = [lit "namespace a", lit "a", []] ∧
    anonymizer.replaceWithType unicode.lowerExcerpt (lit "namespace a")
      = lit "n[NAMESPACE_NAME]mespace a" ∧
    anonymizer.NewAnonymizer.Anonymize unicode.lowerExcerpt (lit "namespace a")
      = lit "n[NAMESPACE_NAME]mespace a" ∧
    anonymizer.NewAnonymizer.Anonymize unicode.lowerExcerpt (lit "namespace a")
      ≠ lit "namespace [NAMESPACE_NAME]" ∧
    strings.Contains (anonymizer.NewAnonymizer.Anonymize unicode.lowerExcerpt (lit "namespace a"))
      (lit "namespace") = false ∧
    strings.HasSuffix (anonymizer.NewAnonymizer.Anonymize unicode.lowerExcerpt (lit "namespace a"))
      (lit " a") = true := by
  decide!

/-- Companion of C22: a name that does not occur earlier in the match and holds none of the words
"api", "key", "token", "secret" is replaced by the token, as in "namespace prod" and in a sentence
that names `kube-system`; the name "monkey" holds "key", and the whole match becomes
"[API_KEY]". -/
theorem Anonymize_namespace_names :
    anonymizer.NewAnonymizer.Anonymize unicode.lowerExcerpt (lit "namespace prod")
      = lit "namespace [NAMESPACE_NAME]" ∧
    anonymizer.NewAnonymizer.Anonymize unicode.lowerExcerpt
        (lit "pods in namespace kube-system are failing")
      = lit "pods in namespace [NAMESPACE_NAME] are failing" ∧
    anonymizer.NewAnonymizer.Anonymize unicode.lowerExcerpt (lit "namespace monkey")
      = lit "[API_KEY]" := by
  decide!

/-- The other patterns on a sample text: an address, a dotted address, an identifier, a
credential and an encoded blob are replaced by their tokens. -/
theorem Anonymize_other_categories :
    anonymizer.NewAnonymizer.Anonymize unicode.lowerExcerpt
        (lit "mail bob@example.com from 10.0.0.1 id 123e4567-e89b-12d3-a456-426614174000")
      = lit "mail [EMAIL] from [IP_ADDRESS] id [UUID]" ∧
    anonymizer.NewAnonymizer.Anonymize unicode.lowerExcerpt
        (lit "token=abcdefghijklmnop1234 and QUJDREVGR0hJSktMTU5PUFFSU1RVVldYWVo=")
      = lit "[API_KEY] and [BASE64_DATA]" := by
  decide!

/-! ## The context that a call leaves -/

theorem checkLogsState_eq (tbl : Nat → Nat) (resource : ResourceData) (c : AnalysisContext) :
    PodAnalyzer.checkLogsState tbl resource c
      = match logFindings tbl resource with
        | .ok new => (c.extend new, none)
        | .error f => (c, some f) := by
  simp only [PodAnalyzer.checkLogsState, logFindings]
  split_ifs
  · cases PodAnalyzer.extractErrorSnippet tbl (strings.Join resource.Logs (lit "\n")) <;>
      simp [checkConnection_eq, appendDetail_eq]
  · simp [checkConnection_eq]

theorem condLoopState_step (resource : ResourceData) (fuel i : Nat) (c : AnalysisContext)
    (h : (mapGet? resource.Status (PodAnalyzer.condKey i "type")).isSome) :
    PodAnalyzer.condLoopState resource (fuel + 1) i c
      = PodAnalyzer.condLoopState resource fuel (i + 1) (c.extend (condFinding resource i)) := by
  obtain ⟨t, ht⟩ := Option.isSome_iff_exists.1 h
  simp only [PodAnalyzer.condLoopState, ht, condFinding, unschedulable]
  cases hs : mapGet? resource.Status (PodAnalyzer.condKey i "status") with
  | none => simp
  | some st =>
    by_cases hc : t = lit "PodScheduled" ∧ st = lit "False"
    · simp [hc, appendDetail_eq]
    · have hd : ¬ (t = lit "PodScheduled" ∧ st = lit "False") := hc
      simp [hc]

/-- The in-place loop and the loop agree: the same fault, or the same context returned. -/
theorem condLoop_of_state (resource : ResourceData) : ∀ (fuel i : Nat) (c : AnalysisContext),
    PodAnalyzer.condLoop resource fuel i c
      = match PodAnalyzer.condLoopState resource fuel i c with
        | (c1, none) => .ok c1
        | (_, some f) => .error f := by
  intro fuel
  induction fuel with
  | zero => intro i c; rfl
  | succ fuel ih =>
    intro i c
    cases ht : mapGet? resource.Status (PodAnalyzer.condKey i "type") with
    | none => simp [PodAnalyzer.condLoop, PodAnalyzer.condLoopState, ht]
    | some t =>
      have hsome : (mapGet? resource.Status (PodAnalyzer.condKey i "type")).isSome := by
        simp [ht]
      rw [condLoop_step resource fuel i c hsome, condLoopState_step resource fuel i c hsome]
      exact ih _ _

theorem checkPodStatus_of_state (resource : ResourceData) (c : AnalysisContext) :
    PodAnalyzer.checkPodStatus resource c
      = match PodAnalyzer.checkPodStatusState resource c with
        | (c1, none) => .ok c1
        | (_, some f) => .error f := by
  simp only [PodAnalyzer.checkPodStatus, PodAnalyzer.checkPodStatusState]
  cases mapGet? resource.Status (lit "phase") with
  | none => rfl
  | some phase =>
    simp only []
    split_ifs
    · exact condLoop_of_state resource _ _ _
    · rfl
    · rfl

/-- The status pass never stops with a fault: it leaves the context with its findings appended. -/
theorem checkPodStatusState_eq (resource : ResourceData) (c : AnalysisContext) :
    PodAnalyzer.checkPodStatusState resource c = (c.extend (statusFindings resource), none) := by
  obtain ⟨new, hs, -, -⟩ := checkPodStatus_returns resource
  have key : ∀ c0, PodAnalyzer.checkPodStatusState resource c0 = (c0.extend new, none) := by
    intro c0
    have h := checkPodStatus_of_state resource c0
    rw [hs c0] at h
    rcases hst : PodAnalyzer.checkPodStatusState resource c0 with ⟨c1, _ | f⟩
    · rw [hst] at h
      simp only [Except.ok.injEq] at h
      rw [h]
    · rw [hst] at h
      cases h
  have hf : statusFindings resource = new := by
    simp only [statusFindings, key emptyCtx]
    simp [AnalysisContext.extend, emptyCtx]
  rw [hf]
  exact key c

theorem analyzeBodyState_eq (tbl : Nat → Nat) (c : AnalysisContext) (resource : ResourceData) :
    PodAnalyzer.analyzeBodyState tbl c resource
      = (c.extend (bodyFindings tbl resource).1, (bodyFindings tbl resource).2) := by
  simp only [PodAnalyzer.analyzeBodyState, bodyFindings, podFindings, checkContainerStates_eq,
    checkEvents_eq, checkLogsState_eq, checkPodStatusState_eq]
  by_cases hk : resource.Resource.Kind = lit "Pod"
  · simp only [hk, if_true]
    by_cases hl : resource.Logs.length > 0
    · simp only [hl, if_true]
      cases logFindings tbl resource <;> simp [AnalysisContext.extend]
    · simp [hl, AnalysisContext.extend]
  · simp [hk, AnalysisContext.extend]

theorem analyzeLoopState_eq (tbl : Nat → Nat) (l : List ResourceData) (c : AnalysisContext) :
    PodAnalyzer.analyzeLoopState tbl l c
      = (c.extend (loopFindings tbl l).1, (loopFindings tbl l).2) := by
  induction l generalizing c with
  | nil => simp [PodAnalyzer.analyzeLoopState, loopFindings, AnalysisContext.extend]
  | cons r rest ih =>
    simp only [PodAnalyzer.analyzeLoopState, loopFindings, analyzeBodyState_eq]
    rcases hb : bodyFindings tbl r with ⟨new, _ | f⟩
    · simp [ih, AnalysisContext.extend]
    · simp

/-- The one shape of every call of `PodAnalyzer.Analyze`, in place: the context is left with
findings appended, and the findings and the fault depend on the table and the snapshots only. -/
theorem AnalyzeState_eq (tbl : Nat → Nat) (c : AnalysisContext) :
    PodAnalyzer.AnalyzeState tbl c
      = (c.extend (loopFindings tbl c.Resources).1, (loopFindings tbl c.Resources).2) := by
  simp only [PodAnalyzer.AnalyzeState, analyzeLoopState_eq]

theorem bodyOutcome_of_findings (tbl : Nat → Nat) (resource : ResourceData) :
    bodyOutcome tbl resource
      = match bodyFindings tbl resource with
        | (new, none) => .ok new
        | (_, some f) => .error f := by
  obtain ⟨statusNew, hs, -, -⟩ := checkPodStatus_returns resource
  have hst : statusFindings resource = statusNew := by
    have h := checkPodStatusState_eq resource emptyCtx
    have h2 := checkPodStatus_of_state resource emptyCtx
    rw [hs emptyCtx, h] at h2
    simp only [Except.ok.injEq] at h2
    have := congrArg AnalysisContext.Details h2
    simpa [AnalysisContext.extend, emptyCtx] using this.symm
  simp only [bodyOutcome, PodAnalyzer.analyzeBody, bodyFindings, podFindings,
    checkContainerStates_eq, checkEvents_eq, checkLogs_eq, hs, hst]
  by_cases hk : resource.Resource.Kind = lit "Pod"
  · simp only [hk, if_true]
    by_cases hl : resource.Logs.length > 0
    · simp only [hl, if_true]
      cases logFindings tbl resource <;> simp [emptyCtx, AnalysisContext.extend]
    · simp [hl, emptyCtx, AnalysisContext.extend]
  · simp [hk, emptyCtx]

theorem loopOutcome_of_findings (tbl : Nat → Nat) (l : List ResourceData) :
    loopOutcome tbl l
      = match loopFindings tbl l with
        | (new, none) => .ok new
        | (_, some f) => .error f := by
  induction l with
  | nil => rfl
  | cons r rest ih =>
    simp only [loopOutcome, loopFindings, bodyOutcome_of_findings, ih]
    rcases hb : bodyFindings tbl r with ⟨new, _ | f⟩
    · simp only []
      rcases hr : loopFindings tbl rest with ⟨more, _ | f⟩ <;> simp
    · simp

/-- The call and the call in place agree: `Analyze` returns `nil` and the context exactly when
the call in place leaves that context without fault, and stops with the fault otherwise. -/
theorem Analyze_of_state (tbl : Nat → Nat) (c : AnalysisContext) :
    PodAnalyzer.Analyze tbl c
      = match PodAnalyzer.AnalyzeState tbl c with
        | (c1, none) => .ok (c1, none)
        | (_, some f) => .error f := by
  rw [Analyze_eq, AnalyzeState_eq, loopOutcome_of_findings]
  rcases loopFindings tbl c.Resources with ⟨new, _ | f⟩ <;> rfl

/-- The status pass in terms of its findings. -/
theorem statusFindings_spec (resource : ResourceData) (c : AnalysisContext) :
    PodAnalyzer.checkPodStatus resource c = .ok (c.extend (statusFindings resource)) := by
  rw [checkPodStatus_of_state, checkPodStatusState_eq]

theorem statusFindings_unique (resource : ResourceData) (new : List AnalysisDetail)
    (h : ∀ c, PodAnalyzer.checkPodStatus resource c = .ok (c.extend new)) :
    statusFindings resource = new := by
  have h1 := statusFindings_spec resource emptyCtx
  rw [h emptyCtx] at h1
  simp only [Except.ok.injEq] at h1
  have := congrArg AnalysisContext.Details h1
  simpa [AnalysisContext.extend, emptyCtx] using this.symm

theorem statusFindings_titles (resource : ResourceData) :
    ∀ d ∈ statusFindings resource, d.Title ∈ statusTitles := by
  obtain ⟨new, hs, ht, -⟩ := checkPodStatus_returns resource
  rw [statusFindings_unique resource new hs]
  exact ht

theorem statusFindings_wellFormed (resource : ResourceData) :
    ∀ d ∈ statusFindings resource, wellFormedFinding d := by
  obtain ⟨new, hs, hw⟩ := checkPodStatus_wellFormed resource
  rw [statusFindings_unique resource new hs]
  exact hw

/-- Findings of one title among those of a Pod snapshot: only the pass that owns the title can
have appended them, whether the log pass returns or not. -/
theorem podFindings_filter_container (tbl : Nat → Nat) (resource : ResourceData) (title : Str)
    (h1 : title ∉ eventTitles) (h2 : title ∉ logTitles) (h3 : title ∉ statusTitles) :
    (podFindings tbl resource).1.filter (fun d => decide (d.Title = title))
      = (resource.Status.flatMap (containerFindings resource)).filter
          (fun d => decide (d.Title = title)) := by
  have he := filter_title_eq_nil _ eventTitles title
    (mem_flatMap_titles _ _ resource.Events (eventFindings_titles tbl resource)) h1
  have hs := filter_title_eq_nil _ statusTitles title (statusFindings_titles resource) h3
  simp only [podFindings]
  cases hl : (if resource.Logs.length > 0 then logFindings tbl resource else .ok []) with
  | error f => simp [he]
  | ok logNew =>
    have hlog : ∀ d ∈ logNew, d.Title ∈ logTitles := by
      by_cases hpos : resource.Logs.length > 0
      · rw [if_pos hpos] at hl
        exact logFindings_titles tbl resource logNew hl
      · rw [if_neg hpos] at hl
        cases hl
        simp
    simp [he, hs, filter_title_eq_nil _ logTitles title hlog h2]

theorem AnalyzeState_single (tbl : Nat → Nat) (query : Str) (resource : ResourceData)
    (hkind : resource.Resource.Kind = lit "Pod") :
    PodAnalyzer.AnalyzeState tbl { Query := query, Resources := [resource], Details := [] }
      = ({ Query := query, Resources := [resource], Details := (podFindings tbl resource).1 },
          (podFindings tbl resource).2) := by
  rw [AnalyzeState_eq]
  simp only [loopFindings, bodyFindings, hkind, if_true]
  rcases podFindings tbl resource with ⟨new, _ | f⟩ <;> simp [AnalysisContext.extend]

/-- C1: for every Pod snapshot whose only `.state` entry with value "waiting" is that of
container `i`, with a non-empty name and the reason "CrashLoopBackOff", the call of `Analyze` on
the context of that snapshot without prior findings, whether it returns or panics later in the
log step, leaves exactly one finding titled "Container in CrashLoopBackOff" in the context; the
finding has type "error", the snapshot's resource, and the command
`kubectl logs <pod> -c <container> -n <namespace>`. -/
theorem C1_crashLoop_finding (tbl : Nat → Nat) (resource : ResourceData)
    (query : Str) (i : Nat) (containerName : Str)
    (hkind : resource.Resource.Kind = lit "Pod")
    (hone : resource.Status.filter isWaitingEntry = [(containerKey i "state", lit "waiting")])
    (hname : mapGet resource.Status (containerKey i "name") = containerName)
    (hne : containerName ≠ [])
    (hreason : mapGet resource.Status (containerKey i "reason") = lit "CrashLoopBackOff") :
    ∃ (c : AnalysisContext) (fault : Option Fault) (d : AnalysisDetail),
      PodAnalyzer.AnalyzeState tbl { Query := query, Resources := [resource], Details := [] }
        = (c, fault) ∧
      (PodAnalyzer.Analyze tbl { Query := query, Resources := [resource], Details := [] }
        = match fault with
          | none => .ok (c, none)
          | some f => .error f) ∧
      c.Details.filter (fun x => decide (x.Title = lit "Container in CrashLoopBackOff")) = [d] ∧
      d.Type_ = lit "error" ∧ d.Resource = resource.Resource ∧
      lit "kubectl logs " ++ resource.Resource.Name ++ lit " -c " ++ containerName ++ lit " -n "
        ++ resource.Resource.Namespace ∈ d.RemediationCommands := by
  have hcont : resource.Status.flatMap (containerFindings resource)
      = [PodAnalyzer.crashLoopDetail resource containerName
          (mapGet resource.Status (containerKey i "message"))] := by
    have hr : lit "CrashLoopBackOff" ≠ ([] : Str) := by decide
    rw [containerPass_single resource i hone, containerFindings_waiting, hname, hreason]
    simp [hne, hr]
  refine ⟨_, _, PodAnalyzer.crashLoopDetail resource containerName
      (mapGet resource.Status (containerKey i "message")),
    AnalyzeState_single tbl query resource hkind, ?_, ?_, rfl, rfl, ?_⟩
  · rw [Analyze_of_state, AnalyzeState_single tbl query resource hkind]
    rcases (podFindings tbl resource).2 with _ | f <;> rfl
  · show (podFindings tbl resource).1.filter _ = _
    rw [podFindings_filter_container tbl resource _ (by decide) (by decide) (by decide), hcont]
    simp [PodAnalyzer.crashLoopDetail]
  · simp [PodAnalyzer.crashLoopDetail]

/-- Instance of C1: `crashLoopPod`, whose log makes the log step panic; the finding of the
container-state pass is in the context that the call leaves. -/
theorem C1_crashLoop_finding_witness :
    (PodAnalyzer.AnalyzeState unicode.lowerExcerpt
      { Query := [], Resources := [crashLoopPod], Details := [] }).2 = some Fault.panic ∧
    ∃ (c : AnalysisContext) (fault : Option Fault) (d : AnalysisDetail),
      PodAnalyzer.AnalyzeState unicode.lowerExcerpt
          { Query := [], Resources := [crashLoopPod], Details := [] } = (c, fault) ∧
      (PodAnalyzer.Analyze unicode.lowerExcerpt
          { Query := [], Resources := [crashLoopPod], Details := [] }
        = match fault with
          | none => .ok (c, none)
          | some f => .error f) ∧
      c.Details.filter (fun x => decide (x.Title = lit "Container in CrashLoopBackOff")) = [d] ∧
      d.Type_ = lit "error" ∧ d.Resource = crashLoopPod.Resource ∧
      lit "kubectl logs " ++ crashLoopPod.Resource.Name ++ lit " -c " ++ lit "app" ++ lit " -n "
        ++ crashLoopPod.Resource.Namespace ∈ d.RemediationCommands :=
  ⟨by decide!, C1_crashLoop_finding unicode.lowerExcerpt crashLoopPod [] 0 (lit "app")
    (by decide!) (by decide!) (by decide!) (by decide!) (by decide!)⟩

/-- C2: for every Pod snapshot whose only `.state` entry with value "waiting" is that of
container `i`, with a non-empty name and the reason "ImagePullBackOff" or "ErrImagePull", the
call of `Analyze` on the context of that snapshot without prior findings, whether it returns or
panics later in the log step, leaves exactly one finding titled "Image pull failure" in the
context; the finding has type "error" and at least two remediation steps. -/
theorem C2_imagePull_finding (tbl : Nat → Nat) (resource : ResourceData)
    (query : Str) (i : Nat)
    (hkind : resource.Resource.Kind = lit "Pod")
    (hone : resource.Status.filter isWaitingEntry = [(containerKey i "state", lit "waiting")])
    (hne : mapGet resource.Status (containerKey i "name") ≠ [])
    (hreason : mapGet resource.Status (containerKey i "reason") = lit "ImagePullBackOff"
      ∨ mapGet resource.Status (containerKey i "reason") = lit "ErrImagePull") :
    ∃ (c : AnalysisContext) (fault : Option Fault) (d : AnalysisDetail),
      PodAnalyzer.AnalyzeState tbl { Query := query, Resources := [resource], Details := [] }
        = (c, fault) ∧
      (PodAnalyzer.Analyze tbl { Query := query, Resources := [resource], Details := [] }
        = match fault with
          | none => .ok (c, none)
          | some f => .error f) ∧
      c.Details.filter (fun x => decide (x.Title = lit "Image pull failure")) = [d] ∧
      d.Type_ = lit "error" ∧ 2 ≤ d.Remediation.length := by
  have hcont : resource.Status.flatMap (containerFindings resource)
      = [PodAnalyzer.imagePullDetail resource (mapGet resource.Status (containerKey i "name"))
          (mapGet resource.Status (containerKey i "message"))] := by
    have h1 : lit "ImagePullBackOff" ≠ ([] : Str) := by decide
    have h2 : lit "ErrImagePull" ≠ ([] : Str) := by decide
    have h3 : lit "ImagePullBackOff" ≠ lit "CrashLoopBackOff" := by decide
    have h4 : lit "ErrImagePull" ≠ lit "CrashLoopBackOff" := by decide
    rw [containerPass_single resource i hone, containerFindings_waiting]
    rcases hreason with hr | hr <;> simp [hr, hne, h1, h2, h3, h4]
  refine ⟨_, _, PodAnalyzer.imagePullDetail resource
      (mapGet resource.Status (containerKey i "name"))
      (mapGet resource.Status (containerKey i "message")),
    AnalyzeState_single tbl query resource hkind, ?_, ?_, rfl, ?_⟩
  · rw [Analyze_of_state, AnalyzeState_single tbl query resource hkind]
    rcases (podFindings tbl resource).2 with _ | f <;> rfl
  · show (podFindings tbl resource).1.filter _ = _
    rw [podFindings_filter_container tbl resource _ (by decide) (by decide) (by decide), hcont]
    simp [PodAnalyzer.imagePullDetail]
  · simp [PodAnalyzer.imagePullDetail]

/-- Instance of C2: `imagePullPod`, whose log makes the log step panic; the finding of the
container-state pass, with its four remediation steps, is in the context that the call
leaves. -/
theorem C2_imagePull_finding_witness :
    (PodAnalyzer.AnalyzeState unicode.lowerExcerpt
      { Query := [], Resources := [imagePullPod], Details := [] }).2 = some Fault.panic ∧
    ((PodAnalyzer.AnalyzeState unicode.lowerExcerpt
      { Query := [], Resources := [imagePullPod], Details := [] }).1.Details.map
        (fun d => d.Remediation.length)) = [4] ∧
    ∃ (c : AnalysisContext) (fault : Option Fault) (d : AnalysisDetail),
      PodAnalyzer.AnalyzeState unicode.lowerExcerpt
          { Query := [], Resources := [imagePullPod], Details := [] } = (c, fault) ∧
      (PodAnalyzer.Analyze unicode.lowerExcerpt
          { Query := [], Resources := [imagePullPod], Details := [] }
        = match fault with
          | none => .ok (c, none)
          | some f => .error f) ∧
      c.Details.filter (fun x => decide (x.Title = lit "Image pull failure")) = [d] ∧
      d.Type_ = lit "error" ∧ 2 ≤ d.Remediation.length :=
  ⟨by decide!, by decide!, C2_imagePull_finding unicode.lowerExcerpt imagePullPod [] 0
    (by decide!) (by decide!) (by decide!) (Or.inl (by decide!))⟩

/-! ## Every call, returning or not -/

theorem podFindings_wellFormed (tbl : Nat → Nat) (resource : ResourceData) :
    ∀ d ∈ (podFindings tbl resource).1, wellFormedFinding d := by
  have hc : ∀ d ∈ resource.Status.flatMap (containerFindings resource), wellFormedFinding d := by
    intro d hd
    obtain ⟨kv, -, hkv⟩ := List.mem_flatMap.1 hd
    exact containerFindings_wellFormed resource kv d hkv
  have he : ∀ d ∈ resource.Events.flatMap (eventFindings tbl resource), wellFormedFinding d := by
    intro d hd
    obtain ⟨e, -, hev⟩ := List.mem_flatMap.1 hd
    exact eventFindings_wellFormed tbl resource e d hev
  intro d hd
  simp only [podFindings] at hd
  cases hl : (if resource.Logs.length > 0 then logFindings tbl resource else .ok []) with
  | error f =>
    rw [hl] at hd
    rcases List.mem_append.1 hd with hd | hd
    · exact hc d hd
    · exact he d hd
  | ok logNew =>
    have hlog : ∀ d ∈ logNew, wellFormedFinding d := by
      by_cases hpos : resource.Logs.length > 0
      · rw [if_pos hpos] at hl
        exact logFindings_wellFormed tbl resource logNew hl
      · rw [if_neg hpos] at hl
        cases hl
        simp
    rw [hl] at hd
    simp only [List.mem_append] at hd
    rcases hd with ((hd | hd) | hd) | hd
    · exact hc d hd
    · exact he d hd
    · exact hlog d hd
    · exact statusFindings_wellFormed resource d hd

theorem loopFindings_wellFormed (tbl : Nat → Nat) (l : List ResourceData) :
    ∀ d ∈ (loopFindings tbl l).1, wellFormedFinding d := by
  induction l with
  | nil => intro d hd; simp [loopFindings] at hd
  | cons r rest ih =>
    have hb : ∀ d ∈ (bodyFindings tbl r).1, wellFormedFinding d := by
      intro d hd
      simp only [bodyFindings] at hd
      split_ifs at hd
      · exact podFindings_wellFormed tbl r d hd
      · simp at hd
    intro d hd
    simp only [loopFindings] at hd
    rcases hbf : bodyFindings tbl r with ⟨new, _ | f⟩
    · rw [hbf] at hd hb
      rcases List.mem_append.1 hd with hd | hd
      · exact hb d hd
      · exact ih d hd
    · rw [hbf] at hd hb
      exact hb d hd

theorem Analyze_of_findings (tbl : Nat → Nat) (c : AnalysisContext) :
    PodAnalyzer.Analyze tbl c
      = match (loopFindings tbl c.Resources).2 with
        | none => .ok ({ c with Details := c.Details ++ (loopFindings tbl c.Resources).1 }, none)
        | some f => .error f := by
  rw [Analyze_of_state, AnalyzeState_eq]
  rcases (loopFindings tbl c.Resources).2 with _ | f <;> rfl

/-- C19: a call of `PodAnalyzer.Analyze`, whether it returns `nil` or panics, leaves the context
with its query and its snapshots as they were and its findings followed by new ones;
`DeploymentAnalyzer.Analyze` always returns `nil` with one finding appended.  So after either call
the findings before the call are the first findings after it, unmodified. -/
theorem C19_analysis_appends_only (tbl : Nat → Nat) (c : AnalysisContext) :
    (∃ (new : List AnalysisDetail) (fault : Option Fault),
      PodAnalyzer.AnalyzeState tbl c = ({ c with Details := c.Details ++ new }, fault) ∧
      PodAnalyzer.Analyze tbl c
        = match fault with
          | none => .ok ({ c with Details := c.Details ++ new }, none)
          | some f => .error f) ∧
    (∀ c1 fault, PodAnalyzer.AnalyzeState tbl c = (c1, fault) →
      c1.Query = c.Query ∧ c1.Resources = c.Resources ∧ ∃ new, c1.Details = c.Details ++ new) ∧
    (∀ c1 err, PodAnalyzer.Analyze tbl c = .ok (c1, err) →
      c1.Query = c.Query ∧ c1.Resources = c.Resources ∧ ∃ new, c1.Details = c.Details ++ new) ∧
    (∃ d, DeploymentAnalyzer.Analyze c = .ok ({ c with Details := c.Details ++ [d] }, none)) ∧
    (∀ c1 err, DeploymentAnalyzer.Analyze c = .ok (c1, err) →
      c1.Query = c.Query ∧ c1.Resources = c.Resources ∧ ∃ new, c1.Details = c.Details ++ new) := by
  refine ⟨⟨(loopFindings tbl c.Resources).1, (loopFindings tbl c.Resources).2,
      AnalyzeState_eq tbl c, Analyze_of_findings tbl c⟩, ?_, ?_,
    ⟨DeploymentAnalyzer.placeholderDetail, rfl⟩, ?_⟩
  · intro c1 fault h
    rw [AnalyzeState_eq] at h
    simp only [Prod.mk.injEq] at h
    obtain ⟨rfl, -⟩ := h
    exact ⟨rfl, rfl, _, rfl⟩
  · intro c1 err h
    rw [Analyze_eq] at h
    cases ho : loopOutcome tbl c.Resources with
    | error f => simp [ho] at h
    | ok new =>
      simp only [ho, Except.ok.injEq, Prod.mk.injEq] at h
      obtain ⟨rfl, -⟩ := h
      exact ⟨rfl, rfl, new, rfl⟩
  · intro c1 err h
    simp only [DeploymentAnalyzer.Analyze, Except.ok.injEq, Prod.mk.injEq] at h
    obtain ⟨rfl, -⟩ := h
    exact ⟨rfl, rfl, [DeploymentAnalyzer.placeholderDetail], rfl⟩

/-- C21: every finding that a call of `PodAnalyzer.Analyze` appends, those left in the context by
a call that panics included, and the finding that `DeploymentAnalyzer.Analyze` appends, has the
type "error", "warning" or "info" and a non-empty title, and so lies in one of the three buckets
that `GeneratePlan` forms with `filterDetailsByType`. -/
theorem C21_severity_is_closed (tbl : Nat → Nat) (c : AnalysisContext) :
    (∃ (new : List AnalysisDetail) (fault : Option Fault),
      PodAnalyzer.AnalyzeState tbl c = ({ c with Details := c.Details ++ new }, fault) ∧
      (PodAnalyzer.Analyze tbl c
        = match fault with
          | none => .ok ({ c with Details := c.Details ++ new }, none)
          | some f => .error f) ∧
      ∀ d ∈ new,
        (d.Type_ = lit "error" ∨ d.Type_ = lit "warning" ∨ d.Type_ = lit "info") ∧
        d.Title ≠ [] ∧
        (d ∈ filterDetailsByType new (lit "error") ∨ d ∈ filterDetailsByType new (lit "warning")
          ∨ d ∈ filterDetailsByType new (lit "info"))) ∧
    (∃ d, DeploymentAnalyzer.Analyze c = .ok ({ c with Details := c.Details ++ [d] }, none) ∧
      d.Type_ = lit "info" ∧ d.Title ≠ [] ∧ d ∈ filterDetailsByType [d] (lit "info")) := by
  constructor
  · refine ⟨(loopFindings tbl c.Resources).1, (loopFindings tbl c.Resources).2,
      AnalyzeState_eq tbl c, Analyze_of_findings tbl c, ?_⟩
    intro d hd
    obtain ⟨ht, hti⟩ := loopFindings_wellFormed tbl c.Resources d hd
    refine ⟨ht, hti, ?_⟩
    simp only [filterDetailsByType_eq, List.mem_filter, decide_eq_true_eq]
    rcases ht with ht | ht | ht
    · exact Or.inl ⟨hd, ht⟩
    · exact Or.inr (Or.inl ⟨hd, ht⟩)
    · exact Or.inr (Or.inr ⟨hd, ht⟩)
  · refine ⟨DeploymentAnalyzer.placeholderDetail, rfl, rfl, wellFormed_placeholderDetail.2, ?_⟩
    simp [filterDetailsByType_eq]
    rfl

/-- Instance for a call that panics: the one finding that `Analyze` leaves for `crashLoopPod` is
of type "error". -/
theorem findings_left_by_panicking_call :
    (PodAnalyzer.AnalyzeState unicode.lowerExcerpt
      { Query := [], Resources := [crashLoopPod], Details := [] }).2 = some Fault.panic ∧
    (PodAnalyzer.AnalyzeState unicode.lowerExcerpt
      { Query := [], Resources := [crashLoopPod], Details := [] }).1.Details.map
        (fun d => (d.Type_, d.Title))
      = [(lit "error", lit "Container in CrashLoopBackOff")] := by
  decide!

/-! ## Calls that enumerate a status map in different orders -/

theorem bodyFindings_of_not_pod (tbl : Nat → Nat) (resource : ResourceData)
    (h : isPod resource = false) : bodyFindings tbl resource = ([], none) := by
  simp only [isPod, decide_eq_false_iff_not] at h
  simp [bodyFindings, h]

/-- Under one enumeration, snapshots of another kind add nothing, for calls that panic too. -/
theorem loopFindings_filter_isPod (tbl : Nat → Nat) (l : List ResourceData) :
    loopFindings tbl (l.filter isPod) = loopFindings tbl l := by
  induction l with
  | nil => rfl
  | cons r rest ih =>
    cases hp : isPod r
    · rw [List.filter_cons_of_neg (by simp [hp]), ih]
      simp [loopFindings, bodyFindings_of_not_pod tbl r hp]
    · rw [List.filter_cons_of_pos (by simp [hp])]
      simp only [loopFindings, ih]

/-- Under one enumeration, the findings for `l1 ++ l2` are those for `l1` followed by those for
`l2`, which is not visited when `l1` stops with a fault. -/
theorem loopFindings_append (tbl : Nat → Nat) (l1 l2 : List ResourceData) :
    loopFindings tbl (l1 ++ l2)
      = match loopFindings tbl l1 with
        | (a, some f) => (a, some f)
        | (a, none) => (a ++ (loopFindings tbl l2).1, (loopFindings tbl l2).2) := by
  induction l1 with
  | nil => simp [loopFindings]
  | cons r rest ih =>
    have h1 : loopFindings tbl (r :: rest ++ l2)
        = match bodyFindings tbl r with
          | (new, some f) => (new, some f)
          | (new, none) =>
            (new ++ (loopFindings tbl (rest ++ l2)).1, (loopFindings tbl (rest ++ l2)).2) := rfl
    have h2 : loopFindings tbl (r :: rest)
        = match bodyFindings tbl r with
          | (new, some f) => (new, some f)
          | (new, none) => (new ++ (loopFindings tbl rest).1, (loopFindings tbl rest).2) := rfl
    rw [h1, h2, ih]
    rcases bodyFindings tbl r with ⟨new, _ | f⟩
    · rcases loopFindings tbl rest with ⟨more, _ | g⟩ <;> simp
    · rfl

theorem condLoopState_congr (r1 r2 : ResourceData) (hr : r1.Resource = r2.Resource)
    (hs : ∀ k, mapGet? r1.Status k = mapGet? r2.Status k) :
    ∀ (fuel i : Nat) (c : AnalysisContext),
      PodAnalyzer.condLoopState r1 fuel i c = PodAnalyzer.condLoopState r2 fuel i c := by
  have hg : ∀ k, mapGet r1.Status k = mapGet r2.Status k := fun k => by
    simp only [mapGet, hs]
  intro fuel
  induction fuel with
  | zero => intro i c; rfl
  | succ fuel ih =>
    intro i c
    simp only [PodAnalyzer.condLoopState, hs, hg, ih, PodAnalyzer.schedulingDetail, hr]

theorem statusFindings_congr (r1 r2 : ResourceData) (hr : r1.Resource = r2.Resource)
    (hs : ∀ k, mapGet? r1.Status k = mapGet? r2.Status k)
    (hlen : r1.Status.length = r2.Status.length) :
    statusFindings r1 = statusFindings r2 := by
  simp only [statusFindings, PodAnalyzer.checkPodStatusState, hs, hlen,
    condLoopState_congr r1 r2 hr hs, PodAnalyzer.failedDetail, hr]

/-- Companion of C14, C20 and C29: two calls that enumerate the status maps of the same
snapshots in different orders stop with the same fault or both return, and leave the same
findings up to their order. -/
theorem loopFindings_perm (tbl : Nat → Nat) (l1 l2 : List ResourceData)
    (h : List.Forall₂ sameSnapshot l1 l2) :
    (loopFindings tbl l1).2 = (loopFindings tbl l2).2 ∧
    (loopFindings tbl l1).1.Perm (loopFindings tbl l2).1 := by
  have hbody : ∀ r1 r2, sameSnapshot r1 r2 →
      (bodyFindings tbl r1).2 = (bodyFindings tbl r2).2 ∧
      (bodyFindings tbl r1).1.Perm (bodyFindings tbl r2).1 := by
    intro r1 r2 hsame
    obtain ⟨heq, hperm, hnd⟩ := hsame
    have hl : ∀ k, mapGet? r1.Status k = mapGet? r2.Status k := fun k =>
      lookup_perm k hperm hnd
    have hres : r1.Resource = r2.Resource := by rw [heq]
    have hev : r1.Events = r2.Events := by rw [heq]
    have hlogs : r1.Logs = r2.Logs := by rw [heq]
    have hc : ∀ kv, containerFindings r1 kv = containerFindings r2 kv := fun kv =>
      containerFindings_congr r1 r2 kv hres hl
    have hcont : (r1.Status.flatMap (containerFindings r1)).Perm
        (r2.Status.flatMap (containerFindings r2)) := by
      have : containerFindings r2 = containerFindings r1 := funext (fun kv => (hc kv).symm)
      rw [this]
      exact hperm.flatMap_right _
    have hevf : r1.Events.flatMap (eventFindings tbl r1)
        = r2.Events.flatMap (eventFindings tbl r2) := by
      have : eventFindings tbl r1 = eventFindings tbl r2 := by
        funext e
        simp only [eventFindings, PodAnalyzer.oomDetail, PodAnalyzer.evictDetail, hres]
      rw [this, hev]
    have hlogf : logFindings tbl r1 = logFindings tbl r2 := by
      simp only [logFindings, connectionFindings, PodAnalyzer.logErrorDetail,
        PodAnalyzer.connectionDetail, hres, hlogs]
    have hst : statusFindings r1 = statusFindings r2 :=
      statusFindings_congr r1 r2 hres hl hperm.length_eq
    simp only [bodyFindings, podFindings, hres, hevf, hlogf, hst, hlogs]
    by_cases hk : r2.Resource.Kind = lit "Pod"
    · simp only [hk, if_true]
      generalize (if r2.Logs.length > 0 then logFindings tbl r2 else Except.ok []) = L
      cases L with
      | error f => exact ⟨rfl, hcont.append_right _⟩
      | ok logNew =>
        refine ⟨rfl, ?_⟩
        simp only [List.append_assoc]
        exact hcont.append_right _
    · simp only [hk, if_false]
      exact ⟨by trivial, List.Perm.refl _⟩
  induction h with
  | nil => exact ⟨rfl, List.Perm.refl _⟩
  | @cons r1 r2 t1 t2 hr _ ih =>
    obtain ⟨hf, hp⟩ := hbody r1 r2 hr
    have e1 : loopFindings tbl (r1 :: t1)
        = match bodyFindings tbl r1 with
          | (new, some f) => (new, some f)
          | (new, none) => (new ++ (loopFindings tbl t1).1, (loopFindings tbl t1).2) := rfl
    have e2 : loopFindings tbl (r2 :: t2)
        = match bodyFindings tbl r2 with
          | (new, some f) => (new, some f)
          | (new, none) => (new ++ (loopFindings tbl t2).1, (loopFindings tbl t2).2) := rfl
    rw [e1, e2]
    rcases hb1 : bodyFindings tbl r1 with ⟨n1, _ | f1⟩ <;>
      rcases hb2 : bodyFindings tbl r2 with ⟨n2, _ | f2⟩ <;>
      rw [hb1, hb2] at hf hp <;> simp only [] at hf hp ⊢
    · exact ⟨ih.1, hp.append ih.2⟩
    · cases hf
    · cases hf
    · exact ⟨hf, hp⟩

end K8sMed
